import Mathlib

/-!
Shallow embedding of the Minesweeper game engine of `src/game.rs`
(struct `Tile`, enum `GameState`, struct `Game` and its methods), together
with proofs of the specification's claims about it.

Modelling conventions:
* Rust `u32` counters become `Nat`; each place where the Rust code does a
  `-= 1` is reached only when the counter is positive (proved below via the
  counter invariants), so truncated `Nat` subtraction agrees with `u32`.
* `Vec<Vec<Tile>>` becomes `List (List Tile)`, indexed `tiles[y][x]`.
* A Rust indexing panic (`self.tiles[y][x]` out of bounds) is modelled by
  returning `none` from the operation (`Option Game`).
* `DateTime::<Utc>::from(SystemTime::now())` is modelled by an explicit
  `now : Nat` argument to each operation.
* `rand::thread_rng().gen_range` is modelled by an explicit stream
  (`List (Nat × Nat)`) of candidate positions consumed by the placement
  loop; `gen_range (0..w)` guarantees each candidate is in range, which the
  theorems carry as a hypothesis.  The unbounded rejection-sampling `while`
  loop returns `none` when the given stream is exhausted.
* The recursion of `make_adjacent_tiles_visible` is modelled with explicit
  fuel `width * height + 1`; the recursion depth of the Rust function is
  bounded by the number of unrevealed safe tiles plus one, so this fuel is
  never exhausted (proved below via `usc` bounds).
-/

namespace Mine

/-- Embeds Rust `struct Tile` (game.rs lines 8-13). -/
structure Tile where
  is_mine : Bool
  is_flagged : Bool
  is_revealed : Bool
  adjacent_mines : Nat
deriving DecidableEq, Repr

/-- Embeds `Tile::new` (game.rs lines 16-23). -/
def Tile.new : Tile :=
  { is_mine := false, is_flagged := false, is_revealed := false, adjacent_mines := 0 }

/-- Embeds Rust `enum GameState` (game.rs lines 27-32). -/
inductive GameState where
  | Won
  | Playing
  | Lost
  | NotStarted
deriving DecidableEq, Repr

/-- Embeds Rust `struct Game` (game.rs lines 34-44). -/
structure Game where
  height : Nat
  width : Nat
  tiles : List (List Tile)
  number_of_mines : Nat
  unmined_tiles : Nat
  placed_flag_count : Nat
  state : GameState
  time_started : Nat
  last_move_time : Nat
deriving DecidableEq, Repr

/-- Embeds `Game::new` (game.rs lines 47-61). -/
def Game.new (width height number_of_mines now : Nat) : Game :=
  { height := height
    width := width
    tiles := List.replicate height (List.replicate width Tile.new)
    number_of_mines := number_of_mines
    unmined_tiles := width * height
    placed_flag_count := 0
    state := GameState.NotStarted
    time_started := now
    last_move_time := now }

/-- Lookup of `self.tiles[y][x]`; `none` when the indexing would panic. -/
def Game.getTile? (g : Game) (x y : Nat) : Option Tile :=
  (g.tiles[y]?).bind fun row => row[x]?

/-- Writing `self.tiles[y][x] = t` (a no-op when out of range, which the
operations below never rely on: every write site is in range). -/
def Game.setTile (g : Game) (x y : Nat) (t : Tile) : Game :=
  { g with tiles := g.tiles.set y ((g.tiles.getD y []).set x t) }

/-- Embeds `Game::is_out_of_bounds` (game.rs lines 63-71). -/
def Game.is_out_of_bounds (g : Game) (position : Int × Int) : Bool :=
  if position.1 < 0 || position.1 > (g.width : Int) - 1 then true
  else if position.2 < 0 || position.2 > (g.height : Int) - 1 then true
  else false

/-- The eight recursive call arguments of `make_adjacent_tiles_visible`
(game.rs lines 96-103), in source order. -/
def neighborOffsets (p : Int × Int) : List (Int × Int) :=
  [(p.1 - 1, p.2), (p.1 + 1, p.2), (p.1 - 1, p.2 - 1), (p.1 - 1, p.2 + 1),
   (p.1 + 1, p.2 - 1), (p.1 + 1, p.2 + 1), (p.1, p.2 - 1), (p.1, p.2 + 1)]

/-- The reveal block of `make_adjacent_tiles_visible` (game.rs lines
84-90): mark the tile revealed, decrement `unmined_tiles`, and clear any
flag on it (decrementing `placed_flag_count`). -/
def revealTile (g : Game) (x y : Nat) (tile : Tile) : Game :=
  { g.setTile x y { tile with is_revealed := true, is_flagged := false } with
    unmined_tiles := g.unmined_tiles - 1
    placed_flag_count :=
      if tile.is_flagged then g.placed_flag_count - 1 else g.placed_flag_count }

/-- Embeds `Game::make_adjacent_tiles_visible` (game.rs lines 73-104) with
explicit fuel; the eight sequential recursive calls are a `foldl` over
`neighborOffsets`.  The `none` branch of the lookup is unreachable for an
in-bounds position on a well-shaped grid. -/
def madv : Nat → Game → Int × Int → Game
  | 0, g, _ => g
  | fuel + 1, g, p =>
    if g.is_out_of_bounds p then g
    else
      match g.getTile? p.1.toNat p.2.toNat with
      | none => g
      | some tile =>
        if tile.is_revealed || tile.is_mine then g
        else
          let g1 := revealTile g p.1.toNat p.2.toNat tile
          if tile.adjacent_mines ≠ 0 then g1
          else (neighborOffsets p).foldl (madv fuel) g1

/-- `Game::make_adjacent_tiles_visible` at its always-sufficient fuel. -/
def Game.make_adjacent_tiles_visible (g : Game) (p : Int × Int) : Game :=
  madv (g.width * g.height + 1) g p

/-- Embeds `Game::can_place_mine` (game.rs lines 106-122); `num_integer`'s
`sqrt` on a non-negative `i32` is the truncated square root.  The `none`
branch is unreachable: candidates come from `gen_range` and are in range. -/
def Game.can_place_mine (g : Game) (position dug_position : Nat × Nat) : Bool :=
  let dx : Int := (dug_position.1 : Int) - (position.1 : Int)
  let dy : Int := (dug_position.2 : Int) - (position.2 : Int)
  if Nat.sqrt (dx * dx + dy * dy).toNat < 3 then false
  else
    match g.getTile? position.1 position.2 with
    | some t => !t.is_mine
    | none => false

/-- Setting `is_mine = true` at a candidate position (game.rs line 138). -/
def Game.setMine (g : Game) (c : Nat × Nat) : Game :=
  match g.getTile? c.1 c.2 with
  | some t => g.setTile c.1 c.2 { t with is_mine := true }
  | none => g

/-- The placement loop of `Game::generate_mines` (game.rs lines 125-139):
for each of the `k` mines, candidates are consumed from the stream `cs`
until one passes `can_place_mine`; `none` models exhausting the stream
(the Rust loop would keep resampling, never terminating if no candidate
can ever be accepted). -/
def placeMines : Game → List (Nat × Nat) → Nat → Nat × Nat → Option Game
  | g, _, 0, _ => some g
  | _, [], _ + 1, _ => none
  | g, c :: cs, k + 1, dug =>
    if g.can_place_mine c dug then placeMines (g.setMine c) cs k dug
    else placeMines g cs (k + 1) dug

/-- Integer range `lo..=hi` as a list (the Rust `for` ranges over `i32`). -/
def intRange (lo hi : Int) : List Int :=
  (List.range (hi + 1 - lo).toNat).map fun i => lo + (i : Int)

/-- Reading `self.tiles[y][x].is_mine` at `i32` indices (game.rs line 167);
the guard branches are unreachable at the clipped in-bounds indices the
adjacency loop produces. -/
def Game.mineAtI (g : Game) (x y : Int) : Bool :=
  if x < 0 || y < 0 then false
  else
    match g.getTile? x.toNat y.toNat with
    | some t => t.is_mine
    | none => false

/-- The inner counting loops of `Game::generate_mines` (game.rs lines
143-171): count mines in the 3-by-3 block around `(x, y)` clipped at the
edges (the block includes the centre tile itself). -/
def Game.adjCountAt (g : Game) (x y : Int) : Nat :=
  let limit_x_lower : Int := if x = 0 then 0 else -1
  let limit_x_upper : Int := if x = (g.width : Int) - 1 then 0 else 1
  let limit_y_lower : Int := if y = 0 then 0 else -1
  let limit_y_upper : Int := if y = (g.height : Int) - 1 then 0 else 1
  (intRange limit_y_lower limit_y_upper).foldl
    (fun acc y2 =>
      (intRange limit_x_lower limit_x_upper).foldl
        (fun acc2 x2 => if g.mineAtI (x2 + x) (y2 + y) then acc2 + 1 else acc2) acc)
    0

/-- The adjacency pass of `Game::generate_mines` (game.rs lines 141-174).
The Rust loop writes only `adjacent_mines` fields while reading only
`is_mine` fields, so it equals this per-tile map over the grid (the grid
always has its declared `height * width` shape). -/
def Game.computeAdjacency (g : Game) : Game :=
  { g with
    tiles :=
      (List.range g.height).map fun y =>
        (List.range g.width).map fun x =>
          match g.getTile? x y with
          | some t => { t with adjacent_mines := g.adjCountAt (x : Int) (y : Int) }
          | none => Tile.new }

/-- Embeds `Game::generate_mines` (game.rs lines 124-175): the placement
loop followed by the adjacency pass. -/
def Game.generate_mines (g : Game) (position : Nat × Nat) (cs : List (Nat × Nat)) :
    Option Game :=
  (placeMines g cs g.number_of_mines position).map Game.computeAdjacency

/-- The part of `Game::start_dig` after mine generation (game.rs lines
181-186): reveal from the dug position, enter `Playing`, then the win
check. -/
def Game.afterGenDig (g : Game) (position : Nat × Nat) : Game :=
  let g2 := g.make_adjacent_tiles_visible ((position.1 : Int), (position.2 : Int))
  let g3 := { g2 with state := GameState.Playing }
  if g3.unmined_tiles = g3.number_of_mines then { g3 with state := GameState.Won } else g3

/-- Embeds `Game::start_dig` (game.rs lines 177-187). -/
def Game.start_dig (g : Game) (position : Nat × Nat) (cs : List (Nat × Nat)) (now : Nat) :
    Option Game :=
  let gt := { g with time_started := now, last_move_time := now }
  (gt.generate_mines position cs).map fun gm => gm.afterGenDig position

/-- Embeds `Game::single_dig` (game.rs lines 189-208).  Note the Rust code
stamps `last_move_time` before any precondition check, and indexes the grid
without a bounds check (`none` = panic). -/
def Game.single_dig (g : Game) (position : Nat × Nat) (now : Nat) : Option Game :=
  let gt := { g with last_move_time := now }
  match gt.getTile? position.1 position.2 with
  | none => none
  | some tile =>
    if tile.is_flagged then some gt
    else if tile.is_mine then
      some { gt.setTile position.1 position.2 { tile with is_revealed := true } with
             state := GameState.Lost }
    else
      let g1 := gt.make_adjacent_tiles_visible ((position.1 : Int), (position.2 : Int))
      some (if g1.unmined_tiles = g1.number_of_mines then { g1 with state := GameState.Won }
            else g1)

/-- Embeds `Game::dig` (game.rs lines 210-216). -/
def Game.dig (g : Game) (position : Nat × Nat) (cs : List (Nat × Nat)) (now : Nat) :
    Option Game :=
  match g.state with
  | GameState.NotStarted => g.start_dig position cs now
  | GameState.Playing => g.single_dig position now
  | _ => some g

/-- Embeds `Game::flag` (game.rs lines 218-230); same stamping and
indexing behaviour as `single_dig`. -/
def Game.flag (g : Game) (position : Nat × Nat) (now : Nat) : Option Game :=
  if g.state ≠ GameState.Playing then some g
  else
    let gt := { g with last_move_time := now }
    match gt.getTile? position.1 position.2 with
    | none => none
    | some tile =>
      if !tile.is_revealed && !tile.is_flagged && gt.placed_flag_count < gt.number_of_mines then
        some { gt.setTile position.1 position.2 { tile with is_flagged := true } with
               placed_flag_count := gt.placed_flag_count + 1 }
      else some gt

/-- Embeds `Game::unflag` (game.rs lines 232-244). -/
def Game.unflag (g : Game) (position : Nat × Nat) (now : Nat) : Option Game :=
  if g.state ≠ GameState.Playing then some g
  else
    let gt := { g with last_move_time := now }
    match gt.getTile? position.1 position.2 with
    | none => none
    | some tile =>
      if tile.is_flagged then
        some { gt.setTile position.1 position.2 { tile with is_flagged := false } with
               placed_flag_count := gt.placed_flag_count - 1 }
      else some gt

/-- A player command together with its modelled environment inputs. -/
inductive Move where
  | dig (position : Nat × Nat) (cs : List (Nat × Nat)) (now : Nat)
  | flag (position : Nat × Nat) (now : Nat)
  | unflag (position : Nat × Nat) (now : Nat)

/-- Dispatch of a command to the engine. -/
def Game.applyMove (g : Game) : Move → Option Game
  | Move.dig position cs now => g.dig position cs now
  | Move.flag position now => g.flag position now
  | Move.unflag position now => g.unflag position now

/-- The `gen_range (0..width)` and `gen_range (0..height)` contract on the
candidate stream of a dig. -/
def Move.candsOK (w h : Nat) : Move → Prop
  | Move.dig _ cs _ => ∀ c ∈ cs, c.1 < w ∧ c.2 < h
  | _ => True

/-- Games reachable from `Game::new` under valid construction parameters
(`0 < number_of_mines < width * height`, spec section 3) by successful
engine commands. -/
inductive Reachable (w h m : Nat) : Game → Prop where
  | init (now : Nat) (hm0 : 0 < m) (hm : m < w * h) : Reachable w h m (Game.new w h m now)
  | step {g g' : Game} (mv : Move) : Reachable w h m g → mv.candsOK w h →
      g.applyMove mv = some g' → Reachable w h m g'

/-- Well-shaped grid: the `Vec<Vec<Tile>>` has its declared dimensions
(true of every game the Rust code constructs). -/
def Game.WF (g : Game) : Prop :=
  g.tiles.length = g.height ∧ ∀ row ∈ g.tiles, row.length = g.width

instance (g : Game) : Decidable g.WF := by
  unfold Game.WF; infer_instance

/-- Count of grid tiles satisfying a predicate. -/
def Game.countGrid (g : Game) (p : Tile → Bool) : Nat :=
  (g.tiles.map fun row => row.countP p).sum

/-- Number of revealed safe tiles. -/
def Game.revCount (g : Game) : Nat :=
  g.countGrid fun t => t.is_revealed && !t.is_mine

/-- Number of unrevealed safe tiles (bounds the cascade recursion depth). -/
def Game.usc (g : Game) : Nat :=
  g.countGrid fun t => !t.is_revealed && !t.is_mine

/-- Number of mine tiles. -/
def Game.mineCount (g : Game) : Nat :=
  g.countGrid fun t => t.is_mine

/-- Total number of grid cells. -/
def Game.totalTiles (g : Game) : Nat :=
  (g.tiles.map List.length).sum

/-! ### Basic grid lemmas -/

theorem Game.getTile?_isSome (g : Game) (hw : g.WF) (x y : Nat) :
    (g.getTile? x y).isSome ↔ x < g.width ∧ y < g.height := by
  obtain ⟨hl, hr⟩ := hw
  unfold Game.getTile?
  rcases hy : g.tiles[y]? with _ | row
  · rw [List.getElem?_eq_none_iff] at hy
    simp only [Option.none_bind, Option.isSome_none, Bool.false_eq_true, false_iff]
    omega
  · have hylt : y < g.tiles.length := by
      by_contra hc
      rw [List.getElem?_eq_none_iff.2 (by omega)] at hy; cases hy
    have hrow : row.length = g.width := by
      apply hr
      exact List.getElem?_mem hy
    simp only [Option.some_bind]
    rcases hx : row[x]? with _ | t
    · rw [List.getElem?_eq_none_iff] at hx
      simp only [Option.isSome_none, Bool.false_eq_true, false_iff]
      omega
    · have : x < row.length := by
        by_contra hc
        rw [List.getElem?_eq_none_iff.2 (by omega)] at hx; cases hx
      simp only [Option.isSome_some, true_iff]
      omega

theorem Game.getTile?_some_of_inB (g : Game) (hw : g.WF) {x y : Nat}
    (hx : x < g.width) (hy : y < g.height) : ∃ t, g.getTile? x y = some t := by
  have := (g.getTile?_isSome hw x y).2 ⟨hx, hy⟩
  rcases h : g.getTile? x y with _ | t
  · rw [h] at this; cases this
  · exact ⟨t, rfl⟩

theorem Game.setTile_width (g : Game) (x y : Nat) (t : Tile) :
    (g.setTile x y t).width = g.width := rfl

theorem Game.setTile_height (g : Game) (x y : Nat) (t : Tile) :
    (g.setTile x y t).height = g.height := rfl

theorem Game.getTile?_setTile_self (g : Game) {x y : Nat} {t0 : Tile} (t : Tile)
    (h : g.getTile? x y = some t0) : (g.setTile x y t).getTile? x y = some t := by
  simp only [Game.getTile?, Game.setTile] at h ⊢
  rcases hy : g.tiles[y]? with _ | row
  · rw [hy] at h; cases h
  · rw [hy] at h
    simp only [Option.some_bind] at h
    have hylt : y < g.tiles.length := by
      by_contra hc
      rw [List.getElem?_eq_none_iff.2 (by omega)] at hy; cases hy
    have hxlt : x < row.length := by
      by_contra hc
      rw [List.getElem?_eq_none_iff.2 (by omega)] at h; cases h
    have hgd : g.tiles.getD y [] = row := by
      rw [List.getD_eq_getElem?_getD, hy]; rfl
    rw [hgd]
    have h1 : (g.tiles.set y (row.set x t))[y]? = some (row.set x t) :=
      List.getElem?_set_eq_of_lt _ (by simpa using hylt)
    rw [h1]
    simp only [Option.some_bind]
    exact List.getElem?_set_eq_of_lt _ (by simpa using hxlt)

theorem Game.getTile?_setTile_ne (g : Game) {x y x' y' : Nat} (t : Tile)
    (h : x ≠ x' ∨ y ≠ y') : (g.setTile x y t).getTile? x' y' = g.getTile? x' y' := by
  simp only [Game.getTile?, Game.setTile]
  rcases eq_or_ne y y' with hyy | hyy
  · subst hyy
    have hxx : x ≠ x' := by tauto
    rcases hy : g.tiles[y]? with _ | row
    · have hge : g.tiles.length ≤ y := List.getElem?_eq_none_iff.1 hy
      rw [List.set_eq_of_length_le hge, hy]
    · have hylt : y < g.tiles.length := by
        by_contra hc
        rw [List.getElem?_eq_none_iff.2 (by omega)] at hy; cases hy
      have hgd : g.tiles.getD y [] = row := by
        rw [List.getD_eq_getElem?_getD, hy]; rfl
      rw [hgd, List.getElem?_set_eq_of_lt _ hylt]
      simp only [Option.some_bind]
      exact List.getElem?_set_ne hxx
  · rw [List.getElem?_set_ne hyy]

theorem Game.WF_setTile (g : Game) (x y : Nat) (t : Tile) (hw : g.WF) :
    (g.setTile x y t).WF := by
  obtain ⟨hl, hr⟩ := hw
  by_cases hylt : y < g.tiles.length
  · constructor
    · simpa [Game.setTile] using hl
    · intro row hrow
      simp only [Game.setTile] at hrow
      rcases List.mem_or_eq_of_mem_set hrow with h | h
      · exact hr _ h
      · subst h
        rw [List.length_set]
        rcases hy : g.tiles[y]? with _ | r
        · rw [List.getElem?_eq_none_iff] at hy; omega
        · rw [List.getD_eq_getElem?_getD, hy]
          exact hr _ (List.getElem?_mem hy)
  · have hset : g.tiles.set y ((g.tiles.getD y []).set x t) = g.tiles :=
      List.set_eq_of_length_le (by omega)
    constructor
    · simp only [Game.setTile, hset]; exact hl
    · intro row hrow
      simp only [Game.setTile, hset] at hrow
      exact hr _ hrow

/-! ### Counting lemmas -/

theorem List.countP_set_add {α : Type} (p : α → Bool) :
    ∀ (l : List α) (i : Nat) (a b : α), l[i]? = some b →
      (l.set i a).countP p + (if p b then 1 else 0) =
        l.countP p + (if p a then 1 else 0)
  | [], i, a, b, h => by simp at h
  | c :: l, 0, a, b, h => by
    simp only [List.getElem?_cons_zero, Option.some.injEq] at h
    subst h
    simp only [List.set_cons_zero, List.countP_cons]
    omega
  | c :: l, i + 1, a, b, h => by
    simp only [List.getElem?_cons_succ] at h
    have := List.countP_set_add p l i a b h
    simp only [List.set_cons_succ, List.countP_cons]
    omega

theorem List.sum_set_add :
    ∀ (l : List Nat) (i : Nat) (a b : Nat), l[i]? = some b →
      (l.set i a).sum + b = l.sum + a
  | [], i, a, b, h => by simp at h
  | c :: l, 0, a, b, h => by
    simp only [List.getElem?_cons_zero, Option.some.injEq] at h
    subst h
    simp only [List.set_cons_zero, List.sum_cons]
    omega
  | c :: l, i + 1, a, b, h => by
    simp only [List.getElem?_cons_succ] at h
    have := List.sum_set_add l i a b h
    simp only [List.set_cons_succ, List.sum_cons]
    omega

theorem List.getElem?_map_of_some {α β : Type} (f : α → β) {l : List α} {i : Nat} {a : α}
    (h : l[i]? = some a) : (l.map f)[i]? = some (f a) := by
  rw [List.getElem?_map, h]; rfl

theorem Game.countGrid_setTile (g : Game) (p : Tile → Bool) {x y : Nat} {t0 : Tile}
    (t : Tile) (h : g.getTile? x y = some t0) :
    (g.setTile x y t).countGrid p + (if p t0 then 1 else 0) =
      g.countGrid p + (if p t then 1 else 0) := by
  unfold Game.getTile? at h
  rcases hy : g.tiles[y]? with _ | row
  · rw [hy] at h; cases h
  · rw [hy] at h
    simp only [Option.some_bind] at h
    have hgd : g.tiles.getD y [] = row := by
      rw [List.getD_eq_getElem?_getD, hy]; rfl
    unfold Game.countGrid Game.setTile
    simp only [hgd]
    rw [List.map_set]
    have h1 : (g.tiles.map fun r => r.countP p)[y]? = some (row.countP p) :=
      List.getElem?_map_of_some _ hy
    have h2 := List.sum_set_add (g.tiles.map fun r => r.countP p) y
      ((row.set x t).countP p) (row.countP p) h1
    have h3 := List.countP_set_add p row x t t0 h
    omega

theorem List.countP_lt_length {α : Type} (p : α → Bool) :
    ∀ (l : List α) (i : Nat) (b : α), l[i]? = some b → ¬ p b →
      l.countP p < l.length
  | [], i, b, h, _ => by simp at h
  | c :: l, 0, b, h, hp => by
    simp only [List.getElem?_cons_zero, Option.some.injEq] at h
    subst h
    have := List.countP_le_length (l := l) (p := p)
    simp only [List.countP_cons, List.length_cons]
    have hpb : (if p c then 1 else 0) = 0 := by simp [hp]
    omega
  | c :: l, i + 1, b, h, hp => by
    simp only [List.getElem?_cons_succ] at h
    have := List.countP_lt_length p l i b h hp
    simp only [List.countP_cons, List.length_cons]
    have : l.countP p < l.length := this
    have hc : (if p c then 1 else 0) ≤ 1 := by split <;> omega
    omega

theorem List.sum_countP_le {α : Type} (p : α → Bool) (l : List (List α)) :
    (l.map fun r => r.countP p).sum ≤ (l.map List.length).sum := by
  induction l with
  | nil => simp
  | cons r l ih =>
    simp only [List.map_cons, List.sum_cons]
    have := List.countP_le_length (l := r) (p := p)
    omega

theorem Game.countGrid_le_totalTiles (g : Game) (p : Tile → Bool) :
    g.countGrid p ≤ g.totalTiles :=
  List.sum_countP_le p g.tiles

theorem List.sum_countP_lt {α : Type} (p : α → Bool) :
    ∀ (L : List (List α)) (y : Nat) (row : List α), L[y]? = some row →
      row.countP p < row.length →
      (L.map fun r => r.countP p).sum < (L.map List.length).sum
  | [], y, row, hy, _ => by simp at hy
  | r :: L, 0, row, hy, hrow => by
    simp only [List.getElem?_cons_zero, Option.some.injEq] at hy
    subst hy
    simp only [List.map_cons, List.sum_cons]
    have := List.sum_countP_le p L
    omega
  | r :: L, y + 1, row, hy, hrow => by
    simp only [List.getElem?_cons_succ] at hy
    have := List.sum_countP_lt p L y row hy hrow
    simp only [List.map_cons, List.sum_cons]
    have h1 := List.countP_le_length (l := r) (p := p)
    omega

theorem Game.countGrid_lt_totalTiles (g : Game) (p : Tile → Bool) {x y : Nat} {t0 : Tile}
    (h : g.getTile? x y = some t0) (hp : ¬ p t0) :
    g.countGrid p < g.totalTiles := by
  unfold Game.getTile? at h
  rcases hy : g.tiles[y]? with _ | row
  · rw [hy] at h; cases h
  · rw [hy] at h
    simp only [Option.some_bind] at h
    exact List.sum_countP_lt p g.tiles y row hy (List.countP_lt_length p row x t0 h hp)

theorem List.sum_map_length_of_all {α : Type} (w : Nat) :
    ∀ (l : List (List α)), (∀ row ∈ l, row.length = w) →
      (l.map List.length).sum = l.length * w
  | [], _ => by simp
  | r :: l, h => by
    simp only [List.map_cons, List.sum_cons, List.length_cons]
    rw [h r (by simp), List.sum_map_length_of_all w l (fun row hrow => h row (by simp [hrow]))]
    ring

theorem Game.totalTiles_eq (g : Game) (hw : g.WF) :
    g.totalTiles = g.height * g.width := by
  obtain ⟨hl, hr⟩ := hw
  unfold Game.totalTiles
  rw [List.sum_map_length_of_all g.width g.tiles hr, hl]

theorem Game.getTile?_eq_none_of_oob (g : Game) (hw : g.WF) {x y : Nat}
    (h : ¬ (x < g.width ∧ y < g.height)) : g.getTile? x y = none := by
  rcases hg : g.getTile? x y with _ | t
  · rfl
  · exact absurd ((g.getTile?_isSome hw x y).1 (by rw [hg]; rfl)) h

theorem Game.getTile?_stamp_last (g : Game) (now : Nat) (x y : Nat) :
    ({ g with last_move_time := now } : Game).getTile? x y = g.getTile? x y := rfl

theorem Game.getTile?_stamp_times (g : Game) (t0 t1 : Nat) (x y : Nat) :
    ({ g with time_started := t0, last_move_time := t1 } : Game).getTile? x y =
      g.getTile? x y := rfl

theorem Game.WF_stamp_last (g : Game) (now : Nat) (hw : g.WF) :
    ({ g with last_move_time := now } : Game).WF := hw

theorem Game.WF_stamp_times (g : Game) (t0 t1 : Nat) (hw : g.WF) :
    ({ g with time_started := t0, last_move_time := t1 } : Game).WF := hw

/-- The cast of a `Nat` position is out of bounds exactly when the position
is not inside the board rectangle. -/
theorem Game.is_out_of_bounds_cast (g : Game) (p : Nat × Nat) :
    g.is_out_of_bounds ((p.1 : Int), (p.2 : Int)) = true ↔
      ¬ (p.1 < g.width ∧ p.2 < g.height) := by
  unfold Game.is_out_of_bounds
  split_ifs with h1 h2
  · simp only [true_iff]
    simp only [Bool.or_eq_true, decide_eq_true_eq] at h1
    omega
  · simp only [true_iff]
    simp only [Bool.or_eq_true, decide_eq_true_eq] at h2
    omega
  · simp only [Bool.false_eq_true, false_iff, not_not]
    simp only [Bool.or_eq_true, decide_eq_true_eq, not_or] at h1 h2
    exact ⟨by omega, by omega⟩

theorem Game.is_out_of_bounds_cast_false (g : Game) (p : Nat × Nat)
    (h1 : p.1 < g.width) (h2 : p.2 < g.height) :
    g.is_out_of_bounds ((p.1 : Int), (p.2 : Int)) = false := by
  rcases hb : g.is_out_of_bounds ((p.1 : Int), (p.2 : Int)) with _ | _
  · rfl
  · exact absurd ⟨h1, h2⟩ ((g.is_out_of_bounds_cast p).1 hb)

/-- The cascade at an out-of-bounds start position changes nothing. -/
theorem madv_oob (fuel : Nat) (g : Game) (p : Int × Int)
    (h : g.is_out_of_bounds p = true) : madv fuel g p = g := by
  cases fuel with
  | zero => rfl
  | succ fuel => simp [madv, h]

/-! ### Pointwise counting -/

/-- Indicator of an optional tile satisfying a predicate. -/
def tileInd (p : Tile → Bool) : Option Tile → Nat
  | some t => if p t then 1 else 0
  | none => 0

/-- Grid count expressed through coordinate lookups. -/
def Game.countPt (g : Game) (p : Tile → Bool) : Nat :=
  ((List.range g.height).map fun y =>
    ((List.range g.width).map fun x => tileInd p (g.getTile? x y)).sum).sum

theorem List.countP_eq_sum_map_ind {α : Type} (p : α → Bool) :
    ∀ l : List α, l.countP p = (l.map fun a => if p a then 1 else 0).sum
  | [] => by simp
  | c :: l => by
    simp only [List.countP_cons, List.map_cons, List.sum_cons,
      List.countP_eq_sum_map_ind p l]
    omega

theorem List.map_sum_eq_range_sum {α : Type} (f : α → Nat) :
    ∀ l : List α,
      (l.map f).sum =
        ((List.range l.length).map fun i =>
          match l[i]? with
          | some a => f a
          | none => 0).sum
  | [] => by simp
  | c :: l => by
    simp only [List.map_cons, List.sum_cons, List.length_cons, List.range_succ_eq_map,
      List.map_map]
    have h2 :
        ((List.range l.length).map
          ((fun i =>
            match (c :: l)[i]? with
            | some a => f a
            | none => 0) ∘ Nat.succ)) =
        (List.range l.length).map fun i =>
          match l[i]? with
          | some a => f a
          | none => 0 := by
      apply List.map_congr_left
      intro i _
      simp [Function.comp, List.getElem?_cons_succ]
    rw [h2, ← List.map_sum_eq_range_sum f l]
    simp

theorem Game.countGrid_eq_countPt (g : Game) (p : Tile → Bool) (hw : g.WF) :
    g.countGrid p = g.countPt p := by
  obtain ⟨hl, hr⟩ := hw
  unfold Game.countGrid Game.countPt
  rw [List.map_sum_eq_range_sum (fun row => row.countP p) g.tiles, hl]
  apply congrArg
  apply List.map_congr_left
  intro y hy
  rw [List.mem_range] at hy
  have hylt : y < g.tiles.length := by omega
  have hrow : g.tiles[y]? = some (g.tiles[y]) := List.getElem?_eq_getElem hylt
  rw [hrow]
  have hlen : (g.tiles[y]).length = g.width := hr _ (List.getElem_mem hylt)
  dsimp only
  rw [List.countP_eq_sum_map_ind p, List.map_sum_eq_range_sum _ (g.tiles[y]), hlen]
  apply congrArg
  apply List.map_congr_left
  intro x _
  unfold Game.getTile?
  rw [hrow]
  simp only [Option.some_bind]
  rcases hx : (g.tiles[y])[x]? with _ | t <;> simp [tileInd, hx]

/-! ### Field preservation through mine generation -/

theorem Game.getTile?_set_state (g : Game) (s : GameState) (x y : Nat) :
    ({ g with state := s } : Game).getTile? x y = g.getTile? x y := rfl

theorem Game.setMine_fields (g : Game) (c : Nat × Nat) :
    (g.setMine c).width = g.width ∧ (g.setMine c).height = g.height ∧
    (g.setMine c).number_of_mines = g.number_of_mines ∧
    (g.setMine c).unmined_tiles = g.unmined_tiles ∧
    (g.setMine c).placed_flag_count = g.placed_flag_count ∧
    (g.setMine c).state = g.state ∧ (g.setMine c).time_started = g.time_started ∧
    (g.setMine c).last_move_time = g.last_move_time ∧ (g.WF → (g.setMine c).WF) := by
  unfold Game.setMine
  split
  · exact ⟨rfl, rfl, rfl, rfl, rfl, rfl, rfl, rfl, fun hw => Game.WF_setTile _ _ _ _ hw⟩
  · exact ⟨rfl, rfl, rfl, rfl, rfl, rfl, rfl, rfl, fun hw => hw⟩

theorem placeMines_fields :
    ∀ (g : Game) (cs : List (Nat × Nat)) (k : Nat) (dug : Nat × Nat) (g' : Game),
      placeMines g cs k dug = some g' →
      g'.width = g.width ∧ g'.height = g.height ∧
      g'.number_of_mines = g.number_of_mines ∧ g'.unmined_tiles = g.unmined_tiles ∧
      g'.placed_flag_count = g.placed_flag_count ∧ g'.state = g.state ∧
      g'.time_started = g.time_started ∧ g'.last_move_time = g.last_move_time ∧
      (g.WF → g'.WF)
  | g, cs, 0, dug, g', h => by
    simp only [placeMines, Option.some.injEq] at h
    subst h
    exact ⟨rfl, rfl, rfl, rfl, rfl, rfl, rfl, rfl, fun hw => hw⟩
  | g, [], k + 1, dug, g', h => Option.noConfusion h
  | g, c :: cs, k + 1, dug, g', h => by
    simp only [placeMines] at h
    split at h
    · obtain ⟨w1, h1, m1, u1, p1, s1, t1, l1, wf1⟩ := placeMines_fields _ _ _ _ _ h
      obtain ⟨w2, h2, m2, u2, p2, s2, t2, l2, wf2⟩ := Game.setMine_fields g c
      exact ⟨w1.trans w2, h1.trans h2, m1.trans m2, u1.trans u2, p1.trans p2,
        s1.trans s2, t1.trans t2, l1.trans l2, fun hw => wf1 (wf2 hw)⟩
    · exact placeMines_fields _ _ _ _ _ h

theorem Game.computeAdjacency_WF (g : Game) : (g.computeAdjacency).WF := by
  constructor
  · simp [Game.computeAdjacency]
  · intro row hrow
    simp only [Game.computeAdjacency, List.mem_map, List.mem_range] at hrow
    obtain ⟨y, _, hrow⟩ := hrow
    subst hrow
    simp [Game.computeAdjacency]

theorem Game.generate_mines_fields (g : Game) (pos : Nat × Nat) (cs : List (Nat × Nat))
    (gm : Game) (h : g.generate_mines pos cs = some gm) :
    gm.width = g.width ∧ gm.height = g.height ∧ gm.number_of_mines = g.number_of_mines ∧
    gm.unmined_tiles = g.unmined_tiles ∧ gm.placed_flag_count = g.placed_flag_count ∧
    gm.state = g.state ∧ gm.time_started = g.time_started ∧
    gm.last_move_time = g.last_move_time ∧ gm.WF := by
  unfold Game.generate_mines at h
  rcases hpm : placeMines g cs g.number_of_mines pos with _ | gp
  · rw [hpm] at h; cases h
  · rw [hpm] at h
    simp only [Option.map_some'] at h
    obtain ⟨w1, h1, m1, u1, p1, s1, t1, l1, _⟩ := placeMines_fields _ _ _ _ _ hpm
    injection h with h2
    subst h2
    exact ⟨w1, h1, m1, u1, p1, s1, t1, l1, gp.computeAdjacency_WF⟩

theorem Game.countPt_congr (g g' : Game) (p : Tile → Bool)
    (hW : g'.width = g.width) (hH : g'.height = g.height)
    (hpt : ∀ x y, x < g.width → y < g.height →
      tileInd p (g'.getTile? x y) = tileInd p (g.getTile? x y)) :
    g'.countPt p = g.countPt p := by
  unfold Game.countPt
  rw [hW, hH]
  apply congrArg
  apply List.map_congr_left
  intro y hy
  rw [List.mem_range] at hy
  apply congrArg
  apply List.map_congr_left
  intro x hx
  rw [List.mem_range] at hx
  exact hpt x y hx hy


/-! ### Concrete games used by witnesses and counterexamples -/

/-- A 2-by-1 `Playing` board: safe tile at `(0,0)`, mine at `(1,0)`. -/
def exMineGame : Game :=
  { height := 1, width := 2,
    tiles := [[{ is_mine := false, is_flagged := false, is_revealed := false, adjacent_mines := 1 },
               { is_mine := true, is_flagged := false, is_revealed := false, adjacent_mines := 1 }]],
    number_of_mines := 1, unmined_tiles := 2, placed_flag_count := 0,
    state := GameState.Playing, time_started := 0, last_move_time := 0 }

/-- A 1-by-1 `Playing` board whose only tile is flagged. -/
def exFlaggedGame : Game :=
  { height := 1, width := 1,
    tiles := [[{ is_mine := false, is_flagged := true, is_revealed := false, adjacent_mines := 0 }]],
    number_of_mines := 1, unmined_tiles := 1, placed_flag_count := 1,
    state := GameState.Playing, time_started := 0, last_move_time := 0 }

/-- A 1-by-1 board in the terminal `Won` state. -/
def exWonGame : Game :=
  { height := 1, width := 1,
    tiles := [[{ is_mine := false, is_flagged := false, is_revealed := true, adjacent_mines := 0 }]],
    number_of_mines := 1, unmined_tiles := 1, placed_flag_count := 0,
    state := GameState.Won, time_started := 0, last_move_time := 0 }

/-- The 1-by-2 board of the spec's concrete scenario with the mine forced
at `(0,1)` and adjacency counts as the adjacency pass computes them, just
before the post-generation part of the first dig. -/
def forcedBoard12 : Game :=
  { height := 2, width := 1,
    tiles := [[{ is_mine := false, is_flagged := false, is_revealed := false, adjacent_mines := 1 }],
              [{ is_mine := true, is_flagged := false, is_revealed := false, adjacent_mines := 1 }]],
    number_of_mines := 1, unmined_tiles := 2, placed_flag_count := 0,
    state := GameState.NotStarted, time_started := 0, last_move_time := 0 }

/-! ### C6: digging a mine -/

/-- C6: if `dig` is called while the game is `Playing` on an unflagged mine
tile, the game transitions to `Lost`, exactly that tile becomes revealed,
every other tile is unchanged, and both counters are unchanged. -/
theorem C6_dig_mine_loses (g : Game) (p : Nat × Nat) (cs : List (Nat × Nat)) (now : Nat)
    (t : Tile) (hst : g.state = GameState.Playing)
    (ht : g.getTile? p.1 p.2 = some t) (hfl : t.is_flagged = false)
    (hmine : t.is_mine = true) :
    ∃ g', g.dig p cs now = some g' ∧
      g'.state = GameState.Lost ∧
      g'.getTile? p.1 p.2 = some { t with is_revealed := true } ∧
      (∀ q : Nat × Nat, q ≠ p → g'.getTile? q.1 q.2 = g.getTile? q.1 q.2) ∧
      g'.unmined_tiles = g.unmined_tiles ∧
      g'.placed_flag_count = g.placed_flag_count := by
  have ht' : (g.tiles[p.2]?).bind (fun row => row[p.1]?) = some t := ht
  have hd : g.dig p cs now =
      some { ({ g with last_move_time := now } : Game).setTile p.1 p.2
               { t with is_revealed := true } with
             state := GameState.Lost } := by
    simp [Game.dig, hst, Game.single_dig, Game.getTile?, Game.setTile, ht', hfl, hmine]
  refine ⟨_, hd, rfl, ?_, ?_, rfl, rfl⟩
  · rw [Game.getTile?_set_state]
    exact Game.getTile?_setTile_self _ _ ht
  · intro q hq
    rw [Game.getTile?_set_state]
    have : p.1 ≠ q.1 ∨ p.2 ≠ q.2 := by
      by_contra hc
      push_neg at hc
      exact hq (Prod.ext hc.1.symm hc.2.symm)
    rw [Game.getTile?_setTile_ne _ _ this]
    rfl

/-- Witness for C6 on the concrete board `exMineGame`. -/
theorem C6_dig_mine_loses_witness :
    (Game.dig exMineGame (1, 0) [] 3).map Game.state = some GameState.Lost ∧
    (Game.dig exMineGame (1, 0) [] 3).map Game.unmined_tiles = some 2 := by
  obtain ⟨g', hd, hstate, _, _, hun, _⟩ :=
    C6_dig_mine_loses exMineGame (1, 0) [] 3
      { is_mine := true, is_flagged := false, is_revealed := false, adjacent_mines := 1 }
      (by decide) (by decide) (by decide) (by decide)
  rw [hd]
  simp [hstate, hun]
  rfl

/-! ### C7: failed preconditions -/

/-- C7 counterexample: digging a flagged tile while `Playing` is *not* a
complete no-op: the code stamps `last_move_time` before checking the flag
(game.rs line 190 executes before line 193). -/
theorem C7_counterexample :
    Game.dig exFlaggedGame (0, 0) [] 5 = some { exFlaggedGame with last_move_time := 5 } ∧
    ({ exFlaggedGame with last_move_time := 5 } : Game) ≠ exFlaggedGame := by
  constructor
  · rfl
  · decide

/-- C7 amended: every failed-precondition operation leaves the board, the
counters, the state and `time_started` unchanged, but digging a flagged
tile, a failed `flag` and a failed `unflag` while `Playing` still stamp
`last_move_time`; only operations on a non-`Playing` game (terminal states
for `dig`) are complete no-ops. -/
theorem C7_failed_preconditions (g : Game) (p : Nat × Nat) (cs : List (Nat × Nat))
    (now : Nat) (t : Tile) :
    (g.state = GameState.Playing → g.getTile? p.1 p.2 = some t → t.is_flagged = true →
      g.dig p cs now = some { g with last_move_time := now }) ∧
    (g.state = GameState.Playing → g.getTile? p.1 p.2 = some t →
      (t.is_revealed = true ∨ t.is_flagged = true ∨
        g.number_of_mines ≤ g.placed_flag_count) →
      g.flag p now = some { g with last_move_time := now }) ∧
    (g.state = GameState.Playing → g.getTile? p.1 p.2 = some t → t.is_flagged = false →
      g.unflag p now = some { g with last_move_time := now }) ∧
    ((g.state = GameState.Won ∨ g.state = GameState.Lost) → g.dig p cs now = some g) ∧
    (g.state ≠ GameState.Playing → g.flag p now = some g) ∧
    (g.state ≠ GameState.Playing → g.unflag p now = some g) := by
  refine ⟨?_, ?_, ?_, ?_, ?_, ?_⟩
  · intro hst ht hfl
    have ht' : (g.tiles[p.2]?).bind (fun row => row[p.1]?) = some t := ht
    simp [Game.dig, hst, Game.single_dig, Game.getTile?, ht', hfl]
  · intro hst ht hcond
    have ht' : (g.tiles[p.2]?).bind (fun row => row[p.1]?) = some t := ht
    rcases hcond with hc | hc | hc
    · simp [Game.flag, hst, Game.getTile?, ht', hc]
    · simp [Game.flag, hst, Game.getTile?, ht', hc]
    · have hlt : ¬ (g.placed_flag_count < g.number_of_mines) := by omega
      simp [Game.flag, hst, Game.getTile?, ht', hlt]
  · intro hst ht hfl
    have ht' : (g.tiles[p.2]?).bind (fun row => row[p.1]?) = some t := ht
    simp [Game.unflag, hst, Game.getTile?, ht', hfl]
  · rintro (h | h) <;> simp [Game.dig, h]
  · intro h
    simp [Game.flag, h]
  · intro h
    simp [Game.unflag, h]

/-- Witness for C7 on concrete games. -/
theorem C7_failed_preconditions_witness :
    Game.dig exFlaggedGame (0, 0) [] 9 = some { exFlaggedGame with last_move_time := 9 } ∧
    Game.flag exFlaggedGame (0, 0) 9 = some { exFlaggedGame with last_move_time := 9 } ∧
    Game.unflag exMineGame (0, 0) 9 = some { exMineGame with last_move_time := 9 } ∧
    Game.dig exWonGame (0, 0) [] 9 = some exWonGame ∧
    Game.flag exWonGame (0, 0) 9 = some exWonGame ∧
    Game.unflag exWonGame (0, 0) 9 = some exWonGame := by
  have h1 := C7_failed_preconditions exFlaggedGame (0, 0) [] 9
    { is_mine := false, is_flagged := true, is_revealed := false, adjacent_mines := 0 }
  have h2 := C7_failed_preconditions exMineGame (0, 0) [] 9
    { is_mine := false, is_flagged := false, is_revealed := false, adjacent_mines := 1 }
  have h3 := C7_failed_preconditions exWonGame (0, 0) [] 9
    { is_mine := false, is_flagged := false, is_revealed := true, adjacent_mines := 0 }
  exact ⟨h1.1 (by decide) (by decide) (by decide),
    h1.2.1 (by decide) (by decide) (Or.inr (Or.inl (by decide))),
    h2.2.2.1 (by decide) (by decide) (by decide),
    h3.2.2.2.1 (Or.inl (by decide)),
    h3.2.2.2.2.1 (by decide),
    h3.2.2.2.2.2 (by decide)⟩

/-- The rejection test of `can_place_mine`, evaluated: the truncated
square root of the squared distance is below 3 exactly when the squared
distance is below 9 (`Nat.sqrt` itself does not compute by `decide`). -/
theorem Game.can_place_mine_eq (g : Game) (position dug_position : Nat × Nat) :
    g.can_place_mine position dug_position =
      (if ((dug_position.1 : Int) - position.1) * ((dug_position.1 : Int) - position.1) +
            ((dug_position.2 : Int) - position.2) * ((dug_position.2 : Int) - position.2) <
            9 then false
       else
         match g.getTile? position.1 position.2 with
         | some t => !t.is_mine
         | none => false) := by
  simp only [Game.can_place_mine]
  refine if_congr ?_ rfl rfl
  rw [Nat.sqrt_lt]
  omega

/-! ### C8: out-of-bounds coordinates -/

/-- C8 counterexample: out-of-bounds coordinates are *not* engine-level
no-ops.  While `Playing`, `dig`, `flag` and `unflag` reach the unguarded
indexing `self.tiles[y][x]` (game.rs lines 191, 224, 238) and panic
(modelled by `none`); in `NotStarted`, an out-of-bounds first dig still
runs the generator and moves the state to `Playing`. -/
theorem C8_counterexample :
    Game.dig exFlaggedGame (5, 5) [] 7 = none ∧
    Game.flag exFlaggedGame (5, 5) 7 = none ∧
    Game.unflag exFlaggedGame (5, 5) 7 = none ∧
    ((Game.new 2 2 0 0).dig (5, 5) [] 7).map Game.state = some GameState.Playing := by
  refine ⟨by rfl, by rfl, by rfl, by rfl⟩

/-- C8 amended: with an out-of-bounds coordinate, `dig`, `flag` and
`unflag` while `Playing` hit the indexing panic; `dig` on a terminal game
and `flag`/`unflag` on a non-`Playing` game are no-ops (the state check
precedes the indexing); an out-of-bounds `dig` in `NotStarted` runs the
mine generator and then transitions to `Playing` (or `Won` if the win
check fires), revealing nothing. -/
theorem C8_oob_behavior (g : Game) (p : Nat × Nat) (cs : List (Nat × Nat)) (now : Nat)
    (hw : g.WF) (hoob : ¬ (p.1 < g.width ∧ p.2 < g.height)) :
    (g.state = GameState.Playing →
      g.dig p cs now = none ∧ g.flag p now = none ∧ g.unflag p now = none) ∧
    ((g.state = GameState.Won ∨ g.state = GameState.Lost) → g.dig p cs now = some g) ∧
    (g.state ≠ GameState.Playing → g.flag p now = some g ∧ g.unflag p now = some g) ∧
    (g.state = GameState.NotStarted →
      ∀ gm, ({ g with time_started := now, last_move_time := now } : Game).generate_mines
              p cs = some gm →
        g.dig p cs now = some { gm with state := GameState.Playing } ∨
        g.dig p cs now = some { gm with state := GameState.Won }) := by
  have hnone : g.getTile? p.1 p.2 = none := g.getTile?_eq_none_of_oob hw hoob
  have hnone' : (g.tiles[p.2]?).bind (fun row => row[p.1]?) = none := hnone
  refine ⟨?_, ?_, ?_, ?_⟩
  · intro hst
    refine ⟨?_, ?_, ?_⟩
    · simp [Game.dig, hst, Game.single_dig, Game.getTile?, hnone']
    · simp [Game.flag, hst, Game.getTile?, hnone']
    · simp [Game.unflag, hst, Game.getTile?, hnone']
  · rintro (h | h) <;> simp [Game.dig, h]
  · intro h
    exact ⟨by simp [Game.flag, h], by simp [Game.unflag, h]⟩
  · intro hst gm hgen
    obtain ⟨hwid, hhei, _, _, _, _, _, _, _⟩ :=
      Game.generate_mines_fields _ _ _ _ hgen
    have hoob2 : gm.is_out_of_bounds ((p.1 : Int), (p.2 : Int)) = true := by
      apply (gm.is_out_of_bounds_cast p).2
      rw [hwid, hhei]
      exact hoob
    have hmadv : gm.make_adjacent_tiles_visible ((p.1 : Int), (p.2 : Int)) = gm :=
      madv_oob _ _ _ hoob2
    have hdispatch : g.dig p cs now = g.start_dig p cs now := by
      unfold Game.dig
      rw [hst]
    rw [hdispatch]
    simp only [Game.start_dig]
    rw [hgen]
    simp only [Option.map_some']
    simp only [Game.afterGenDig]
    rw [hmadv]
    by_cases hwin :
        ({ gm with state := GameState.Playing } : Game).unmined_tiles =
          ({ gm with state := GameState.Playing } : Game).number_of_mines
    · right
      rw [if_pos hwin]
    · left
      rw [if_neg hwin]

/-- A 2-by-2 mine-free board stamped by the first dig, used in the C8
witness. -/
def exGenBase : Game :=
  { (Game.new 2 2 0 0) with time_started := 2, last_move_time := 2 }

/-- Witness for C8 on concrete games. -/
theorem C8_oob_behavior_witness :
    (Game.dig exFlaggedGame (5, 5) [] 2 = none ∧
      Game.flag exFlaggedGame (5, 5) 2 = none ∧
      Game.unflag exFlaggedGame (5, 5) 2 = none) ∧
    Game.dig exWonGame (5, 5) [] 2 = some exWonGame ∧
    (Game.dig (Game.new 2 2 0 0) (5, 5) [] 2 =
        some { exGenBase.computeAdjacency with state := GameState.Playing } ∨
      Game.dig (Game.new 2 2 0 0) (5, 5) [] 2 =
        some { exGenBase.computeAdjacency with state := GameState.Won }) := by
  have h1 := C8_oob_behavior exFlaggedGame (5, 5) [] 2 (by decide) (by decide)
  have h2 := C8_oob_behavior exWonGame (5, 5) [] 2 (by decide) (by decide)
  have h3 := C8_oob_behavior (Game.new 2 2 0 0) (5, 5) [] 2 (by decide) (by decide)
  exact ⟨h1.1 (by decide), h2.2.1 (Or.inl (by decide)),
    h3.2.2.2 (by decide) exGenBase.computeAdjacency rfl⟩

/-! ### C10: the 1-by-2 concrete scenario -/

/-- If every candidate of the stream is rejected, the placement loop
consumes the whole stream without placing a mine. -/
theorem placeMines_none_of_reject (g : Game) (dug : Nat × Nat) :
    ∀ (cs : List (Nat × Nat)) (k : Nat), 0 < k →
      (∀ c ∈ cs, g.can_place_mine c dug = false) →
      placeMines g cs k dug = none
  | [], k, hk, _ => by
    cases k with
    | zero => omega
    | succ k => rfl
  | c :: cs, k, hk, hrej => by
    cases k with
    | zero => omega
    | succ k =>
      have hc : g.can_place_mine c dug = false := hrej c (by simp)
      simp only [placeMines, hc, Bool.false_eq_true, if_false]
      exact placeMines_none_of_reject g dug cs (k + 1) (by omega)
        (fun c2 hc2 => hrej c2 (by simp [hc2]))

/-- C10 counterexample: on the 1-by-2 board, `(0,1)` is *not* a legal slot
for the generator (its distance to `(0,0)` is 1 < 3), and with the mine
forced there the first dig at `(0,0)` ends in `Won` with the unrevealed
counter at 1, not in `Playing` with the counter at 0. -/
theorem C10_counterexample :
    (Game.new 1 2 1 0).can_place_mine (0, 1) (0, 0) = false ∧
    (forcedBoard12.afterGenDig (0, 0)).state ≠ GameState.Playing ∧
    (forcedBoard12.afterGenDig (0, 0)).unmined_tiles ≠ 0 := by
  refine ⟨?_, by decide, by decide⟩
  rw [Game.can_place_mine_eq]
  decide

/-- C10 amended: on the 1-by-2 board both tiles are inside the exclusion
radius, so the generator rejects every candidate and the first dig never
completes (the Rust sampling loop never terminates); if the mine is
nonetheless forced at `(0,1)`, digging `(0,0)` reveals `(0,0)` with
`adjacent_mines = 1`, leaves the unrevealed counter at 1 (it starts at
`width * height = 2` and counts the mine tile too), and the win check
compares `number_of_mines` (1) with it (1) and fires, ending in `Won`. -/
theorem C10_forced_scenario :
    (∀ (n0 tdig : Nat) (cs : List (Nat × Nat)),
      (∀ c ∈ cs, c.1 < 1 ∧ c.2 < 2) →
      (Game.new 1 2 1 n0).dig (0, 0) cs tdig = none) ∧
    (forcedBoard12.afterGenDig (0, 0)).state = GameState.Won ∧
    (forcedBoard12.afterGenDig (0, 0)).getTile? 0 0 =
      some { is_mine := false, is_flagged := false, is_revealed := true,
             adjacent_mines := 1 } ∧
    (forcedBoard12.afterGenDig (0, 0)).unmined_tiles = 1 ∧
    (forcedBoard12.afterGenDig (0, 0)).number_of_mines = 1 := by
  refine ⟨?_, by decide, by decide, by decide, by decide⟩
  intro n0 tdig cs hcs
  have hrej : ∀ c ∈ cs, (Game.new 1 2 1 tdig).can_place_mine c (0, 0) = false := by
    intro c hc
    obtain ⟨h1, h2⟩ := hcs c hc
    rw [Game.can_place_mine_eq]
    have : c = (0, 0) ∨ c = (0, 1) := by
      rcases c with ⟨cx, cy⟩
      interval_cases cx <;> interval_cases cy <;> simp
    rcases this with h | h <;> subst h <;> norm_num
  have hpm : placeMines (Game.new 1 2 1 tdig) cs 1 (0, 0) = none :=
    placeMines_none_of_reject _ _ cs 1 (by omega) hrej
  have hstep : (Game.new 1 2 1 n0).dig (0, 0) cs tdig =
      ((placeMines (Game.new 1 2 1 tdig) cs 1 (0, 0)).map Game.computeAdjacency).map
        (fun gm => gm.afterGenDig (0, 0)) := rfl
  rw [hstep, hpm]
  rfl

/-- Witness for C10 at a concrete candidate stream. -/
theorem C10_forced_scenario_witness :
    (Game.new 1 2 1 0).dig (0, 0) [(0, 1), (0, 0)] 4 = none ∧
    (forcedBoard12.afterGenDig (0, 0)).state = GameState.Won := by
  exact ⟨C10_forced_scenario.1 0 4 [(0, 1), (0, 0)] (by decide),
    C10_forced_scenario.2.1⟩

/-! ### Adjacency counting: the clipped block equals the 8-neighbourhood -/

/-- Mine test at `Nat` coordinates (false off the board). -/
def Game.mineAt (g : Game) (x y : Nat) : Bool :=
  match g.getTile? x y with
  | some t => t.is_mine
  | none => false

/-- Specification-side count: mines among the in-bounds 8-neighbours
(off-board lookups contribute `false`). -/
def Game.neighborMineCount (g : Game) (x y : Nat) : Nat :=
  (neighborOffsets ((x : Int), (y : Int))).countP fun q => g.mineAtI q.1 q.2

theorem Game.mineAtI_cast (g : Game) (x y : Nat) :
    g.mineAtI (x : Int) (y : Int) = g.mineAt x y := by
  unfold Game.mineAtI Game.mineAt
  have h1 : ¬ ((x : Int) < 0) := by omega
  have h2 : ¬ ((y : Int) < 0) := by omega
  simp [h1, h2]

theorem Game.mineAtI_neg_x (g : Game) {x' : Int} (y' : Int) (h : x' < 0) :
    g.mineAtI x' y' = false := by
  simp [Game.mineAtI, h]

theorem Game.mineAtI_neg_y (g : Game) (x' : Int) {y' : Int} (h : y' < 0) :
    g.mineAtI x' y' = false := by
  simp [Game.mineAtI, h]

theorem Game.mineAtI_ge_w (g : Game) (hw : g.WF) {x' : Int} (y' : Int)
    (h : (g.width : Int) ≤ x') : g.mineAtI x' y' = false := by
  by_cases hy' : y' < 0
  · simp [Game.mineAtI, hy']
  · have hx' : ¬ (x' < 0) := by omega
    have hnone : g.getTile? x'.toNat y'.toNat = none :=
      g.getTile?_eq_none_of_oob hw (by omega)
    simp [Game.mineAtI, hx', hy', hnone]

theorem Game.mineAtI_ge_h (g : Game) (hw : g.WF) (x' : Int) {y' : Int}
    (h : (g.height : Int) ≤ y') : g.mineAtI x' y' = false := by
  by_cases hx' : x' < 0
  · simp [Game.mineAtI, hx']
  · have hy' : ¬ (y' < 0) := by omega
    have hnone : g.getTile? x'.toNat y'.toNat = none :=
      g.getTile?_eq_none_of_oob hw (by omega)
    simp [Game.mineAtI, hx', hy', hnone]

theorem foldl_if_count {α : Type} (f : α → Bool) :
    ∀ (l : List α) (n : Nat),
      l.foldl (fun acc a => if f a then acc + 1 else acc) n = n + l.countP f
  | [], n => by simp
  | a :: l, n => by
    simp only [List.foldl_cons, List.countP_cons, foldl_if_count f l]
    split <;> omega

theorem foldl_add_sum {α : Type} (h : α → Nat) :
    ∀ (l : List α) (n : Nat), l.foldl (fun acc a => acc + h a) n = n + (l.map h).sum
  | [], n => by simp
  | a :: l, n => by
    simp only [List.foldl_cons, List.map_cons, List.sum_cons, foldl_add_sum h l]
    omega

theorem double_foldl_count (P : Int → Int → Bool) (xs ys : List Int) (n : Nat) :
    ys.foldl (fun acc y2 =>
      xs.foldl (fun acc2 x2 => if P x2 y2 then acc2 + 1 else acc2) acc) n
      = n + (ys.map fun y2 => xs.countP fun x2 => P x2 y2).sum := by
  simp only [foldl_if_count]
  exact foldl_add_sum _ ys n

theorem intRange_neg1_1 : intRange (-1) 1 = [-1, 0, 1] := by decide

theorem intRange_0_1 : intRange 0 1 = [0, 1] := by decide

theorem intRange_neg1_0 : intRange (-1) 0 = [-1, 0] := by decide

theorem intRange_0_0 : intRange 0 0 = [0] := by decide

/-- The clipped 3-by-3 count of the adjacency pass equals the 8-neighbour
count plus the centre tile itself. -/
theorem Game.adjCountAt_split (g : Game) (hw : g.WF) (x y : Nat)
    (hx : x < g.width) (hy : y < g.height) :
    g.adjCountAt (x : Int) (y : Int) =
      g.neighborMineCount x y + (if g.mineAtI (x : Int) (y : Int) then 1 else 0) := by
  have e0 : (0 : Int) + (x : Int) = (x : Int) := by ring
  have e1 : (1 : Int) + (x : Int) = (x : Int) + 1 := by ring
  have em : (-1 : Int) + (x : Int) = (x : Int) - 1 := by ring
  have f0 : (0 : Int) + (y : Int) = (y : Int) := by ring
  have fp : (1 : Int) + (y : Int) = (y : Int) + 1 := by ring
  have fm : (-1 : Int) + (y : Int) = (y : Int) - 1 := by ring
  simp only [Game.adjCountAt, Game.neighborMineCount, neighborOffsets]
  by_cases hx0 : (x : Int) = 0
  · by_cases hxw : (x : Int) = (g.width : Int) - 1
    · by_cases hy0 : (y : Int) = 0
      · by_cases hyh : (y : Int) = (g.height : Int) - 1
        · -- case x0=True xw=True y0=True yh=True
          rw [if_pos hy0, if_pos hyh, if_pos hx0, if_pos hxw]
          rw [intRange_0_0]
          rw [double_foldl_count]
          simp only [List.map_cons, List.map_nil, List.sum_cons, List.sum_nil,
            List.countP_cons, List.countP_nil]
          simp only [e0, e1, em, f0, fp, fm]
          have dxm : ∀ u : Int, g.mineAtI ((x : Int) - 1) u = false :=
            fun u => g.mineAtI_neg_x u (by omega)
          have dxp : ∀ u : Int, g.mineAtI ((x : Int) + 1) u = false :=
            fun u => g.mineAtI_ge_w hw u (by omega)
          have dym : ∀ u : Int, g.mineAtI u ((y : Int) - 1) = false :=
            fun u => g.mineAtI_neg_y u (by omega)
          have dyp : ∀ u : Int, g.mineAtI u ((y : Int) + 1) = false :=
            fun u => g.mineAtI_ge_h hw u (by omega)
          simp only [dxm, dxp, dym, dyp, Bool.false_eq_true, if_false]
          omega
        · -- case x0=True xw=True y0=True yh=False
          rw [if_pos hy0, if_neg hyh, if_pos hx0, if_pos hxw]
          rw [intRange_0_1, intRange_0_0]
          rw [double_foldl_count]
          simp only [List.map_cons, List.map_nil, List.sum_cons, List.sum_nil,
            List.countP_cons, List.countP_nil]
          simp only [e0, e1, em, f0, fp, fm]
          have dxm : ∀ u : Int, g.mineAtI ((x : Int) - 1) u = false :=
            fun u => g.mineAtI_neg_x u (by omega)
          have dxp : ∀ u : Int, g.mineAtI ((x : Int) + 1) u = false :=
            fun u => g.mineAtI_ge_w hw u (by omega)
          have dym : ∀ u : Int, g.mineAtI u ((y : Int) - 1) = false :=
            fun u => g.mineAtI_neg_y u (by omega)
          simp only [dxm, dxp, dym, Bool.false_eq_true, if_false]
          omega
      · by_cases hyh : (y : Int) = (g.height : Int) - 1
        · -- case x0=True xw=True y0=False yh=True
          rw [if_neg hy0, if_pos hyh, if_pos hx0, if_pos hxw]
          rw [intRange_neg1_0, intRange_0_0]
          rw [double_foldl_count]
          simp only [List.map_cons, List.map_nil, List.sum_cons, List.sum_nil,
            List.countP_cons, List.countP_nil]
          simp only [e0, e1, em, f0, fp, fm]
          have dxm : ∀ u : Int, g.mineAtI ((x : Int) - 1) u = false :=
            fun u => g.mineAtI_neg_x u (by omega)
          have dxp : ∀ u : Int, g.mineAtI ((x : Int) + 1) u = false :=
            fun u => g.mineAtI_ge_w hw u (by omega)
          have dyp : ∀ u : Int, g.mineAtI u ((y : Int) + 1) = false :=
            fun u => g.mineAtI_ge_h hw u (by omega)
          simp only [dxm, dxp, dyp, Bool.false_eq_true, if_false]
          omega
        · -- case x0=True xw=True y0=False yh=False
          rw [if_neg hy0, if_neg hyh, if_pos hx0, if_pos hxw]
          rw [intRange_neg1_1, intRange_0_0]
          rw [double_foldl_count]
          simp only [List.map_cons, List.map_nil, List.sum_cons, List.sum_nil,
            List.countP_cons, List.countP_nil]
          simp only [e0, e1, em, f0, fp, fm]
          have dxm : ∀ u : Int, g.mineAtI ((x : Int) - 1) u = false :=
            fun u => g.mineAtI_neg_x u (by omega)
          have dxp : ∀ u : Int, g.mineAtI ((x : Int) + 1) u = false :=
            fun u => g.mineAtI_ge_w hw u (by omega)
          simp only [dxm, dxp, Bool.false_eq_true, if_false]
          omega
    · by_cases hy0 : (y : Int) = 0
      · by_cases hyh : (y : Int) = (g.height : Int) - 1
        · -- case x0=True xw=False y0=True yh=True
          rw [if_pos hy0, if_pos hyh, if_pos hx0, if_neg hxw]
          rw [intRange_0_0, intRange_0_1]
          rw [double_foldl_count]
          simp only [List.map_cons, List.map_nil, List.sum_cons, List.sum_nil,
            List.countP_cons, List.countP_nil]
          simp only [e0, e1, em, f0, fp, fm]
          have dxm : ∀ u : Int, g.mineAtI ((x : Int) - 1) u = false :=
            fun u => g.mineAtI_neg_x u (by omega)
          have dym : ∀ u : Int, g.mineAtI u ((y : Int) - 1) = false :=
            fun u => g.mineAtI_neg_y u (by omega)
          have dyp : ∀ u : Int, g.mineAtI u ((y : Int) + 1) = false :=
            fun u => g.mineAtI_ge_h hw u (by omega)
          simp only [dxm, dym, dyp, Bool.false_eq_true, if_false]
          omega
        · -- case x0=True xw=False y0=True yh=False
          rw [if_pos hy0, if_neg hyh, if_pos hx0, if_neg hxw]
          rw [intRange_0_1]
          rw [double_foldl_count]
          simp only [List.map_cons, List.map_nil, List.sum_cons, List.sum_nil,
            List.countP_cons, List.countP_nil]
          simp only [e0, e1, em, f0, fp, fm]
          have dxm : ∀ u : Int, g.mineAtI ((x : Int) - 1) u = false :=
            fun u => g.mineAtI_neg_x u (by omega)
          have dym : ∀ u : Int, g.mineAtI u ((y : Int) - 1) = false :=
            fun u => g.mineAtI_neg_y u (by omega)
          simp only [dxm, dym, Bool.false_eq_true, if_false]
          omega
      · by_cases hyh : (y : Int) = (g.height : Int) - 1
        · -- case x0=True xw=False y0=False yh=True
          rw [if_neg hy0, if_pos hyh, if_pos hx0, if_neg hxw]
          rw [intRange_neg1_0, intRange_0_1]
          rw [double_foldl_count]
          simp only [List.map_cons, List.map_nil, List.sum_cons, List.sum_nil,
            List.countP_cons, List.countP_nil]
          simp only [e0, e1, em, f0, fp, fm]
          have dxm : ∀ u : Int, g.mineAtI ((x : Int) - 1) u = false :=
            fun u => g.mineAtI_neg_x u (by omega)
          have dyp : ∀ u : Int, g.mineAtI u ((y : Int) + 1) = false :=
            fun u => g.mineAtI_ge_h hw u (by omega)
          simp only [dxm, dyp, Bool.false_eq_true, if_false]
          omega
        · -- case x0=True xw=False y0=False yh=False
          rw [if_neg hy0, if_neg hyh, if_pos hx0, if_neg hxw]
          rw [intRange_neg1_1, intRange_0_1]
          rw [double_foldl_count]
          simp only [List.map_cons, List.map_nil, List.sum_cons, List.sum_nil,
            List.countP_cons, List.countP_nil]
          simp only [e0, e1, em, f0, fp, fm]
          have dxm : ∀ u : Int, g.mineAtI ((x : Int) - 1) u = false :=
            fun u => g.mineAtI_neg_x u (by omega)
          simp only [dxm, Bool.false_eq_true, if_false]
          omega
  · by_cases hxw : (x : Int) = (g.width : Int) - 1
    · by_cases hy0 : (y : Int) = 0
      · by_cases hyh : (y : Int) = (g.height : Int) - 1
        · -- case x0=False xw=True y0=True yh=True
          rw [if_pos hy0, if_pos hyh, if_neg hx0, if_pos hxw]
          rw [intRange_0_0, intRange_neg1_0]
          rw [double_foldl_count]
          simp only [List.map_cons, List.map_nil, List.sum_cons, List.sum_nil,
            List.countP_cons, List.countP_nil]
          simp only [e0, e1, em, f0, fp, fm]
          have dxp : ∀ u : Int, g.mineAtI ((x : Int) + 1) u = false :=
            fun u => g.mineAtI_ge_w hw u (by omega)
          have dym : ∀ u : Int, g.mineAtI u ((y : Int) - 1) = false :=
            fun u => g.mineAtI_neg_y u (by omega)
          have dyp : ∀ u : Int, g.mineAtI u ((y : Int) + 1) = false :=
            fun u => g.mineAtI_ge_h hw u (by omega)
          simp only [dxp, dym, dyp, Bool.false_eq_true, if_false]
          omega
        · -- case x0=False xw=True y0=True yh=False
          rw [if_pos hy0, if_neg hyh, if_neg hx0, if_pos hxw]
          rw [intRange_0_1, intRange_neg1_0]
          rw [double_foldl_count]
          simp only [List.map_cons, List.map_nil, List.sum_cons, List.sum_nil,
            List.countP_cons, List.countP_nil]
          simp only [e0, e1, em, f0, fp, fm]
          have dxp : ∀ u : Int, g.mineAtI ((x : Int) + 1) u = false :=
            fun u => g.mineAtI_ge_w hw u (by omega)
          have dym : ∀ u : Int, g.mineAtI u ((y : Int) - 1) = false :=
            fun u => g.mineAtI_neg_y u (by omega)
          simp only [dxp, dym, Bool.false_eq_true, if_false]
          omega
      · by_cases hyh : (y : Int) = (g.height : Int) - 1
        · -- case x0=False xw=True y0=False yh=True
          rw [if_neg hy0, if_pos hyh, if_neg hx0, if_pos hxw]
          rw [intRange_neg1_0]
          rw [double_foldl_count]
          simp only [List.map_cons, List.map_nil, List.sum_cons, List.sum_nil,
            List.countP_cons, List.countP_nil]
          simp only [e0, e1, em, f0, fp, fm]
          have dxp : ∀ u : Int, g.mineAtI ((x : Int) + 1) u = false :=
            fun u => g.mineAtI_ge_w hw u (by omega)
          have dyp : ∀ u : Int, g.mineAtI u ((y : Int) + 1) = false :=
            fun u => g.mineAtI_ge_h hw u (by omega)
          simp only [dxp, dyp, Bool.false_eq_true, if_false]
          omega
        · -- case x0=False xw=True y0=False yh=False
          rw [if_neg hy0, if_neg hyh, if_neg hx0, if_pos hxw]
          rw [intRange_neg1_1, intRange_neg1_0]
          rw [double_foldl_count]
          simp only [List.map_cons, List.map_nil, List.sum_cons, List.sum_nil,
            List.countP_cons, List.countP_nil]
          simp only [e0, e1, em, f0, fp, fm]
          have dxp : ∀ u : Int, g.mineAtI ((x : Int) + 1) u = false :=
            fun u => g.mineAtI_ge_w hw u (by omega)
          simp only [dxp, Bool.false_eq_true, if_false]
          omega
    · by_cases hy0 : (y : Int) = 0
      · by_cases hyh : (y : Int) = (g.height : Int) - 1
        · -- case x0=False xw=False y0=True yh=True
          rw [if_pos hy0, if_pos hyh, if_neg hx0, if_neg hxw]
          rw [intRange_0_0, intRange_neg1_1]
          rw [double_foldl_count]
          simp only [List.map_cons, List.map_nil, List.sum_cons, List.sum_nil,
            List.countP_cons, List.countP_nil]
          simp only [e0, e1, em, f0, fp, fm]
          have dym : ∀ u : Int, g.mineAtI u ((y : Int) - 1) = false :=
            fun u => g.mineAtI_neg_y u (by omega)
          have dyp : ∀ u : Int, g.mineAtI u ((y : Int) + 1) = false :=
            fun u => g.mineAtI_ge_h hw u (by omega)
          simp only [dym, dyp, Bool.false_eq_true, if_false]
          omega
        · -- case x0=False xw=False y0=True yh=False
          rw [if_pos hy0, if_neg hyh, if_neg hx0, if_neg hxw]
          rw [intRange_0_1, intRange_neg1_1]
          rw [double_foldl_count]
          simp only [List.map_cons, List.map_nil, List.sum_cons, List.sum_nil,
            List.countP_cons, List.countP_nil]
          simp only [e0, e1, em, f0, fp, fm]
          have dym : ∀ u : Int, g.mineAtI u ((y : Int) - 1) = false :=
            fun u => g.mineAtI_neg_y u (by omega)
          simp only [dym, Bool.false_eq_true, if_false]
          omega
      · by_cases hyh : (y : Int) = (g.height : Int) - 1
        · -- case x0=False xw=False y0=False yh=True
          rw [if_neg hy0, if_pos hyh, if_neg hx0, if_neg hxw]
          rw [intRange_neg1_0, intRange_neg1_1]
          rw [double_foldl_count]
          simp only [List.map_cons, List.map_nil, List.sum_cons, List.sum_nil,
            List.countP_cons, List.countP_nil]
          simp only [e0, e1, em, f0, fp, fm]
          have dyp : ∀ u : Int, g.mineAtI u ((y : Int) + 1) = false :=
            fun u => g.mineAtI_ge_h hw u (by omega)
          simp only [dyp, Bool.false_eq_true, if_false]
          omega
        · -- case x0=False xw=False y0=False yh=False
          rw [if_neg hy0, if_neg hyh, if_neg hx0, if_neg hxw]
          rw [intRange_neg1_1]
          rw [double_foldl_count]
          simp only [List.map_cons, List.map_nil, List.sum_cons, List.sum_nil,
            List.countP_cons, List.countP_nil]
          simp only [e0, e1, em, f0, fp, fm]
          omega

/-! ### C4: adjacency correctness -/

/-- Element lookup in a grid built row-by-row from ranges. -/
theorem grid_build_get (w h : Nat) (F : Nat → Nat → Tile) {x y : Nat}
    (hx : x < w) (hy : y < h) :
    ((((List.range h).map fun y0 => (List.range w).map fun x0 => F x0 y0)[y]?).bind
      fun row => row[x]?) = some (F x y) := by
  rw [List.getElem?_map]
  simp only [List.getElem?_range, hy]
  simp only [Option.map_some', Option.some_bind]
  rw [List.getElem?_map]
  simp only [List.getElem?_range, hx]
  rfl

/-- Pointwise description of the adjacency pass. -/
theorem Game.getTile?_computeAdjacency (g : Game) (hw : g.WF) (x y : Nat) :
    (g.computeAdjacency).getTile? x y =
      (g.getTile? x y).map fun t =>
        { t with adjacent_mines := g.adjCountAt (x : Int) (y : Int) } := by
  by_cases hin : x < g.width ∧ y < g.height
  · obtain ⟨t, ht⟩ := g.getTile?_some_of_inB hw hin.1 hin.2
    have hmain : (g.computeAdjacency).getTile? x y =
        some ((fun x0 y0 =>
          match g.getTile? x0 y0 with
          | some t0 => { t0 with adjacent_mines := g.adjCountAt (x0 : Int) (y0 : Int) }
          | none => Tile.new) x y) :=
      grid_build_get g.width g.height
        (fun x0 y0 =>
          match g.getTile? x0 y0 with
          | some t0 => { t0 with adjacent_mines := g.adjCountAt (x0 : Int) (y0 : Int) }
          | none => Tile.new) hin.1 hin.2
    rw [hmain, ht]
    simp only [ht]
    rfl
  · have hnone : g.getTile? x y = none := g.getTile?_eq_none_of_oob hw hin
    have hnone2 : (g.computeAdjacency).getTile? x y = none := by
      apply (g.computeAdjacency).getTile?_eq_none_of_oob g.computeAdjacency_WF
      simpa using hin
    rw [hnone, hnone2]
    rfl

/-- The adjacency pass does not change which coordinates hold mines. -/
theorem Game.mineAtI_computeAdjacency (g : Game) (hw : g.WF) (x' y' : Int) :
    (g.computeAdjacency).mineAtI x' y' = g.mineAtI x' y' := by
  unfold Game.mineAtI
  by_cases hneg : x' < 0 || y' < 0
  · simp [hneg]
  · simp only [hneg]
    rw [g.getTile?_computeAdjacency hw]
    rcases hg : g.getTile? x'.toNat y'.toNat with _ | t <;> simp [hg]

theorem Game.neighborMineCount_congr (g g' : Game)
    (h : ∀ x' y' : Int, g'.mineAtI x' y' = g.mineAtI x' y') (x y : Nat) :
    g'.neighborMineCount x y = g.neighborMineCount x y := by
  unfold Game.neighborMineCount
  apply List.countP_congr
  intro q _
  rw [h q.1 q.2]

/-- Mine generation leaves every non-mine tile's `adjacent_mines` field equal
to the number of mines among its in-bounds 8-neighbours. -/
theorem Game.generate_mines_adj (g : Game) (dug : Nat × Nat) (cs : List (Nat × Nat))
    (gm : Game) (hw : g.WF) (hgen : g.generate_mines dug cs = some gm) :
    ∀ (x y : Nat) (t : Tile), gm.getTile? x y = some t → t.is_mine = false →
      t.adjacent_mines = gm.neighborMineCount x y := by
  unfold Game.generate_mines at hgen
  rcases hpm : placeMines g cs g.number_of_mines dug with _ | gp
  · rw [hpm] at hgen; cases hgen
  · rw [hpm] at hgen
    simp only [Option.map_some'] at hgen
    injection hgen with hgen
    subst hgen
    obtain ⟨hwid, hhei, _, _, _, _, _, _, hwfp⟩ := placeMines_fields _ _ _ _ _ hpm
    have hwfgp : gp.WF := hwfp hw
    intro x y t ht hmine
    rw [gp.getTile?_computeAdjacency hwfgp] at ht
    rcases hg : gp.getTile? x y with _ | t0
    · rw [hg] at ht; cases ht
    · rw [hg] at ht
      simp only [Option.map_some'] at ht
      injection ht with ht
      subst ht
      have hin : x < gp.width ∧ y < gp.height := by
        have := (gp.getTile?_isSome hwfgp x y).1 (by rw [hg]; rfl)
        exact this
      have hsplit := gp.adjCountAt_split hwfgp x y hin.1 hin.2
      have hmAt : gp.mineAtI (x : Int) (y : Int) = false := by
        rw [gp.mineAtI_cast]
        unfold Game.mineAt
        rw [hg]
        exact hmine
      have hcongr : (gp.computeAdjacency).neighborMineCount x y =
          gp.neighborMineCount x y :=
        Game.neighborMineCount_congr _ _ (gp.mineAtI_computeAdjacency hwfgp) x y
      simp only [hsplit, hmAt, Bool.false_eq_true, if_false, hcongr]
      omega

/-- C4: after mine generation, every non-mine tile's `adjacent_mines`
field equals the number of mines among its in-bounds 8-neighbours. -/
theorem C4_adjacency_correct (g : Game) (dug : Nat × Nat) (cs : List (Nat × Nat))
    (gm : Game) (hw : g.WF) (hgen : g.generate_mines dug cs = some gm) :
    ∀ (x y : Nat) (t : Tile), gm.getTile? x y = some t → t.is_mine = false →
      t.adjacent_mines = gm.neighborMineCount x y :=
  Game.generate_mines_adj g dug cs gm hw hgen

/-- Generation on a 6-by-1 board with one candidate accepted at `(4,0)`:
the shared concrete generation fact for the generator witnesses. -/
def exGen6 : Game := ((Game.new 6 1 1 0).setMine (4, 0)).computeAdjacency

theorem exGen6_gen : (Game.new 6 1 1 0).generate_mines (0, 0) [(4, 0)] = some exGen6 := by
  have hc : (Game.new 6 1 1 0).can_place_mine (4, 0) (0, 0) = true := by
    rw [Game.can_place_mine_eq]
    decide
  simp only [Game.generate_mines]
  rw [show (Game.new 6 1 1 0).number_of_mines = 1 from rfl]
  simp only [placeMines, hc, if_true]
  rfl

/-- Witness for C4 on the concrete 6-by-1 generation. -/
theorem C4_adjacency_correct_witness :
    ({ is_mine := false, is_flagged := false, is_revealed := false,
       adjacent_mines := 1 } : Tile).adjacent_mines = exGen6.neighborMineCount 3 0 :=
  C4_adjacency_correct (Game.new 6 1 1 0) (0, 0) [(4, 0)] exGen6 (by decide) exGen6_gen
    3 0 _ (by decide) (by decide)

/-! ### C2 and C3: exclusion zone and mine count -/

theorem List.countP_pos_of_get {α : Type} (p : α → Bool) :
    ∀ (l : List α) (i : Nat) (b : α), l[i]? = some b → p b = true → 0 < l.countP p
  | [], i, b, h, _ => by simp at h
  | c :: l, 0, b, h, hp => by
    simp only [List.getElem?_cons_zero, Option.some.injEq] at h
    subst h
    simp [List.countP_cons, hp]
  | c :: l, i + 1, b, h, hp => by
    simp only [List.getElem?_cons_succ] at h
    have := List.countP_pos_of_get p l i b h hp
    simp only [List.countP_cons]
    omega

theorem List.sum_countP_pos {α : Type} (p : α → Bool) :
    ∀ (L : List (List α)) (y : Nat) (row : List α), L[y]? = some row →
      0 < row.countP p → 0 < (L.map fun r => r.countP p).sum
  | [], y, row, hy, _ => by simp at hy
  | r :: L, 0, row, hy, hrow => by
    simp only [List.getElem?_cons_zero, Option.some.injEq] at hy
    subst hy
    simp only [List.map_cons, List.sum_cons]
    omega
  | r :: L, y + 1, row, hy, hrow => by
    simp only [List.getElem?_cons_succ] at hy
    have := List.sum_countP_pos p L y row hy hrow
    simp only [List.map_cons, List.sum_cons]
    omega

theorem Game.countGrid_pos (g : Game) (p : Tile → Bool) {x y : Nat} {t : Tile}
    (h : g.getTile? x y = some t) (hp : p t = true) : 0 < g.countGrid p := by
  unfold Game.getTile? at h
  rcases hy : g.tiles[y]? with _ | row
  · rw [hy] at h; cases h
  · rw [hy] at h
    simp only [Option.some_bind] at h
    exact List.sum_countP_pos p g.tiles y row hy (List.countP_pos_of_get p row x t h hp)

theorem Game.mineAt_false_of_mineCount_zero (g : Game) (h : g.mineCount = 0)
    (x y : Nat) : g.mineAt x y = false := by
  unfold Game.mineAt
  rcases hg : g.getTile? x y with _ | t
  · rfl
  · rcases hm : t.is_mine with _ | _
    · exact hm
    · have := g.countGrid_pos (fun t => t.is_mine) hg hm
      unfold Game.mineCount at h
      omega

/-- An accepted candidate is at truncated-sqrt distance at least 3. -/
theorem Game.can_place_mine_dist (g : Game) (c dug : Nat × Nat)
    (h : g.can_place_mine c dug = true) :
    ¬ Nat.sqrt (((dug.1 : Int) - c.1) * ((dug.1 : Int) - c.1) +
        ((dug.2 : Int) - c.2) * ((dug.2 : Int) - c.2)).toNat < 3 := by
  intro hlt
  simp only [Game.can_place_mine] at h
  rw [if_pos hlt] at h
  cases h

/-- An accepted candidate sits on an existing non-mine tile. -/
theorem Game.can_place_mine_tile (g : Game) (c dug : Nat × Nat)
    (h : g.can_place_mine c dug = true) :
    ∃ t, g.getTile? c.1 c.2 = some t ∧ t.is_mine = false := by
  simp only [Game.can_place_mine] at h
  split at h
  · cases h
  · rcases hg : g.getTile? c.1 c.2 with _ | t
    · rw [hg] at h; cases h
    · rw [hg] at h
      refine ⟨t, rfl, ?_⟩
      simpa using h

/-- Truncated-sqrt distance at least 3 is exactly being outside the 5-by-5
block: some coordinate differs by more than 2. -/
theorem sqrt_dist_ge_iff (dx dy : Int) :
    (¬ Nat.sqrt (dx * dx + dy * dy).toNat < 3) ↔
      (2 < dx.natAbs ∨ 2 < dy.natAbs) := by
  rw [Nat.sqrt_lt]
  have ha : ((dx.natAbs * dx.natAbs : Nat) : Int) = dx * dx := Int.natAbs_mul_self
  have hb : ((dy.natAbs * dy.natAbs : Nat) : Int) = dy * dy := Int.natAbs_mul_self
  rw [← ha, ← hb]
  constructor
  · intro h
    by_contra hc
    push_neg at hc
    have h1 : dx.natAbs * dx.natAbs ≤ 4 := Nat.mul_le_mul hc.1 hc.1
    have h2 : dy.natAbs * dy.natAbs ≤ 4 := Nat.mul_le_mul hc.2 hc.2
    omega
  · intro h hlt
    rcases h with h | h
    · have h9 : 9 ≤ dx.natAbs * dx.natAbs := by
        have h3 : 3 ≤ dx.natAbs := h
        calc 9 = 3 * 3 := rfl
        _ ≤ dx.natAbs * dx.natAbs := Nat.mul_le_mul h3 h3
      omega
    · have h9 : 9 ≤ dy.natAbs * dy.natAbs := by
        have h3 : 3 ≤ dy.natAbs := h
        calc 9 = 3 * 3 := rfl
        _ ≤ dy.natAbs * dy.natAbs := Nat.mul_le_mul h3 h3
      omega

theorem Game.mineAt_setMine (g : Game) (c : Nat × Nat) (x y : Nat)
    (h : (g.setMine c).mineAt x y = true) :
    g.mineAt x y = true ∨ (x = c.1 ∧ y = c.2) := by
  by_cases hc : x = c.1 ∧ y = c.2
  · right; exact hc
  · left
    unfold Game.setMine at h
    rcases hg : g.getTile? c.1 c.2 with _ | t
    · rw [hg] at h; exact h
    · rw [hg] at h
      unfold Game.mineAt at h ⊢
      rw [Game.getTile?_setTile_ne _ _ (by tauto)] at h
      exact h

/-- Mines placed by the loop are the old mines plus accepted candidates,
all at distance at least 3 from the dig. -/
theorem placeMines_exclusion :
    ∀ (g : Game) (cs : List (Nat × Nat)) (k : Nat) (dug : Nat × Nat) (g' : Game),
      placeMines g cs k dug = some g' →
      ∀ x y : Nat, g'.mineAt x y = true → g.mineAt x y = true ∨
        ¬ Nat.sqrt (((dug.1 : Int) - x) * ((dug.1 : Int) - x) +
            ((dug.2 : Int) - y) * ((dug.2 : Int) - y)).toNat < 3
  | g, cs, 0, dug, g', h => by
    simp only [placeMines, Option.some.injEq] at h
    subst h
    exact fun x y hm => Or.inl hm
  | g, [], k + 1, dug, g', h => Option.noConfusion h
  | g, c :: cs, k + 1, dug, g', h => by
    simp only [placeMines] at h
    split at h
    · intro x y hm
      rcases placeMines_exclusion _ _ _ _ _ h x y hm with hold | hfar
      · rcases g.mineAt_setMine c x y hold with hnew | ⟨hx, hy⟩
        · exact Or.inl hnew
        · subst hx; subst hy
          right
          next hcp => exact g.can_place_mine_dist _ _ hcp
      · exact Or.inr hfar
    · exact placeMines_exclusion _ _ _ _ _ h

theorem Game.mineAt_computeAdjacency (g : Game) (hw : g.WF) (x y : Nat) :
    (g.computeAdjacency).mineAt x y = g.mineAt x y := by
  unfold Game.mineAt
  rw [g.getTile?_computeAdjacency hw]
  rcases hg : g.getTile? x y with _ | t <;> simp

/-- C2: after the first dig's mine generation from a mine-free board, no
mine lies at truncated-sqrt Euclidean distance below 3 from the dig;
equivalently every mine is outside the 5-by-5 block centred on the dig. -/
theorem C2_exclusion_zone (g : Game) (dug : Nat × Nat) (cs : List (Nat × Nat)) (gm : Game)
    (hw : g.WF) (hfree : g.mineCount = 0)
    (hgen : g.generate_mines dug cs = some gm) :
    ∀ x y : Nat, gm.mineAt x y = true →
      ¬ Nat.sqrt (((dug.1 : Int) - x) * ((dug.1 : Int) - x) +
          ((dug.2 : Int) - y) * ((dug.2 : Int) - y)).toNat < 3 ∧
      (2 < ((dug.1 : Int) - x).natAbs ∨ 2 < ((dug.2 : Int) - y).natAbs) := by
  unfold Game.generate_mines at hgen
  rcases hpm : placeMines g cs g.number_of_mines dug with _ | gp
  · rw [hpm] at hgen; cases hgen
  · rw [hpm] at hgen
    simp only [Option.map_some'] at hgen
    injection hgen with hgen
    subst hgen
    obtain ⟨_, _, _, _, _, _, _, _, hwfp⟩ := placeMines_fields _ _ _ _ _ hpm
    have hwfgp : gp.WF := hwfp hw
    intro x y hm
    rw [gp.mineAt_computeAdjacency hwfgp] at hm
    rcases placeMines_exclusion _ _ _ _ _ hpm x y hm with hold | hfar
    · rw [g.mineAt_false_of_mineCount_zero hfree] at hold
      cases hold
    · exact ⟨hfar, (sqrt_dist_ge_iff _ _).1 hfar⟩

/-- Witness for C2 on the concrete 6-by-1 generation. -/
theorem C2_exclusion_zone_witness :
    ¬ Nat.sqrt ((((0 : Nat) : Int) - (4 : Nat)) * (((0 : Nat) : Int) - (4 : Nat)) +
        (((0 : Nat) : Int) - (0 : Nat)) * (((0 : Nat) : Int) - (0 : Nat))).toNat < 3 ∧
    (2 < (((0 : Nat) : Int) - (4 : Nat)).natAbs ∨
      2 < (((0 : Nat) : Int) - (0 : Nat)).natAbs) :=
  C2_exclusion_zone (Game.new 6 1 1 0) (0, 0) [(4, 0)] exGen6 (by decide) (by decide)
    exGen6_gen 4 0 (by decide)

/-- Each accepted placement raises the mine count by exactly one. -/
theorem placeMines_mineCount :
    ∀ (g : Game) (cs : List (Nat × Nat)) (k : Nat) (dug : Nat × Nat) (g' : Game),
      placeMines g cs k dug = some g' → g'.mineCount = g.mineCount + k
  | g, cs, 0, dug, g', h => by
    simp only [placeMines, Option.some.injEq] at h
    subst h
    rfl
  | g, [], k + 1, dug, g', h => Option.noConfusion h
  | g, c :: cs, k + 1, dug, g', h => by
    simp only [placeMines] at h
    split at h
    · next hcp =>
      have hrec := placeMines_mineCount _ _ _ _ _ h
      obtain ⟨t, ht, htm⟩ := g.can_place_mine_tile c dug hcp
      have hset : (g.setMine c).mineCount = g.mineCount + 1 := by
        unfold Game.setMine
        rw [ht]
        show (g.setTile c.1 c.2 { t with is_mine := true }).mineCount = g.mineCount + 1
        have := g.countGrid_setTile (fun t => t.is_mine) { t with is_mine := true } ht
        unfold Game.mineCount
        simp only [htm] at this
        simp only [Bool.false_eq_true, if_false, if_true] at this
        omega
      rw [hrec, hset]
      omega
    · exact placeMines_mineCount _ _ _ _ _ h

theorem Game.mineCount_computeAdjacency (g : Game) (hw : g.WF) :
    (g.computeAdjacency).mineCount = g.mineCount := by
  unfold Game.mineCount
  rw [Game.countGrid_eq_countPt _ _ hw,
    Game.countGrid_eq_countPt _ _ g.computeAdjacency_WF]
  apply Game.countPt_congr
  · rfl
  · rfl
  · intro x y _ _
    rw [g.getTile?_computeAdjacency hw]
    rcases hg : g.getTile? x y with _ | t <;> simp [tileInd]

/-- C3: generation from a mine-free board places exactly `number_of_mines`
mines (each accepted candidate is a fresh tile, so no double counting). -/
theorem C3_mine_count (g : Game) (dug : Nat × Nat) (cs : List (Nat × Nat)) (gm : Game)
    (hw : g.WF) (hfree : g.mineCount = 0)
    (hgen : g.generate_mines dug cs = some gm) :
    gm.mineCount = g.number_of_mines := by
  unfold Game.generate_mines at hgen
  rcases hpm : placeMines g cs g.number_of_mines dug with _ | gp
  · rw [hpm] at hgen; cases hgen
  · rw [hpm] at hgen
    simp only [Option.map_some'] at hgen
    injection hgen with hgen
    subst hgen
    obtain ⟨_, _, _, _, _, _, _, _, hwfp⟩ := placeMines_fields _ _ _ _ _ hpm
    rw [gp.mineCount_computeAdjacency (hwfp hw), placeMines_mineCount _ _ _ _ _ hpm,
      hfree]
    omega

/-- Witness for C3 on the concrete 6-by-1 generation. -/
theorem C3_mine_count_witness :
    exGen6.mineCount = (Game.new 6 1 1 0).number_of_mines :=
  C3_mine_count (Game.new 6 1 1 0) (0, 0) [(4, 0)] exGen6 (by decide) (by decide)
    exGen6_gen

/-! ### The cascade evolution relation -/

/-- Revealed test at `Nat` coordinates (false off the board). -/
def Game.revealedAt (g : Game) (x y : Nat) : Bool :=
  match g.getTile? x y with
  | some t => t.is_revealed
  | none => false

/-- How a single tile may change under the reveal cascade: mine and
adjacency fields are untouched, revealed tiles and mine tiles are frozen
whole, and flags are only ever cleared. -/
def TileEv (t t' : Tile) : Prop :=
  t'.is_mine = t.is_mine ∧ t'.adjacent_mines = t.adjacent_mines ∧
  (t.is_revealed = true → t' = t) ∧ (t.is_mine = true → t' = t) ∧
  (t'.is_flagged = true → t.is_flagged = true)

theorem TileEv.te_refl (t : Tile) : TileEv t t :=
  ⟨Eq.refl _, Eq.refl _, fun _ => Eq.refl _, fun _ => Eq.refl _, fun h => h⟩

theorem TileEv.te_trans {a b c : Tile} (h1 : TileEv a b) (h2 : TileEv b c) : TileEv a c := by
  obtain ⟨m1, a1, r1, n1, f1⟩ := h1
  obtain ⟨m2, a2, r2, n2, f2⟩ := h2
  refine ⟨m2.trans m1, a2.trans a1, ?_, ?_, fun h => f1 (f2 h)⟩
  · intro hr
    have hb := r1 hr
    subst hb
    exact r2 hr
  · intro hm
    have hb := n1 hm
    subst hb
    exact n2 hm

theorem TileEv.rev_mono {a b : Tile} (h : TileEv a b) (hr : a.is_revealed = true) :
    b.is_revealed = true := by
  rw [h.2.2.1 hr]
  exact hr

/-- How a whole game may change under the reveal cascade: scalar fields
other than the two counters are untouched, the grid keeps its shape, and
every tile evolves by `TileEv`. -/
def Evolves (g g' : Game) : Prop :=
  g'.width = g.width ∧ g'.height = g.height ∧
  g'.number_of_mines = g.number_of_mines ∧ g'.state = g.state ∧
  g'.time_started = g.time_started ∧ g'.last_move_time = g.last_move_time ∧
  g'.tiles.map List.length = g.tiles.map List.length ∧
  (∀ x y t, g.getTile? x y = some t → ∃ t', g'.getTile? x y = some t' ∧ TileEv t t') ∧
  (∀ x y, g.getTile? x y = none → g'.getTile? x y = none)

theorem Evolves.ev_refl (g : Game) : Evolves g g :=
  ⟨Eq.refl _, Eq.refl _, Eq.refl _, Eq.refl _, Eq.refl _, Eq.refl _, Eq.refl _,
    fun _ _ t ht => ⟨t, ht, TileEv.te_refl t⟩, fun _ _ h => h⟩

theorem Evolves.ev_trans {a b c : Game} (h1 : Evolves a b) (h2 : Evolves b c) :
    Evolves a c := by
  obtain ⟨w1, h1', m1, s1, t1, l1, L1, T1, N1⟩ := h1
  obtain ⟨w2, h2', m2, s2, t2, l2, L2, T2, N2⟩ := h2
  refine ⟨w2.trans w1, h2'.trans h1', m2.trans m1, s2.trans s1, t2.trans t1,
    l2.trans l1, L2.trans L1, ?_, fun x y h => N2 x y (N1 x y h)⟩
  intro x y t ht
  obtain ⟨t', ht', he⟩ := T1 x y t ht
  obtain ⟨t'', ht'', he'⟩ := T2 x y t' ht'
  exact ⟨t'', ht'', he.te_trans he'⟩

theorem Evolves.WF {g g' : Game} (he : Evolves g g') (hw : g.WF) : g'.WF := by
  obtain ⟨w1, h1, _, _, _, _, L1, _, _⟩ := he
  obtain ⟨hl, hr⟩ := hw
  constructor
  · have : g'.tiles.length = g.tiles.length := by
      have := congrArg List.length L1
      simpa using this
    rw [this, hl, h1]
  · intro row hrow
    have hmem : row.length ∈ g'.tiles.map List.length := List.mem_map_of_mem _ hrow
    rw [L1] at hmem
    rw [List.mem_map] at hmem
    obtain ⟨r, hr2, hlen⟩ := hmem
    rw [← hlen, hr r hr2, w1]

theorem Evolves.revealedAt_mono {g g' : Game} (he : Evolves g g') {x y : Nat}
    (h : g.revealedAt x y = true) : g'.revealedAt x y = true := by
  unfold Game.revealedAt at h ⊢
  rcases hg : g.getTile? x y with _ | t
  · rw [hg] at h; cases h
  · rw [hg] at h
    obtain ⟨t', ht', he'⟩ := he.2.2.2.2.2.2.2.1 x y t hg
    rw [ht']
    exact he'.rev_mono h

/-- Generic preservation of a reflexive-transitive relation by a fold. -/
theorem foldl_rel {α : Type} {P : Game → Game → Prop} (f : Game → α → Game)
    (hrefl : ∀ g, P g g) (htrans : ∀ a b c, P a b → P b c → P a c)
    (hstep : ∀ g a, P g (f g a)) :
    ∀ (l : List α) (g : Game), P g (l.foldl f g)
  | [], g => hrefl g
  | a :: l, g =>
    htrans _ _ _ (hstep g a) (foldl_rel f hrefl htrans hstep l (f g a))

/-- Setting a list element to the value it already holds is the identity
(used for the row-length bookkeeping of `setTile`). -/
theorem List.set_eq_of_get? {α : Type} :
    ∀ (l : List α) (i : Nat) (b : α), l[i]? = some b → l.set i b = l
  | [], i, b, h => by simp at h
  | c :: l, 0, b, h => by
    simp only [List.getElem?_cons_zero, Option.some.injEq] at h
    subst h
    rfl
  | c :: l, i + 1, b, h => by
    simp only [List.getElem?_cons_succ] at h
    simp only [List.set_cons_succ, List.set_eq_of_get? l i b h]

/-! Branch equations of `madv`. -/

theorem madv_none (fuel : Nat) (g : Game) (p : Int × Int)
    (hoob : ¬ g.is_out_of_bounds p = true)
    (hget : g.getTile? p.1.toNat p.2.toNat = none) : madv (fuel + 1) g p = g := by
  simp [madv, hoob, hget]

theorem madv_skip (fuel : Nat) (g : Game) (p : Int × Int) (tile : Tile)
    (hoob : ¬ g.is_out_of_bounds p = true)
    (hget : g.getTile? p.1.toNat p.2.toNat = some tile)
    (hrm : (tile.is_revealed || tile.is_mine) = true) : madv (fuel + 1) g p = g := by
  simp [madv, hoob, hget, hrm]

theorem madv_leaf (fuel : Nat) (g : Game) (p : Int × Int) (tile : Tile)
    (hoob : ¬ g.is_out_of_bounds p = true)
    (hget : g.getTile? p.1.toNat p.2.toNat = some tile)
    (hrev : tile.is_revealed = false) (hmine : tile.is_mine = false)
    (hadj : tile.adjacent_mines ≠ 0) :
    madv (fuel + 1) g p = revealTile g p.1.toNat p.2.toNat tile := by
  simp [madv, hoob, hget, hrev, hmine, hadj]

theorem madv_rec (fuel : Nat) (g : Game) (p : Int × Int) (tile : Tile)
    (hoob : ¬ g.is_out_of_bounds p = true)
    (hget : g.getTile? p.1.toNat p.2.toNat = some tile)
    (hrev : tile.is_revealed = false) (hmine : tile.is_mine = false)
    (hadj : tile.adjacent_mines = 0) :
    madv (fuel + 1) g p =
      (neighborOffsets p).foldl (madv fuel) (revealTile g p.1.toNat p.2.toNat tile) := by
  simp [madv, hoob, hget, hrev, hmine, hadj]

/-- The reveal performed by the cascade body evolves the game. -/
theorem revealTile_evolves (g : Game) (x y : Nat) (tile : Tile)
    (ht : g.getTile? x y = some tile) (hrev : tile.is_revealed = false)
    (hmine : tile.is_mine = false) :
    Evolves g (revealTile g x y tile) := by
  refine ⟨rfl, rfl, rfl, rfl, rfl, rfl, ?_, ?_, ?_⟩
  · show (g.setTile x y _).tiles.map List.length = g.tiles.map List.length
    unfold Game.setTile
    unfold Game.getTile? at ht
    rcases hy : g.tiles[y]? with _ | row
    · rw [hy] at ht; cases ht
    · have hylt : y < g.tiles.length := by
        by_contra hc
        rw [List.getElem?_eq_none_iff.2 (by omega)] at hy; cases hy
      have hgd : g.tiles.getD y [] = row := by
        rw [List.getD_eq_getElem?_getD, hy]; rfl
      rw [hgd]
      rw [List.map_set]
      rw [List.length_set]
      have hmem : (g.tiles.map List.length)[y]? = some row.length :=
        List.getElem?_map_of_some _ hy
      exact List.set_eq_of_get? (g.tiles.map List.length) y row.length hmem
  · intro x' y' t' ht'
    by_cases hxy : x = x' ∧ y = y'
    · obtain ⟨hx, hy⟩ := hxy
      subst hx; subst hy
      rw [ht] at ht'
      injection ht' with ht'
      subst ht'
      refine ⟨{ tile with is_revealed := true, is_flagged := false }, ?_, ?_⟩
      · exact g.getTile?_setTile_self _ ht
      · refine ⟨rfl, rfl, ?_, ?_, ?_⟩
        · intro h; rw [h] at hrev; cases hrev
        · intro h; rw [h] at hmine; cases hmine
        · intro h; cases h
    · refine ⟨t', ?_, TileEv.te_refl _⟩
      show (g.setTile x y _).getTile? x' y' = some t'
      rw [g.getTile?_setTile_ne _ (by tauto)]
      exact ht'
  · intro x' y' hn
    by_cases hxy : x = x' ∧ y = y'
    · obtain ⟨hx, hy⟩ := hxy
      subst hx; subst hy
      rw [ht] at hn; cases hn
    · show (g.setTile x y _).getTile? x' y' = none
      rw [g.getTile?_setTile_ne _ (by tauto)]
      exact hn

/-- The reveal cascade only evolves the game. -/
theorem madv_evolves : ∀ (fuel : Nat) (g : Game) (p : Int × Int),
    Evolves g (madv fuel g p)
  | 0, g, p => Evolves.ev_refl g
  | fuel + 1, g, p => by
    by_cases hoob : g.is_out_of_bounds p = true
    · rw [madv_oob _ _ _ hoob]
      exact Evolves.ev_refl g
    · rcases hget : g.getTile? p.1.toNat p.2.toNat with _ | tile
      · rw [madv_none fuel g p hoob hget]
        exact Evolves.ev_refl g
      · by_cases hrm : (tile.is_revealed || tile.is_mine) = true
        · rw [madv_skip fuel g p tile hoob hget hrm]
          exact Evolves.ev_refl g
        · simp only [Bool.or_eq_true, not_or, Bool.not_eq_true] at hrm
          have hev := revealTile_evolves g p.1.toNat p.2.toNat tile hget hrm.1 hrm.2
          by_cases hadj : tile.adjacent_mines = 0
          · rw [madv_rec fuel g p tile hoob hget hrm.1 hrm.2 hadj]
            exact hev.ev_trans
              (foldl_rel (madv fuel) Evolves.ev_refl (fun _ _ _ => Evolves.ev_trans)
                (fun g0 p0 => madv_evolves fuel g0 p0) _ _)
          · rw [madv_leaf fuel g p tile hoob hget hrm.1 hrm.2 hadj]
            exact hev

/-! ### Counter bookkeeping of the cascade -/

/-- Counter relation preserved by the cascade: shape plus
`unmined_tiles + revCount = width * height`. -/
def CounterP (a b : Game) : Prop :=
  (a.WF → b.WF) ∧
  (a.WF → a.unmined_tiles + a.revCount = a.width * a.height →
    b.unmined_tiles + b.revCount = b.width * b.height)

theorem CounterP.cp_refl (g : Game) : CounterP g g := ⟨fun h => h, fun _ h => h⟩

theorem CounterP.cp_trans {a b c : Game} (h1 : CounterP a b) (h2 : CounterP b c) :
    CounterP a c :=
  ⟨fun hw => h2.1 (h1.1 hw), fun hw hc => h2.2 (h1.1 hw) (h1.2 hw hc)⟩

theorem revealTile_WF (g : Game) (x y : Nat) (tile : Tile) (hw : g.WF) :
    (revealTile g x y tile).WF :=
  Game.WF_setTile _ _ _ _ hw

/-- The reveal block decrements `unmined_tiles` by exactly one (no
underflow: the counter is positive because the revealed tile witnesses an
unrevealed safe tile) and increments the revealed-safe count by one. -/
theorem revealTile_counter (g : Game) (x y : Nat) (tile : Tile) (hw : g.WF)
    (ht : g.getTile? x y = some tile) (hrev : tile.is_revealed = false)
    (hmine : tile.is_mine = false)
    (hc : g.unmined_tiles + g.revCount = g.width * g.height) :
    (revealTile g x y tile).unmined_tiles + (revealTile g x y tile).revCount =
      (revealTile g x y tile).width * (revealTile g x y tile).height := by
  have hcount := g.countGrid_setTile (fun t => t.is_revealed && !t.is_mine)
    { tile with is_revealed := true, is_flagged := false } ht
  have hpt : (tile.is_revealed && !tile.is_mine) = false := by rw [hrev]; rfl
  simp only [hpt, Bool.false_eq_true, if_false] at hcount
  have hpt1 : (({ tile with is_revealed := true, is_flagged := false } : Tile).is_revealed
      && !({ tile with is_revealed := true, is_flagged := false } : Tile).is_mine) = true := by
    simp [hmine]
  simp only [hpt1, if_true] at hcount
  have hlt := g.countGrid_lt_totalTiles (fun t => t.is_revealed && !t.is_mine) ht
    (by simp [hpt])
  have htot := g.totalTiles_eq hw
  show (g.unmined_tiles - 1) +
      (g.setTile x y { tile with is_revealed := true, is_flagged := false }).countGrid
        (fun t => t.is_revealed && !t.is_mine) = g.width * g.height
  unfold Game.revCount at hc
  have hmul : g.height * g.width = g.width * g.height := Nat.mul_comm _ _
  omega

/-- The cascade preserves the counter relation. -/
theorem madv_counterP : ∀ (fuel : Nat) (g : Game) (p : Int × Int),
    CounterP g (madv fuel g p)
  | 0, g, p => CounterP.cp_refl g
  | fuel + 1, g, p => by
    by_cases hoob : g.is_out_of_bounds p = true
    · rw [madv_oob _ _ _ hoob]
      exact CounterP.cp_refl g
    · rcases hget : g.getTile? p.1.toNat p.2.toNat with _ | tile
      · rw [madv_none fuel g p hoob hget]
        exact CounterP.cp_refl g
      · by_cases hrm : (tile.is_revealed || tile.is_mine) = true
        · rw [madv_skip fuel g p tile hoob hget hrm]
          exact CounterP.cp_refl g
        · simp only [Bool.or_eq_true, not_or, Bool.not_eq_true] at hrm
          have hstep : CounterP g (revealTile g p.1.toNat p.2.toNat tile) :=
            ⟨fun hw => revealTile_WF _ _ _ _ hw,
             fun hw hc => revealTile_counter g _ _ tile hw hget hrm.1 hrm.2 hc⟩
          by_cases hadj : tile.adjacent_mines = 0
          · rw [madv_rec fuel g p tile hoob hget hrm.1 hrm.2 hadj]
            exact hstep.cp_trans
              (foldl_rel (madv fuel) CounterP.cp_refl (fun _ _ _ => CounterP.cp_trans)
                (fun g0 p0 => madv_counterP fuel g0 p0) _ _)
          · rw [madv_leaf fuel g p tile hoob hget hrm.1 hrm.2 hadj]
            exact hstep

/-- Pointwise monotonicity: an evolved game has no more unrevealed safe
tiles than the original. -/
theorem Evolves.usc_le {g g' : Game} (he : Evolves g g') (hw : g.WF) :
    g'.usc ≤ g.usc := by
  have hw' := he.WF hw
  unfold Game.usc
  rw [Game.countGrid_eq_countPt _ _ hw, Game.countGrid_eq_countPt _ _ hw']
  unfold Game.countPt
  rw [he.1, he.2.1]
  apply List.sum_le_sum
  intro y _
  apply List.sum_le_sum
  intro x _
  rcases hg : g.getTile? x y with _ | t
  · rw [he.2.2.2.2.2.2.2.2 x y hg]
  · obtain ⟨t', ht', hev⟩ := he.2.2.2.2.2.2.2.1 x y t hg
    rw [ht']
    unfold tileInd
    rcases hr : t.is_revealed with _ | _
    · rcases hr' : t'.is_revealed with _ | _
      · simp only [hev.1, hr, hr']
        exact Nat.le_refl _
      · simp only [hr', Bool.not_true, Bool.false_and, Bool.false_eq_true, if_false]
        exact Nat.zero_le _
    · rw [hev.2.2.1 hr]

/-- The reveal block consumes exactly one unrevealed safe tile. -/
theorem revealTile_usc (g : Game) (x y : Nat) (tile : Tile)
    (ht : g.getTile? x y = some tile) (hrev : tile.is_revealed = false)
    (hmine : tile.is_mine = false) :
    (revealTile g x y tile).usc + 1 = g.usc := by
  have hcount := g.countGrid_setTile (fun t => !t.is_revealed && !t.is_mine)
    { tile with is_revealed := true, is_flagged := false } ht
  have hpt : (!tile.is_revealed && !tile.is_mine) = true := by
    rw [hrev, hmine]; rfl
  have hpt1 : (!({ tile with is_revealed := true, is_flagged := false } : Tile).is_revealed
      && !({ tile with is_revealed := true, is_flagged := false } : Tile).is_mine) = false := by
    rfl
  simp only [hpt, hpt1, Bool.false_eq_true, if_false, if_true] at hcount
  show (g.setTile x y { tile with is_revealed := true, is_flagged := false }).countGrid
      (fun t => !t.is_revealed && !t.is_mine) + 1 = g.usc
  unfold Game.usc
  omega

/-- The cascade never increases the number of unrevealed safe tiles. -/
theorem madv_usc_le (fuel : Nat) (g : Game) (p : Int × Int) (hw : g.WF) :
    (madv fuel g p).usc ≤ g.usc :=
  (madv_evolves fuel g p).usc_le hw

/-! ### Fresh boards and reveal-state preservation through generation -/

theorem Game.new_WF (w h m now : Nat) : (Game.new w h m now).WF := by
  constructor
  · simp [Game.new]
  · intro row hrow
    simp only [Game.new] at hrow
    rw [List.eq_of_mem_replicate hrow]
    simp [Game.new]

theorem Game.getTile?_new (w h m now x y : Nat) :
    (Game.new w h m now).getTile? x y = none ∨
      (Game.new w h m now).getTile? x y = some Tile.new := by
  unfold Game.getTile?
  rcases h1 : (Game.new w h m now).tiles[y]? with _ | row
  · left; rfl
  · have hrow : row = List.replicate w Tile.new := by
      have := List.getElem?_mem h1
      simp only [Game.new] at this
      exact List.eq_of_mem_replicate this
    subst hrow
    rcases h2 : (List.replicate w Tile.new)[x]? with _ | t
    · left
      simp [h2]
    · right
      have ht : t = Tile.new := List.eq_of_mem_replicate (List.getElem?_mem h2)
      subst ht
      simp [h2]

theorem Game.revealedAt_new (w h m now x y : Nat) :
    (Game.new w h m now).revealedAt x y = false := by
  unfold Game.revealedAt
  rcases Game.getTile?_new w h m now x y with h | h <;> rw [h] <;> rfl

theorem Game.revCount_zero (g : Game) (hw : g.WF)
    (h : ∀ x y : Nat, g.revealedAt x y = false) : g.revCount = 0 := by
  unfold Game.revCount
  rw [Game.countGrid_eq_countPt _ _ hw]
  unfold Game.countPt
  apply List.sum_eq_zero
  intro a ha
  rw [List.mem_map] at ha
  obtain ⟨y, _, ha⟩ := ha
  subst ha
  apply List.sum_eq_zero
  intro b hb
  rw [List.mem_map] at hb
  obtain ⟨x, _, hb⟩ := hb
  subst hb
  unfold tileInd
  rcases hg : g.getTile? x y with _ | t
  · rfl
  · have h2 : t.is_revealed = false := by
      have := h x y
      unfold Game.revealedAt at this
      rw [hg] at this
      exact this
    simp [h2]

theorem Game.revealedAt_setMine (g : Game) (c : Nat × Nat) (x y : Nat) :
    (g.setMine c).revealedAt x y = g.revealedAt x y := by
  unfold Game.setMine
  rcases hg : g.getTile? c.1 c.2 with _ | t
  · rfl
  · unfold Game.revealedAt
    by_cases hxy : c.1 = x ∧ c.2 = y
    · obtain ⟨hx, hy⟩ := hxy
      subst hx; subst hy
      rw [g.getTile?_setTile_self _ hg, hg]
    · rw [g.getTile?_setTile_ne _ (by tauto)]

theorem placeMines_revealedAt :
    ∀ (g : Game) (cs : List (Nat × Nat)) (k : Nat) (dug : Nat × Nat) (g' : Game),
      placeMines g cs k dug = some g' →
      ∀ x y : Nat, g'.revealedAt x y = g.revealedAt x y
  | g, cs, 0, dug, g', h => by
    simp only [placeMines, Option.some.injEq] at h
    subst h
    exact fun _ _ => rfl
  | g, [], k + 1, dug, g', h => Option.noConfusion h
  | g, c :: cs, k + 1, dug, g', h => by
    simp only [placeMines] at h
    split at h
    · intro x y
      rw [placeMines_revealedAt _ _ _ _ _ h x y, g.revealedAt_setMine c x y]
    · exact placeMines_revealedAt _ _ _ _ _ h

theorem Game.revealedAt_computeAdjacency (g : Game) (hw : g.WF) (x y : Nat) :
    (g.computeAdjacency).revealedAt x y = g.revealedAt x y := by
  unfold Game.revealedAt
  rw [g.getTile?_computeAdjacency hw]
  rcases hg : g.getTile? x y with _ | t <;> simp

/-! ### The reachability invariant -/

/-- Inductive invariant of every reachable game: fixed dimensions and mine
count, a well-shaped grid, the counter identity
`unmined_tiles + revCount = width * height`, the win-state
characterisation, and a fresh board before the first dig. -/
def GameInv (w h m : Nat) (g : Game) : Prop :=
  g.width = w ∧ g.height = h ∧ g.number_of_mines = m ∧ g.WF ∧
  g.unmined_tiles + g.revCount = w * h ∧
  (g.state = GameState.Won ↔ g.unmined_tiles = m) ∧
  (g.state = GameState.NotStarted → ∀ x y : Nat, g.revealedAt x y = false)

theorem GameInv_flag (w h m : Nat) (g g' : Game) (inv : GameInv w h m g)
    (p : Nat × Nat) (now : Nat) (happ : g.flag p now = some g') : GameInv w h m g' := by
  obtain ⟨hW, hH, hM, hwf, hc, hwin, hns⟩ := inv
  by_cases hst : g.state = GameState.Playing
  · have hne : ¬ g.state ≠ GameState.Playing := by simp [hst]
    unfold Game.flag at happ
    rw [if_neg hne] at happ
    simp only [Game.getTile?_stamp_last] at happ
    rcases hget : g.getTile? p.1 p.2 with _ | tile
    · simp only [hget] at happ
      cases happ
    · simp only [hget] at happ
      split at happ
      · injection happ with happ
        subst happ
        have hrc := g.countGrid_setTile (fun t => t.is_revealed && !t.is_mine)
          { tile with is_flagged := true } hget
        have hind : (((fun t => t.is_revealed && !t.is_mine)
            ({ tile with is_flagged := true } : Tile)) : Bool) =
            ((fun t => t.is_revealed && !t.is_mine) tile : Bool) := rfl
        rw [hind] at hrc
        refine ⟨hW, hH, hM, Game.WF_setTile _ _ _ _ hwf, ?_, ?_, ?_⟩
        · show g.unmined_tiles +
            (g.setTile p.1 p.2 { tile with is_flagged := true }).countGrid
              (fun t => t.is_revealed && !t.is_mine) = w * h
          unfold Game.revCount at hc
          omega
        · have hst' : g.state = GameState.Playing := hst
          constructor
          · intro hcon
            exact absurd (hst'.symm.trans hcon) (by intro hx; cases hx)
          · intro hum
            have : g.state = GameState.Won := hwin.mpr hum
            rw [hst] at this
            cases this
        · intro hcon
          exact absurd (hst.symm.trans hcon) (by intro hx; cases hx)
      · injection happ with happ
        subst happ
        exact ⟨hW, hH, hM, hwf, hc, hwin, hns⟩
  · have : g.flag p now = some g := by simp [Game.flag, hst]
    rw [this] at happ
    injection happ with happ
    subst happ
    exact ⟨hW, hH, hM, hwf, hc, hwin, hns⟩

theorem GameInv_unflag (w h m : Nat) (g g' : Game) (inv : GameInv w h m g)
    (p : Nat × Nat) (now : Nat) (happ : g.unflag p now = some g') : GameInv w h m g' := by
  obtain ⟨hW, hH, hM, hwf, hc, hwin, hns⟩ := inv
  by_cases hst : g.state = GameState.Playing
  · have hne : ¬ g.state ≠ GameState.Playing := by simp [hst]
    unfold Game.unflag at happ
    rw [if_neg hne] at happ
    simp only [Game.getTile?_stamp_last] at happ
    rcases hget : g.getTile? p.1 p.2 with _ | tile
    · simp only [hget] at happ
      cases happ
    · simp only [hget] at happ
      split at happ
      · injection happ with happ
        subst happ
        have hrc := g.countGrid_setTile (fun t => t.is_revealed && !t.is_mine)
          { tile with is_flagged := false } hget
        have hind : (((fun t => t.is_revealed && !t.is_mine)
            ({ tile with is_flagged := false } : Tile)) : Bool) =
            ((fun t => t.is_revealed && !t.is_mine) tile : Bool) := rfl
        rw [hind] at hrc
        refine ⟨hW, hH, hM, Game.WF_setTile _ _ _ _ hwf, ?_, ?_, ?_⟩
        · show g.unmined_tiles +
            (g.setTile p.1 p.2 { tile with is_flagged := false }).countGrid
              (fun t => t.is_revealed && !t.is_mine) = w * h
          unfold Game.revCount at hc
          omega
        · constructor
          · intro hcon
            exact absurd (hst.symm.trans hcon) (by intro hx; cases hx)
          · intro hum
            have : g.state = GameState.Won := hwin.mpr hum
            rw [hst] at this
            cases this
        · intro hcon
          exact absurd (hst.symm.trans hcon) (by intro hx; cases hx)
      · injection happ with happ
        subst happ
        exact ⟨hW, hH, hM, hwf, hc, hwin, hns⟩
  · have : g.unflag p now = some g := by simp [Game.unflag, hst]
    rw [this] at happ
    injection happ with happ
    subst happ
    exact ⟨hW, hH, hM, hwf, hc, hwin, hns⟩

/-- The win check after a reveal keeps the invariant and establishes the
win-state characterisation. -/
theorem GameInv_winCheck (w h m : Nat) (g0 : Game) (hW0 : g0.width = w)
    (hH0 : g0.height = h) (hM0 : g0.number_of_mines = m) (hwf0 : g0.WF)
    (hc0 : g0.unmined_tiles + g0.revCount = w * h)
    (hst0 : g0.state = GameState.Playing) :
    GameInv w h m
      (if g0.unmined_tiles = g0.number_of_mines then { g0 with state := GameState.Won }
       else g0) := by
  by_cases hwin0 : g0.unmined_tiles = g0.number_of_mines
  · rw [if_pos hwin0]
    refine ⟨hW0, hH0, hM0, hwf0, hc0, ?_, ?_⟩
    · constructor
      · intro _
        show g0.unmined_tiles = m
        rw [hwin0, hM0]
      · intro _
        rfl
    · intro hcon
      cases hcon
  · rw [if_neg hwin0]
    refine ⟨hW0, hH0, hM0, hwf0, hc0, ?_, ?_⟩
    · constructor
      · intro hcon
        rw [hst0] at hcon
        cases hcon
      · intro hum
        exact absurd (hum.trans hM0.symm) hwin0
    · intro hcon
      rw [hst0] at hcon
      cases hcon

theorem GameInv_dig (w h m : Nat) (g g' : Game) (inv : GameInv w h m g)
    (p : Nat × Nat) (cs : List (Nat × Nat)) (now : Nat)
    (happ : g.dig p cs now = some g') : GameInv w h m g' := by
  obtain ⟨hW, hH, hM, hwf, hc, hwin, hns⟩ := inv
  rcases hst : g.state with _ | _ | _ | _
  · -- Won: no-op
    have hd : g.dig p cs now = some g := by unfold Game.dig; rw [hst]
    rw [hd] at happ
    injection happ with happ
    subst happ
    exact ⟨hW, hH, hM, hwf, hc, hwin, hns⟩
  · -- Playing: single_dig
    have hd : g.dig p cs now = g.single_dig p now := by unfold Game.dig; rw [hst]
    rw [hd] at happ
    unfold Game.single_dig at happ
    simp only [Game.getTile?_stamp_last] at happ
    rcases hget : g.getTile? p.1 p.2 with _ | tile
    · simp only [hget] at happ
      cases happ
    · simp only [hget] at happ
      by_cases hfl : tile.is_flagged = true
      · rw [if_pos hfl] at happ
        injection happ with happ
        subst happ
        exact ⟨hW, hH, hM, hwf, hc, hwin, hns⟩
      · rw [if_neg hfl] at happ
        by_cases hmine : tile.is_mine = true
        · rw [if_pos hmine] at happ
          injection happ with happ
          subst happ
          have hrc := g.countGrid_setTile (fun t => t.is_revealed && !t.is_mine)
            { tile with is_revealed := true } hget
          have h1 : ((fun t => t.is_revealed && !t.is_mine) tile : Bool) = false := by
            simp [hmine]
          have h2 : ((fun t => t.is_revealed && !t.is_mine)
              ({ tile with is_revealed := true } : Tile) : Bool) = false := by
            simp [hmine]
          rw [h1, h2] at hrc
          refine ⟨hW, hH, hM, Game.WF_setTile _ _ _ _ hwf, ?_, ?_, ?_⟩
          · show g.unmined_tiles +
              (g.setTile p.1 p.2 { tile with is_revealed := true }).countGrid
                (fun t => t.is_revealed && !t.is_mine) = w * h
            unfold Game.revCount at hc
            omega
          · constructor
            · intro hcon
              cases hcon
            · intro hum
              have : g.state = GameState.Won := hwin.mpr hum
              rw [hst] at this
              cases this
          · intro hcon
            cases hcon
        · rw [if_neg hmine] at happ
          injection happ with happ
          subst happ
          have hev := madv_evolves
            (({ g with last_move_time := now } : Game).width *
              ({ g with last_move_time := now } : Game).height + 1)
            ({ g with last_move_time := now } : Game) ((p.1 : Int), (p.2 : Int))
          have hcp := madv_counterP
            (({ g with last_move_time := now } : Game).width *
              ({ g with last_move_time := now } : Game).height + 1)
            ({ g with last_move_time := now } : Game) ((p.1 : Int), (p.2 : Int))
          refine GameInv_winCheck w h m _ (hev.1.trans hW) (hev.2.1.trans hH)
            (hev.2.2.1.trans hM) (hcp.1 hwf) ?_ ?_
          · have hcgt : ({ g with last_move_time := now } : Game).unmined_tiles +
                ({ g with last_move_time := now } : Game).revCount =
                ({ g with last_move_time := now } : Game).width *
                ({ g with last_move_time := now } : Game).height := by
              show g.unmined_tiles + g.revCount = g.width * g.height
              rw [hW, hH]
              exact hc
            have hco := hcp.2 hwf hcgt
            rw [hev.1, hev.2.1] at hco
            simp only [Game.make_adjacent_tiles_visible]
            rw [hco]
            show g.width * g.height = w * h
            rw [hW, hH]
          · exact hev.2.2.2.1.trans hst
  · -- Lost: no-op
    have hd : g.dig p cs now = some g := by unfold Game.dig; rw [hst]
    rw [hd] at happ
    injection happ with happ
    subst happ
    exact ⟨hW, hH, hM, hwf, hc, hwin, hns⟩
  · -- NotStarted: start_dig
    have hd : g.dig p cs now = g.start_dig p cs now := by unfold Game.dig; rw [hst]
    rw [hd] at happ
    simp only [Game.start_dig] at happ
    rcases hgen : ({ g with time_started := now, last_move_time := now } : Game).generate_mines
      p cs with _ | gm
    · rw [hgen] at happ
      cases happ
    · rw [hgen] at happ
      simp only [Option.map_some'] at happ
      injection happ with happ
      subst happ
      obtain ⟨hwid, hhei, hm2, hun2, _, _, _, _, hwfgm⟩ :=
        Game.generate_mines_fields _ _ _ _ hgen
      have hgw : gm.width = w := hwid.trans hW
      have hgh : gm.height = h := hhei.trans hH
      have hgm : gm.number_of_mines = m := hm2.trans hM
      have hrevgm : ∀ x y : Nat, gm.revealedAt x y = false := by
        unfold Game.generate_mines at hgen
        rcases hpm : placeMines ({ g with time_started := now, last_move_time := now } : Game)
          cs ({ g with time_started := now, last_move_time := now } : Game).number_of_mines
          p with _ | gp
        · rw [hpm] at hgen
          cases hgen
        · rw [hpm] at hgen
          simp only [Option.map_some'] at hgen
          injection hgen with hgen
          subst hgen
          obtain ⟨_, _, _, _, _, _, _, _, hwfgp⟩ := placeMines_fields _ _ _ _ _ hpm
          intro x y
          rw [gp.revealedAt_computeAdjacency (hwfgp hwf),
            placeMines_revealedAt _ _ _ _ _ hpm x y]
          exact hns hst x y
      have hrc0 : gm.revCount = 0 := gm.revCount_zero hwfgm hrevgm
      have hrz : g.revCount = 0 := g.revCount_zero hwf (hns hst)
      have hgun : gm.unmined_tiles = w * h := by
        have hgu : g.unmined_tiles = w * h := by omega
        exact hun2.trans hgu
      have hcgm : gm.unmined_tiles + gm.revCount = gm.width * gm.height := by
        rw [hgun, hrc0, hgw, hgh]
        omega
      have hev := madv_evolves (gm.width * gm.height + 1) gm ((p.1 : Int), (p.2 : Int))
      have hcp := madv_counterP (gm.width * gm.height + 1) gm ((p.1 : Int), (p.2 : Int))
      have hco := hcp.2 hwfgm hcgm
      rw [hev.1, hev.2.1] at hco
      simp only [Game.afterGenDig, Game.make_adjacent_tiles_visible]
      refine GameInv_winCheck w h m
        { madv (gm.width * gm.height + 1) gm ((p.1 : Int), (p.2 : Int)) with state := GameState.Playing }
        (hev.1.trans hgw) (hev.2.1.trans hgh) (hev.2.2.1.trans hgm) (hcp.1 hwfgm) ?_ rfl
      show (madv (gm.width * gm.height + 1) gm ((p.1 : Int), (p.2 : Int))).unmined_tiles +
        (madv (gm.width * gm.height + 1) gm ((p.1 : Int), (p.2 : Int))).revCount = w * h
      rw [hco, hgw, hgh]

/-- Every reachable game satisfies the invariant. -/
theorem reachable_inv (w h m : Nat) (g : Game) (hr : Reachable w h m g) :
    GameInv w h m g := by
  induction hr with
  | init now hm0 hm =>
    refine ⟨rfl, rfl, rfl, Game.new_WF w h m now, ?_, ?_, ?_⟩
    · have : (Game.new w h m now).revCount = 0 :=
        (Game.new w h m now).revCount_zero (Game.new_WF w h m now)
          (Game.revealedAt_new w h m now)
      show w * h + (Game.new w h m now).revCount = w * h
      omega
    · constructor
      · intro hcon
        cases hcon
      · intro hum
        have : w * h = m := hum
        omega
    · intro _
      exact Game.revealedAt_new w h m now
  | step mv hrg hok happ ih =>
    rcases mv with ⟨p, cs, now⟩ | ⟨p, now⟩ | ⟨p, now⟩
    · exact GameInv_dig w h m _ _ ih p cs now happ
    · exact GameInv_flag w h m _ _ ih p now happ
    · exact GameInv_unflag w h m _ _ ih p now happ

/-- `flag` never changes the game state field. -/
theorem Game.flag_state (g g' : Game) (p : Nat × Nat) (now : Nat)
    (happ : g.flag p now = some g') : g'.state = g.state := by
  by_cases hst : g.state = GameState.Playing
  · have hne : ¬ (g.state ≠ GameState.Playing) := by simp [hst]
    unfold Game.flag at happ
    rw [if_neg hne] at happ
    simp only [Game.getTile?_stamp_last] at happ
    rcases hget : g.getTile? p.1 p.2 with _ | tile
    · simp only [hget] at happ
      cases happ
    · simp only [hget] at happ
      split at happ
      · injection happ with happ
        subst happ
        rfl
      · injection happ with happ
        subst happ
        rfl
  · unfold Game.flag at happ
    rw [if_pos hst] at happ
    injection happ with happ
    subst happ
    rfl

/-- `unflag` never changes the game state field. -/
theorem Game.unflag_state (g g' : Game) (p : Nat × Nat) (now : Nat)
    (happ : g.unflag p now = some g') : g'.state = g.state := by
  by_cases hst : g.state = GameState.Playing
  · have hne : ¬ (g.state ≠ GameState.Playing) := by simp [hst]
    unfold Game.unflag at happ
    rw [if_neg hne] at happ
    simp only [Game.getTile?_stamp_last] at happ
    rcases hget : g.getTile? p.1 p.2 with _ | tile
    · simp only [hget] at happ
      cases happ
    · simp only [hget] at happ
      split at happ
      · injection happ with happ
        subst happ
        rfl
      · injection happ with happ
        subst happ
        rfl
  · unfold Game.unflag at happ
    rw [if_pos hst] at happ
    injection happ with happ
    subst happ
    rfl

/-- Inversion of the win check: a `Won` result comes from a `Playing` game
whose unrevealed-safe counter equals the mine count. -/
theorem winCheck_won_inversion (g0 g' : Game) (hst0 : g0.state = GameState.Playing)
    (heq : (if g0.unmined_tiles = g0.number_of_mines then { g0 with state := GameState.Won }
      else g0) = g')
    (hW' : g'.state = GameState.Won) :
    ∃ gp : Game, gp.state = GameState.Playing ∧ gp.unmined_tiles = gp.number_of_mines ∧
      g' = { gp with state := GameState.Won } := by
  by_cases hwin : g0.unmined_tiles = g0.number_of_mines
  · rw [if_pos hwin] at heq
    exact ⟨g0, hst0, hwin, heq.symm⟩
  · rw [if_neg hwin] at heq
    subst heq
    rw [hst0] at hW'
    cases hW'

/-- A `dig` that ends in `Won` either started in `Won` or passed the win
check from `Playing` with the counter equal to the mine count. -/
theorem Game.dig_won_inversion (g g' : Game) (p : Nat × Nat) (cs : List (Nat × Nat))
    (now : Nat) (happ : g.dig p cs now = some g') (hW' : g'.state = GameState.Won) :
    g.state = GameState.Won ∨
    ∃ gp : Game, gp.state = GameState.Playing ∧ gp.unmined_tiles = gp.number_of_mines ∧
      g' = { gp with state := GameState.Won } := by
  rcases hst : g.state with _ | _ | _ | _
  · -- dig on a Won game is the identity
    have hd : g.dig p cs now = some g := by unfold Game.dig; rw [hst]
    rw [hd] at happ
    injection happ with happ
    subst happ
    exact Or.inl rfl
  · -- Playing: single_dig
    have hd : g.dig p cs now = g.single_dig p now := by unfold Game.dig; rw [hst]
    rw [hd] at happ
    unfold Game.single_dig at happ
    simp only [Game.getTile?_stamp_last] at happ
    rcases hget : g.getTile? p.1 p.2 with _ | tile
    · simp only [hget] at happ
      cases happ
    · simp only [hget] at happ
      by_cases hfl : tile.is_flagged = true
      · rw [if_pos hfl] at happ
        injection happ with happ
        subst happ
        have hg : g.state = GameState.Won := hW'
        rw [hst] at hg
        cases hg
      · rw [if_neg hfl] at happ
        by_cases hmine : tile.is_mine = true
        · rw [if_pos hmine] at happ
          injection happ with happ
          subst happ
          cases hW'
        · rw [if_neg hmine] at happ
          injection happ with happ
          have hev := madv_evolves
            (({ g with last_move_time := now } : Game).width *
              ({ g with last_move_time := now } : Game).height + 1)
            ({ g with last_move_time := now } : Game) ((p.1 : Int), (p.2 : Int))
          have hst1 : (({ g with last_move_time := now } : Game).make_adjacent_tiles_visible
              ((p.1 : Int), (p.2 : Int))).state = GameState.Playing :=
            hev.2.2.2.1.trans hst
          exact Or.inr (winCheck_won_inversion
            (({ g with last_move_time := now } : Game).make_adjacent_tiles_visible
              ((p.1 : Int), (p.2 : Int))) g' hst1 happ hW')
  · -- dig on a Lost game is the identity; the result cannot be Won
    have hd : g.dig p cs now = some g := by unfold Game.dig; rw [hst]
    rw [hd] at happ
    injection happ with happ
    subst happ
    have hg : g.state = GameState.Won := hW'
    rw [hst] at hg
    cases hg
  · -- NotStarted: start_dig, where the win check runs on a Playing game
    have hd : g.dig p cs now = g.start_dig p cs now := by unfold Game.dig; rw [hst]
    rw [hd] at happ
    simp only [Game.start_dig] at happ
    rcases hgen : ({ g with time_started := now, last_move_time := now } : Game).generate_mines
      p cs with _ | gm
    · rw [hgen] at happ
      cases happ
    · rw [hgen] at happ
      simp only [Option.map_some'] at happ
      injection happ with happ
      exact Or.inr (winCheck_won_inversion
        ({ gm.make_adjacent_tiles_visible ((p.1 : Int), (p.2 : Int)) with state := GameState.Playing })
        g' rfl happ hW')

/-- C5: in every reachable game, `state = Won` holds exactly when the
unrevealed-safe counter equals the mine count; and any move that produces a
`Won` game either left an already-`Won` game unchanged or took the win check
from a `Playing` game whose counter equals the mine count (in particular the
first dig switches to `Playing` before the check). -/
theorem C5_win_condition (w h m : Nat) (g : Game) (hr : Reachable w h m g) :
    (g.state = GameState.Won ↔ g.unmined_tiles = g.number_of_mines) ∧
    (∀ (mv : Move) (g' : Game), g.applyMove mv = some g' → g'.state = GameState.Won →
      g.state = GameState.Won ∨
      ∃ gp : Game, gp.state = GameState.Playing ∧
        gp.unmined_tiles = gp.number_of_mines ∧ g' = { gp with state := GameState.Won }) := by
  obtain ⟨hW, hH, hM, hwf, hc, hwin, hns⟩ := reachable_inv w h m g hr
  constructor
  · rw [hM]
    exact hwin
  · intro mv g' happ hW'
    rcases mv with ⟨p, cs, now⟩ | ⟨p, now⟩ | ⟨p, now⟩
    · exact Game.dig_won_inversion g g' p cs now happ hW'
    · left
      rw [← Game.flag_state g g' p now happ]
      exact hW'
    · left
      rw [← Game.unflag_state g g' p now happ]
      exact hW'

theorem C5_win_condition_witness :
    (Game.new 2 2 1 0).state = GameState.Won ↔
      (Game.new 2 2 1 0).unmined_tiles = (Game.new 2 2 1 0).number_of_mines :=
  (C5_win_condition 2 2 1 (Game.new 2 2 1 0) (Reachable.init 0 (by decide) (by decide))).1

/-- Under the cascade-evolution relation, the revealed-safe count never
decreases. -/
theorem Evolves.revCount_le {g g' : Game} (he : Evolves g g') (hw : g.WF) :
    g.revCount ≤ g'.revCount := by
  have hw' := he.WF hw
  unfold Game.revCount
  rw [Game.countGrid_eq_countPt _ _ hw, Game.countGrid_eq_countPt _ _ hw']
  unfold Game.countPt
  rw [he.1, he.2.1]
  apply List.sum_le_sum
  intro y _
  apply List.sum_le_sum
  intro x _
  rcases hg : g.getTile? x y with _ | t
  · rw [he.2.2.2.2.2.2.2.2 x y hg]
  · obtain ⟨t', ht', hev⟩ := he.2.2.2.2.2.2.2.1 x y t hg
    rw [ht']
    unfold tileInd
    rcases hr : t.is_revealed with _ | _
    · simp only [hr, Bool.false_and, Bool.false_eq_true, if_false]
      exact Nat.zero_le _
    · rw [hev.2.2.1 hr]

/-- Across one successful engine command from a well-formed game (fresh in
`NotStarted`), revealed tiles stay revealed and the revealed-safe count does
not decrease. -/
theorem applyMove_rev_mono (g g' : Game) (hwf : g.WF)
    (hnr : g.state = GameState.NotStarted → ∀ x y : Nat, g.revealedAt x y = false)
    (mv : Move) (happ : g.applyMove mv = some g') :
    (∀ x y : Nat, ∀ t t' : Tile, g.getTile? x y = some t → g'.getTile? x y = some t' →
      t.is_revealed = true → t'.is_revealed = true) ∧
    g.revCount ≤ g'.revCount := by
  rcases mv with ⟨p, cs, now⟩ | ⟨p, now⟩ | ⟨p, now⟩
  · -- dig
    have hd0 : g.dig p cs now = some g' := happ
    rcases hst : g.state with _ | _ | _ | _
    · -- Won: identity
      have hd : g.dig p cs now = some g := by unfold Game.dig; rw [hst]
      rw [hd] at hd0
      injection hd0 with hd0
      subst hd0
      refine ⟨?_, Nat.le_refl _⟩
      intro x y t t' ht ht' hrev
      rw [ht] at ht'
      injection ht' with ht'
      subst ht'
      exact hrev
    · -- Playing: single_dig
      have hd : g.dig p cs now = g.single_dig p now := by unfold Game.dig; rw [hst]
      rw [hd] at hd0
      unfold Game.single_dig at hd0
      simp only [Game.getTile?_stamp_last] at hd0
      rcases hget : g.getTile? p.1 p.2 with _ | tile
      · simp only [hget] at hd0
        cases hd0
      · simp only [hget] at hd0
        by_cases hfl : tile.is_flagged = true
        · rw [if_pos hfl] at hd0
          injection hd0 with hd0
          subst hd0
          refine ⟨?_, Nat.le_refl _⟩
          intro x y t t' ht ht' hrev
          have ht'2 : g.getTile? x y = some t' := ht'
          rw [ht] at ht'2
          injection ht'2 with ht'2
          subst ht'2
          exact hrev
        · rw [if_neg hfl] at hd0
          by_cases hmine : tile.is_mine = true
          · rw [if_pos hmine] at hd0
            injection hd0 with hd0
            subst hd0
            constructor
            · intro x y t t' ht ht' hrev
              have ht'2 : (g.setTile p.1 p.2 { tile with is_revealed := true }).getTile? x y =
                  some t' := ht'
              by_cases hxy : x = p.1 ∧ y = p.2
              · obtain ⟨hx, hy⟩ := hxy
                subst hx
                subst hy
                rw [g.getTile?_setTile_self { tile with is_revealed := true } hget] at ht'2
                injection ht'2 with ht'2
                subst ht'2
                rfl
              · have hne2 : p.1 ≠ x ∨ p.2 ≠ y := by tauto
                rw [g.getTile?_setTile_ne { tile with is_revealed := true } hne2] at ht'2
                rw [ht] at ht'2
                injection ht'2 with ht'2
                subst ht'2
                exact hrev
            · have hcnt := g.countGrid_setTile (fun t => t.is_revealed && !t.is_mine)
                { tile with is_revealed := true } hget
              have h1 : ((fun t => t.is_revealed && !t.is_mine) tile : Bool) = false := by
                simp [hmine]
              have h2 : ((fun t => t.is_revealed && !t.is_mine)
                  ({ tile with is_revealed := true } : Tile) : Bool) = false := by
                simp [hmine]
              rw [h1, h2] at hcnt
              show g.revCount ≤ (g.setTile p.1 p.2 { tile with is_revealed := true }).countGrid
                (fun t => t.is_revealed && !t.is_mine)
              unfold Game.revCount
              omega
          · rw [if_neg hmine] at hd0
            injection hd0 with hd0
            subst hd0
            have hev := madv_evolves
              (({ g with last_move_time := now } : Game).width *
                ({ g with last_move_time := now } : Game).height + 1)
              ({ g with last_move_time := now } : Game) ((p.1 : Int), (p.2 : Int))
            constructor
            · intro x y t t' ht ht' hrev
              have htg : ({ g with last_move_time := now } : Game).getTile? x y = some t := ht
              obtain ⟨t'', ht'', hevt⟩ := hev.2.2.2.2.2.2.2.1 x y t htg
              by_cases hwin : (({ g with last_move_time := now } : Game).make_adjacent_tiles_visible
                  ((p.1 : Int), (p.2 : Int))).unmined_tiles =
                  (({ g with last_move_time := now } : Game).make_adjacent_tiles_visible
                  ((p.1 : Int), (p.2 : Int))).number_of_mines
              · rw [if_pos hwin] at ht'
                have ht'3 : (madv (({ g with last_move_time := now } : Game).width *
                    ({ g with last_move_time := now } : Game).height + 1)
                    ({ g with last_move_time := now } : Game)
                    ((p.1 : Int), (p.2 : Int))).getTile? x y = some t' := ht'
                rw [ht''] at ht'3
                injection ht'3 with ht'3
                subst ht'3
                exact TileEv.rev_mono hevt hrev
              · rw [if_neg hwin] at ht'
                have ht'3 : (madv (({ g with last_move_time := now } : Game).width *
                    ({ g with last_move_time := now } : Game).height + 1)
                    ({ g with last_move_time := now } : Game)
                    ((p.1 : Int), (p.2 : Int))).getTile? x y = some t' := ht'
                rw [ht''] at ht'3
                injection ht'3 with ht'3
                subst ht'3
                exact TileEv.rev_mono hevt hrev
            · have hle := Evolves.revCount_le hev hwf
              by_cases hwin : (({ g with last_move_time := now } : Game).make_adjacent_tiles_visible
                  ((p.1 : Int), (p.2 : Int))).unmined_tiles =
                  (({ g with last_move_time := now } : Game).make_adjacent_tiles_visible
                  ((p.1 : Int), (p.2 : Int))).number_of_mines
              · rw [if_pos hwin]
                exact hle
              · rw [if_neg hwin]
                exact hle
    · -- Lost: identity
      have hd : g.dig p cs now = some g := by unfold Game.dig; rw [hst]
      rw [hd] at hd0
      injection hd0 with hd0
      subst hd0
      refine ⟨?_, Nat.le_refl _⟩
      intro x y t t' ht ht' hrev
      rw [ht] at ht'
      injection ht' with ht'
      subst ht'
      exact hrev
    · -- NotStarted: the board has no revealed tile, both parts are immediate
      constructor
      · intro x y t t' ht ht' hrev
        have h0 : g.revealedAt x y = false := hnr hst x y
        simp only [Game.revealedAt, ht] at h0
        rw [hrev] at h0
        cases h0
      · have h0 : g.revCount = 0 := g.revCount_zero hwf (hnr hst)
        rw [h0]
        exact Nat.zero_le _
  · -- flag
    have hd0 : g.flag p now = some g' := happ
    by_cases hst : g.state = GameState.Playing
    · have hne : ¬ g.state ≠ GameState.Playing := by simp [hst]
      unfold Game.flag at hd0
      rw [if_neg hne] at hd0
      simp only [Game.getTile?_stamp_last] at hd0
      rcases hget : g.getTile? p.1 p.2 with _ | tile
      · simp only [hget] at hd0
        cases hd0
      · simp only [hget] at hd0
        split at hd0
        · injection hd0 with hd0
          subst hd0
          constructor
          · intro x y t t' ht ht' hrev
            have ht'2 : (g.setTile p.1 p.2 { tile with is_flagged := true }).getTile? x y =
                some t' := ht'
            by_cases hxy : x = p.1 ∧ y = p.2
            · obtain ⟨hx, hy⟩ := hxy
              subst hx
              subst hy
              rw [g.getTile?_setTile_self { tile with is_flagged := true } hget] at ht'2
              injection ht'2 with ht'2
              subst ht'2
              rw [hget] at ht
              injection ht with ht
              subst ht
              exact hrev
            · have hne2 : p.1 ≠ x ∨ p.2 ≠ y := by tauto
              rw [g.getTile?_setTile_ne { tile with is_flagged := true } hne2] at ht'2
              rw [ht] at ht'2
              injection ht'2 with ht'2
              subst ht'2
              exact hrev
          · have hcnt := g.countGrid_setTile (fun t => t.is_revealed && !t.is_mine)
              { tile with is_flagged := true } hget
            have hind : (((fun t => t.is_revealed && !t.is_mine)
                ({ tile with is_flagged := true } : Tile)) : Bool) =
                ((fun t => t.is_revealed && !t.is_mine) tile : Bool) := rfl
            rw [hind] at hcnt
            show g.revCount ≤ (g.setTile p.1 p.2 { tile with is_flagged := true }).countGrid
              (fun t => t.is_revealed && !t.is_mine)
            unfold Game.revCount
            omega
        · injection hd0 with hd0
          subst hd0
          refine ⟨?_, Nat.le_refl _⟩
          intro x y t t' ht ht' hrev
          have ht'2 : g.getTile? x y = some t' := ht'
          rw [ht] at ht'2
          injection ht'2 with ht'2
          subst ht'2
          exact hrev
    · have hno : g.flag p now = some g := by simp [Game.flag, hst]
      rw [hno] at hd0
      injection hd0 with hd0
      subst hd0
      refine ⟨?_, Nat.le_refl _⟩
      intro x y t t' ht ht' hrev
      rw [ht] at ht'
      injection ht' with ht'
      subst ht'
      exact hrev
  · -- unflag
    have hd0 : g.unflag p now = some g' := happ
    by_cases hst : g.state = GameState.Playing
    · have hne : ¬ g.state ≠ GameState.Playing := by simp [hst]
      unfold Game.unflag at hd0
      rw [if_neg hne] at hd0
      simp only [Game.getTile?_stamp_last] at hd0
      rcases hget : g.getTile? p.1 p.2 with _ | tile
      · simp only [hget] at hd0
        cases hd0
      · simp only [hget] at hd0
        split at hd0
        · injection hd0 with hd0
          subst hd0
          constructor
          · intro x y t t' ht ht' hrev
            have ht'2 : (g.setTile p.1 p.2 { tile with is_flagged := false }).getTile? x y =
                some t' := ht'
            by_cases hxy : x = p.1 ∧ y = p.2
            · obtain ⟨hx, hy⟩ := hxy
              subst hx
              subst hy
              rw [g.getTile?_setTile_self { tile with is_flagged := false } hget] at ht'2
              injection ht'2 with ht'2
              subst ht'2
              rw [hget] at ht
              injection ht with ht
              subst ht
              exact hrev
            · have hne2 : p.1 ≠ x ∨ p.2 ≠ y := by tauto
              rw [g.getTile?_setTile_ne { tile with is_flagged := false } hne2] at ht'2
              rw [ht] at ht'2
              injection ht'2 with ht'2
              subst ht'2
              exact hrev
          · have hcnt := g.countGrid_setTile (fun t => t.is_revealed && !t.is_mine)
              { tile with is_flagged := false } hget
            have hind : (((fun t => t.is_revealed && !t.is_mine)
                ({ tile with is_flagged := false } : Tile)) : Bool) =
                ((fun t => t.is_revealed && !t.is_mine) tile : Bool) := rfl
            rw [hind] at hcnt
            show g.revCount ≤ (g.setTile p.1 p.2 { tile with is_flagged := false }).countGrid
              (fun t => t.is_revealed && !t.is_mine)
            unfold Game.revCount
            omega
        · injection hd0 with hd0
          subst hd0
          refine ⟨?_, Nat.le_refl _⟩
          intro x y t t' ht ht' hrev
          have ht'2 : g.getTile? x y = some t' := ht'
          rw [ht] at ht'2
          injection ht'2 with ht'2
          subst ht'2
          exact hrev
    · have hno : g.unflag p now = some g := by simp [Game.unflag, hst]
      rw [hno] at hd0
      injection hd0 with hd0
      subst hd0
      refine ⟨?_, Nat.le_refl _⟩
      intro x y t t' ht ht' hrev
      rw [ht] at ht'
      injection ht' with ht'
      subst ht'
      exact hrev

/-- The concrete first dig on the generated 6-by-1 board. -/
def exDig6 : Game := exGen6.afterGenDig (0, 0)

theorem exDig6_dig : (Game.new 6 1 1 0).applyMove (Move.dig (0, 0) [(4, 0)] 0) =
    some exDig6 := by
  have h1 : (Game.new 6 1 1 0).applyMove (Move.dig (0, 0) [(4, 0)] 0) =
      ((Game.new 6 1 1 0).generate_mines (0, 0) [(4, 0)]).map
        (fun gm => gm.afterGenDig (0, 0)) := rfl
  rw [h1, exGen6_gen]
  rfl

/-- C9: along any successful command from a reachable game, revealed tiles
stay revealed, and the unrevealed-safe counter never increases and obeys the
exact conservation law with the revealed-safe count (so it drops by exactly
one for each newly revealed safe tile and never underflows). -/
theorem C9_reveal_monotonic (w h m : Nat) (g g' : Game) (hr : Reachable w h m g)
    (mv : Move) (hok : mv.candsOK w h) (happ : g.applyMove mv = some g') :
    (∀ x y : Nat, ∀ t t' : Tile, g.getTile? x y = some t → g'.getTile? x y = some t' →
      t.is_revealed = true → t'.is_revealed = true) ∧
    g'.unmined_tiles ≤ g.unmined_tiles ∧
    g'.unmined_tiles + g'.revCount = g.unmined_tiles + g.revCount := by
  obtain ⟨hW, hH, hM, hwf, hc, hwin, hns⟩ := reachable_inv w h m g hr
  obtain ⟨hW', hH', hM', hwf', hc', hwin', hns'⟩ :=
    reachable_inv w h m g' (Reachable.step mv hr hok happ)
  obtain ⟨hmono, hle⟩ := applyMove_rev_mono g g' hwf hns mv happ
  exact ⟨hmono, by omega, by omega⟩

theorem C9_reveal_monotonic_witness :
    exDig6.unmined_tiles ≤ (Game.new 6 1 1 0).unmined_tiles ∧
    exDig6.unmined_tiles + exDig6.revCount =
      (Game.new 6 1 1 0).unmined_tiles + (Game.new 6 1 1 0).revCount := by
  have h := C9_reveal_monotonic 6 1 1 (Game.new 6 1 1 0) exDig6
    (Reachable.init 0 (by decide) (by decide)) (Move.dig (0, 0) [(4, 0)] 0)
    (by intro c hc; rw [List.mem_singleton] at hc; subst hc; exact ⟨by decide, by decide⟩)
    exDig6_dig
  exact ⟨h.2.1, h.2.2⟩

/-! ### The cascade closure: zero regions and their borders -/

/-- 8-adjacency of board coordinates. -/
def Adj (q r : Nat × Nat) : Prop :=
  q ≠ r ∧ ((q.1 : Int) - r.1).natAbs ≤ 1 ∧ ((q.2 : Int) - r.2).natAbs ≤ 1

instance (q r : Nat × Nat) : Decidable (Adj q r) := by
  unfold Adj; infer_instance

/-- There is a safe (non-mine) tile at the given coordinates. -/
def Game.safeAt (g : Game) (x y : Nat) : Bool :=
  match g.getTile? x y with
  | some t => !t.is_mine
  | none => false

/-- There is a safe tile with `adjacent_mines = 0` at the given coordinates. -/
def Game.zeroAt (g : Game) (x y : Nat) : Bool :=
  match g.getTile? x y with
  | some t => !t.is_mine && t.adjacent_mines == 0
  | none => false

/-- The stored adjacency field at the given coordinates (0 off the board). -/
def Game.adjAt (g : Game) (x y : Nat) : Nat :=
  match g.getTile? x y with
  | some t => t.adjacent_mines
  | none => 0

/-- Revealed-zero-closed: every revealed zero tile already has its in-bounds
neighbours revealed.  This holds in every state the game engine produces and
is exactly what the cascade needs to skip already-revealed zero tiles. -/
def RZC (g : Game) : Prop :=
  ∀ x : Nat, x < g.width → ∀ y : Nat, y < g.height →
    g.zeroAt x y = true → g.revealedAt x y = true →
    ∀ o ∈ neighborOffsets ((x : Int), (y : Int)),
      0 ≤ o.1 → 0 ≤ o.2 → o.1 < (g.width : Int) → o.2 < (g.height : Int) →
      g.revealedAt o.1.toNat o.2.toNat = true

/-- Stored adjacency counts agree with the true neighbourhood mine counts on
safe tiles (established by `generate_mines`, preserved by every later
operation since mines and adjacency fields are immutable afterwards). -/
def AC (g : Game) : Prop :=
  ∀ x : Nat, x < g.width → ∀ y : Nat, y < g.height →
    g.mineAt x y = false → g.adjAt x y = g.neighborMineCount x y

/-- The 8-connected zero-adjacency region of a start tile. -/
inductive ZeroRegion (g : Game) (s : Nat × Nat) : Nat × Nat → Prop where
  | base : ZeroRegion g s s
  | step (q r : Nat × Nat) : ZeroRegion g s q → g.zeroAt q.1 q.2 = true →
      Adj q r → g.zeroAt r.1 r.2 = true → ZeroRegion g s r

theorem Adj_mem (q r : Nat × Nat) (h : Adj q r) :
    ((r.1 : Int), (r.2 : Int)) ∈ neighborOffsets ((q.1 : Int), (q.2 : Int)) := by
  obtain ⟨hne, h1, h2⟩ := h
  have hne' : q.1 ≠ r.1 ∨ q.2 ≠ r.2 := by
    by_contra hc
    push_neg at hc
    exact hne (Prod.ext_iff.2 ⟨hc.1, hc.2⟩)
  have hx : (r.1 : Int) = q.1 - 1 ∨ (r.1 : Int) = q.1 ∨ (r.1 : Int) = q.1 + 1 := by omega
  have hy : (r.2 : Int) = q.2 - 1 ∨ (r.2 : Int) = q.2 ∨ (r.2 : Int) = q.2 + 1 := by omega
  simp only [neighborOffsets, List.mem_cons, List.mem_singleton, Prod.mk.injEq]
  rcases hx with hx | hx | hx <;> rcases hy with hy | hy | hy <;> omega

theorem not_oob_bounds (g : Game) (p : Int × Int) (h : ¬ g.is_out_of_bounds p = true) :
    0 ≤ p.1 ∧ p.1 < (g.width : Int) ∧ 0 ≤ p.2 ∧ p.2 < (g.height : Int) := by
  unfold Game.is_out_of_bounds at h
  by_cases h1 : (decide (p.1 < 0) || decide (p.1 > (g.width : Int) - 1)) = true
  · rw [if_pos h1] at h
    exact absurd rfl h
  · rw [if_neg h1] at h
    by_cases h2 : (decide (p.2 < 0) || decide (p.2 > (g.height : Int) - 1)) = true
    · rw [if_pos h2] at h
      exact absurd rfl h
    · simp only [Bool.or_eq_true, decide_eq_true_eq, not_or] at h1 h2
      omega

theorem oob_false (g : Game) (p : Int × Int) (h1 : 0 ≤ p.1) (h2 : p.1 < (g.width : Int))
    (h3 : 0 ≤ p.2) (h4 : p.2 < (g.height : Int)) : g.is_out_of_bounds p = false := by
  unfold Game.is_out_of_bounds
  have hA : (decide (p.1 < 0) || decide (p.1 > (g.width : Int) - 1)) = false := by
    simp only [Bool.or_eq_false_iff, decide_eq_false_iff_not]
    omega
  have hB : (decide (p.2 < 0) || decide (p.2 > (g.height : Int) - 1)) = false := by
    simp only [Bool.or_eq_false_iff, decide_eq_false_iff_not]
    omega
  rw [hA, hB]
  rfl

theorem Game.safeAt_inB (g : Game) (hwf : g.WF) (x y : Nat) (h : g.safeAt x y = true) :
    x < g.width ∧ y < g.height := by
  unfold Game.safeAt at h
  rcases hg : g.getTile? x y with _ | t
  · rw [hg] at h
    cases h
  · exact (g.getTile?_isSome hwf x y).1 (by rw [hg]; rfl)

theorem Game.zeroAt_safeAt (g : Game) (x y : Nat) (h : g.zeroAt x y = true) :
    g.safeAt x y = true := by
  unfold Game.zeroAt at h
  unfold Game.safeAt
  rcases hg : g.getTile? x y with _ | t
  · rw [hg] at h
    cases h
  · rw [hg] at h
    simp only [Bool.and_eq_true] at h
    exact h.1

theorem Game.safeAt_of_inB_not_mine (g : Game) (hwf : g.WF) (x y : Nat)
    (hx : x < g.width) (hy : y < g.height) (hm : g.mineAt x y = false) :
    g.safeAt x y = true := by
  obtain ⟨t, ht⟩ := g.getTile?_some_of_inB hwf hx hy
  simp only [Game.mineAt, ht] at hm
  unfold Game.safeAt
  rw [ht]
  show (!t.is_mine) = true
  rw [hm]
  rfl

theorem Evolves.safeAt_eq {g g' : Game} (he : Evolves g g') (x y : Nat) :
    g'.safeAt x y = g.safeAt x y := by
  unfold Game.safeAt
  rcases hg : g.getTile? x y with _ | t
  · rw [he.2.2.2.2.2.2.2.2 x y hg]
  · obtain ⟨t', ht', hev⟩ := he.2.2.2.2.2.2.2.1 x y t hg
    rw [ht']
    show (!t'.is_mine) = (!t.is_mine)
    rw [hev.1]

theorem Evolves.zeroAt_eq {g g' : Game} (he : Evolves g g') (x y : Nat) :
    g'.zeroAt x y = g.zeroAt x y := by
  unfold Game.zeroAt
  rcases hg : g.getTile? x y with _ | t
  · rw [he.2.2.2.2.2.2.2.2 x y hg]
  · obtain ⟨t', ht', hev⟩ := he.2.2.2.2.2.2.2.1 x y t hg
    rw [ht']
    show (!t'.is_mine && t'.adjacent_mines == 0) = (!t.is_mine && t.adjacent_mines == 0)
    rw [hev.1, hev.2.1]

theorem Evolves.oob_eq {g g' : Game} (he : Evolves g g') (p : Int × Int) :
    g'.is_out_of_bounds p = g.is_out_of_bounds p := by
  unfold Game.is_out_of_bounds
  rw [he.1, he.2.1]

theorem revealTile_revealedAt_self (g : Game) (x y : Nat) (tile : Tile)
    (hget : g.getTile? x y = some tile) :
    (revealTile g x y tile).revealedAt x y = true := by
  have h := g.getTile?_setTile_self
    { tile with is_revealed := true, is_flagged := false } hget
  have h2 : (revealTile g x y tile).getTile? x y =
      some { tile with is_revealed := true, is_flagged := false } := h
  unfold Game.revealedAt
  rw [h2]

theorem revealTile_revealedAt_ne (g : Game) (x y : Nat) (tile : Tile) {x' y' : Nat}
    (h : x ≠ x' ∨ y ≠ y') :
    (revealTile g x y tile).revealedAt x' y' = g.revealedAt x' y' := by
  have h2 : (revealTile g x y tile).getTile? x' y' = g.getTile? x' y' :=
    g.getTile?_setTile_ne { tile with is_revealed := true, is_flagged := false } h
  unfold Game.revealedAt
  rw [h2]

theorem List.sum_map_length_const {α : Type} (w : Nat) :
    ∀ L : List (List α), (∀ row ∈ L, row.length = w) →
      (L.map List.length).sum = L.length * w
  | [], _ => by simp
  | r :: L, h => by
    simp only [List.map_cons, List.sum_cons, List.length_cons]
    rw [List.sum_map_length_const w L (fun row hr => h row (List.mem_cons_of_mem _ hr)),
      h r (List.mem_cons_self r L)]
    ring

theorem Game.usc_le_total (g : Game) (hwf : g.WF) : g.usc ≤ g.width * g.height := by
  have h1 := List.sum_countP_le (fun t => !t.is_revealed && !t.is_mine) g.tiles
  have h2 := List.sum_map_length_const g.width g.tiles hwf.2
  rw [hwf.1] at h2
  unfold Game.usc Game.countGrid
  calc (g.tiles.map fun r => r.countP fun t => !t.is_revealed && !t.is_mine).sum
      ≤ (g.tiles.map List.length).sum := h1
    _ = g.height * g.width := h2
    _ = g.width * g.height := Nat.mul_comm _ _

theorem foldl_madv_evolves (fuel : Nat) (l : List (Int × Int)) (g0 : Game) :
    Evolves g0 (l.foldl (madv fuel) g0) :=
  foldl_rel (madv fuel) Evolves.ev_refl (fun _ _ _ => Evolves.ev_trans)
    (fun g p => madv_evolves fuel g p) l g0

/-- A fold of cascade calls reveals every in-bounds safe target it visits. -/
theorem foldl_madv_visits (fuel : Nat)
    (hIH : ∀ (g0 : Game) (p0 : Int × Int), g0.WF → g0.usc + 1 ≤ fuel →
      g0.is_out_of_bounds p0 = false → g0.safeAt p0.1.toNat p0.2.toNat = true →
      (madv fuel g0 p0).revealedAt p0.1.toNat p0.2.toNat = true) :
    ∀ (l : List (Int × Int)) (g0 : Game), g0.WF → g0.usc + 1 ≤ fuel →
      ∀ o ∈ l, g0.is_out_of_bounds o = false → g0.safeAt o.1.toNat o.2.toNat = true →
        (l.foldl (madv fuel) g0).revealedAt o.1.toNat o.2.toNat = true
  | [], g0, _, _, o, ho, _, _ => absurd ho (List.not_mem_nil o)
  | a :: l, g0, hwf0, hfu0, o, ho, hoob, hsafe => by
    have hev1 := madv_evolves fuel g0 a
    have hwf1 : (madv fuel g0 a).WF := hev1.WF hwf0
    have hfu1 : (madv fuel g0 a).usc + 1 ≤ fuel := by
      have := madv_usc_le fuel g0 a hwf0
      omega
    rcases List.mem_cons.1 ho with ho1 | ho1
    · subst ho1
      have h1 := hIH g0 o hwf0 hfu0 hoob hsafe
      exact (foldl_madv_evolves fuel l (madv fuel g0 o)).revealedAt_mono h1
    · have hoob1 : (madv fuel g0 a).is_out_of_bounds o = false := by
        rw [hev1.oob_eq]
        exact hoob
      have hsafe1 : (madv fuel g0 a).safeAt o.1.toNat o.2.toNat = true := by
        rw [hev1.safeAt_eq]
        exact hsafe
      exact foldl_madv_visits fuel hIH l (madv fuel g0 a) hwf1 hfu1 o ho1 hoob1 hsafe1

/-- A fold of cascade calls that newly reveals a zero tile also reveals all
of that tile's safe neighbours. -/
theorem foldl_madv_new (fuel : Nat)
    (hIH : ∀ (g0 : Game) (p0 : Int × Int), g0.WF → g0.usc + 1 ≤ fuel →
      ∀ q : Nat × Nat, g0.zeroAt q.1 q.2 = true → g0.revealedAt q.1 q.2 = false →
        (madv fuel g0 p0).revealedAt q.1 q.2 = true →
        ∀ r : Nat × Nat, Adj q r → g0.safeAt r.1 r.2 = true →
          (madv fuel g0 p0).revealedAt r.1 r.2 = true) :
    ∀ (l : List (Int × Int)) (g0 : Game), g0.WF → g0.usc + 1 ≤ fuel →
      ∀ q : Nat × Nat, g0.zeroAt q.1 q.2 = true → g0.revealedAt q.1 q.2 = false →
        (l.foldl (madv fuel) g0).revealedAt q.1 q.2 = true →
        ∀ r : Nat × Nat, Adj q r → g0.safeAt r.1 r.2 = true →
          (l.foldl (madv fuel) g0).revealedAt r.1 r.2 = true
  | [], g0, _, _, q, _, hq0, hq1, r, _, _ => by
    have hq1' : g0.revealedAt q.1 q.2 = true := hq1
    rw [hq0] at hq1'
    cases hq1'
  | a :: l, g0, hwf0, hfu0, q, hzq, hq0, hq1, r, hadj, hsr => by
    have hev1 := madv_evolves fuel g0 a
    have hwf1 : (madv fuel g0 a).WF := hev1.WF hwf0
    have hfu1 : (madv fuel g0 a).usc + 1 ≤ fuel := by
      have := madv_usc_le fuel g0 a hwf0
      omega
    by_cases hq2 : (madv fuel g0 a).revealedAt q.1 q.2 = true
    · have hr1 := hIH g0 a hwf0 hfu0 q hzq hq0 hq2 r hadj hsr
      exact (foldl_madv_evolves fuel l (madv fuel g0 a)).revealedAt_mono hr1
    · simp only [Bool.not_eq_true] at hq2
      have hzq1 : (madv fuel g0 a).zeroAt q.1 q.2 = true := by
        rw [hev1.zeroAt_eq]
        exact hzq
      have hsr1 : (madv fuel g0 a).safeAt r.1 r.2 = true := by
        rw [hev1.safeAt_eq]
        exact hsr
      exact foldl_madv_new fuel hIH l (madv fuel g0 a) hwf1 hfu1 q hzq1 hq2 hq1 r hadj hsr1

/-- Main cascade lemma, by fuel induction: with fuel above the number of
unrevealed safe tiles, (1) a visit to an in-bounds safe target leaves it
revealed, and (2) any zero tile newly revealed by the call has all its safe
neighbours revealed as well. -/
theorem madv_main : ∀ (fuel : Nat) (g : Game) (p : Int × Int), g.WF → g.usc + 1 ≤ fuel →
    ((g.is_out_of_bounds p = false → g.safeAt p.1.toNat p.2.toNat = true →
      (madv fuel g p).revealedAt p.1.toNat p.2.toNat = true) ∧
     (∀ q : Nat × Nat, g.zeroAt q.1 q.2 = true → g.revealedAt q.1 q.2 = false →
      (madv fuel g p).revealedAt q.1 q.2 = true →
      ∀ r : Nat × Nat, Adj q r → g.safeAt r.1 r.2 = true →
        (madv fuel g p).revealedAt r.1 r.2 = true))
  | 0, g, p, _, hfu => absurd hfu (by omega)
  | fuel + 1, g, p, hwf, hfu => by
    by_cases hoob : g.is_out_of_bounds p = true
    · rw [madv_oob (fuel + 1) g p hoob]
      constructor
      · intro hob _
        rw [hoob] at hob
        cases hob
      · intro q _ hq0 hq1 r _ _
        rw [hq0] at hq1
        cases hq1
    · rcases hget : g.getTile? p.1.toNat p.2.toNat with _ | tile
      · rw [madv_none fuel g p hoob hget]
        constructor
        · intro _ hsafe
          simp only [Game.safeAt, hget] at hsafe
          cases hsafe
        · intro q _ hq0 hq1 r _ _
          rw [hq0] at hq1
          cases hq1
      · by_cases hrm : (tile.is_revealed || tile.is_mine) = true
        · rw [madv_skip fuel g p tile hoob hget hrm]
          constructor
          · intro _ hsafe
            simp only [Game.safeAt, hget] at hsafe
            unfold Game.revealedAt
            rw [hget]
            show tile.is_revealed = true
            rcases (by simpa using hrm : tile.is_revealed = true ∨ tile.is_mine = true)
              with h | h
            · exact h
            · rw [h] at hsafe
              simp at hsafe
          · intro q _ hq0 hq1 r _ _
            rw [hq0] at hq1
            cases hq1
        · simp only [Bool.or_eq_true, not_or, Bool.not_eq_true] at hrm
          by_cases hadj : tile.adjacent_mines = 0
          · -- recursive branch: reveal and fold over the eight neighbours
            rw [madv_rec fuel g p tile hoob hget hrm.1 hrm.2 hadj]
            have hev1 := revealTile_evolves g p.1.toNat p.2.toNat tile hget hrm.1 hrm.2
            have hwf1 := revealTile_WF g p.1.toNat p.2.toNat tile hwf
            have husc := revealTile_usc g p.1.toNat p.2.toNat tile hget hrm.1 hrm.2
            have hfu1 : (revealTile g p.1.toNat p.2.toNat tile).usc + 1 ≤ fuel := by omega
            have hIH3 : ∀ (g0 : Game) (p0 : Int × Int), g0.WF → g0.usc + 1 ≤ fuel →
                g0.is_out_of_bounds p0 = false → g0.safeAt p0.1.toNat p0.2.toNat = true →
                (madv fuel g0 p0).revealedAt p0.1.toNat p0.2.toNat = true :=
              fun g0 p0 hw hf => (madv_main fuel g0 p0 hw hf).1
            have hIH4 : ∀ (g0 : Game) (p0 : Int × Int), g0.WF → g0.usc + 1 ≤ fuel →
                ∀ q : Nat × Nat, g0.zeroAt q.1 q.2 = true → g0.revealedAt q.1 q.2 = false →
                  (madv fuel g0 p0).revealedAt q.1 q.2 = true →
                  ∀ r : Nat × Nat, Adj q r → g0.safeAt r.1 r.2 = true →
                    (madv fuel g0 p0).revealedAt r.1 r.2 = true :=
              fun g0 p0 hw hf => (madv_main fuel g0 p0 hw hf).2
            constructor
            · intro _ _
              have h1 := revealTile_revealedAt_self g p.1.toNat p.2.toNat tile hget
              exact (foldl_madv_evolves fuel (neighborOffsets p) _).revealedAt_mono h1
            · intro q hzq hq0 hq1 r hadjr hsr
              by_cases hqp : p.1.toNat = q.1 ∧ p.2.toNat = q.2
              · -- q is the dug tile: its neighbours are exactly the fold targets
                obtain ⟨hx, hy⟩ := hqp
                obtain ⟨hb1, hb2, hb3, hb4⟩ := not_oob_bounds g p hoob
                have hpq : ((q.1 : Int), (q.2 : Int)) = p := by
                  rw [← hx, ← hy]
                  refine Prod.ext_iff.2 ⟨?_, ?_⟩
                  · show ((p.1.toNat : Nat) : Int) = p.1
                    omega
                  · show ((p.2.toNat : Nat) : Int) = p.2
                    omega
                have hmem : ((r.1 : Int), (r.2 : Int)) ∈ neighborOffsets p := by
                  rw [← hpq]
                  exact Adj_mem q r hadjr
                obtain ⟨hrx, hry⟩ := g.safeAt_inB hwf r.1 r.2 hsr
                have hoobr : (revealTile g p.1.toNat p.2.toNat tile).is_out_of_bounds
                    ((r.1 : Int), (r.2 : Int)) = false := by
                  rw [hev1.oob_eq]
                  exact oob_false g _ (by omega) (by omega) (by omega) (by omega)
                have hsafer : (revealTile g p.1.toNat p.2.toNat tile).safeAt
                    ((r.1 : Int), (r.2 : Int)).1.toNat ((r.1 : Int), (r.2 : Int)).2.toNat =
                    true := by
                  show (revealTile g p.1.toNat p.2.toNat tile).safeAt
                    (r.1 : Int).toNat (r.2 : Int).toNat = true
                  rw [Int.toNat_natCast, Int.toNat_natCast, hev1.safeAt_eq]
                  exact hsr
                have hvis := foldl_madv_visits fuel hIH3 (neighborOffsets p)
                  (revealTile g p.1.toNat p.2.toNat tile) hwf1 hfu1
                  ((r.1 : Int), (r.2 : Int)) hmem hoobr hsafer
                rw [show ((r.1 : Int), (r.2 : Int)).1.toNat = r.1 from Int.toNat_natCast r.1,
                  show ((r.1 : Int), (r.2 : Int)).2.toNat = r.2 from Int.toNat_natCast r.2]
                  at hvis
                exact hvis
              · -- q elsewhere: it is newly revealed inside the fold
                have hne2 : p.1.toNat ≠ q.1 ∨ p.2.toNat ≠ q.2 := by tauto
                have hq0' : (revealTile g p.1.toNat p.2.toNat tile).revealedAt q.1 q.2 =
                    false := by
                  rw [revealTile_revealedAt_ne g p.1.toNat p.2.toNat tile hne2]
                  exact hq0
                have hzq' : (revealTile g p.1.toNat p.2.toNat tile).zeroAt q.1 q.2 = true := by
                  rw [hev1.zeroAt_eq]
                  exact hzq
                have hsr' : (revealTile g p.1.toNat p.2.toNat tile).safeAt r.1 r.2 = true := by
                  rw [hev1.safeAt_eq]
                  exact hsr
                exact foldl_madv_new fuel hIH4 (neighborOffsets p)
                  (revealTile g p.1.toNat p.2.toNat tile) hwf1 hfu1 q hzq' hq0' hq1 r hadjr hsr'
          · -- leaf branch: a nonzero tile is revealed and the call stops
            rw [madv_leaf fuel g p tile hoob hget hrm.1 hrm.2 hadj]
            constructor
            · intro _ _
              exact revealTile_revealedAt_self g p.1.toNat p.2.toNat tile hget
            · intro q hzq hq0 hq1 r hadjr hsr
              by_cases hqp : p.1.toNat = q.1 ∧ p.2.toNat = q.2
              · obtain ⟨hx, hy⟩ := hqp
                simp only [Game.zeroAt, ← hx, ← hy, hget, Bool.and_eq_true, beq_iff_eq] at hzq
                exact absurd hzq.2 hadj
              · have hne2 : p.1.toNat ≠ q.1 ∨ p.2.toNat ≠ q.2 := by tauto
                rw [revealTile_revealedAt_ne g p.1.toNat p.2.toNat tile hne2, hq0] at hq1
                cases hq1

/-- C1: revealing an in-bounds, unrevealed, safe tile with
`adjacent_mines = 0` reveals its whole 8-connected zero-adjacency region and
every in-bounds tile bordering the region; the cascade never touches a mine
tile (so mines are revealed only by a dig landing on them), and tiles that
were already revealed are left wholly unchanged.  The hypotheses `RZC` and
`AC` hold of every board the engine produces. -/
theorem C1_cascade_closure (g g' : Game) (s : Nat × Nat) (hwf : g.WF)
    (hrzc : RZC g) (hac : AC g) (hzs : g.zeroAt s.1 s.2 = true)
    (hus : g.revealedAt s.1 s.2 = false)
    (hg' : g' = g.make_adjacent_tiles_visible ((s.1 : Int), (s.2 : Int))) :
    (∀ q : Nat × Nat, ZeroRegion g s q → g'.revealedAt q.1 q.2 = true) ∧
    (∀ q r : Nat × Nat, ZeroRegion g s q → Adj q r → r.1 < g.width → r.2 < g.height →
      g'.revealedAt r.1 r.2 = true) ∧
    (∀ x y : Nat, ∀ t : Tile, g.getTile? x y = some t → t.is_mine = true →
      g'.getTile? x y = some t) ∧
    (∀ x y : Nat, ∀ t : Tile, g.getTile? x y = some t → t.is_revealed = true →
      g'.getTile? x y = some t) := by
  subst hg'
  have hfuel : g.usc + 1 ≤ g.width * g.height + 1 := by
    have := g.usc_le_total hwf
    omega
  have hev : Evolves g (g.make_adjacent_tiles_visible ((s.1 : Int), (s.2 : Int))) :=
    madv_evolves (g.width * g.height + 1) g ((s.1 : Int), (s.2 : Int))
  have hmain := madv_main (g.width * g.height + 1) g ((s.1 : Int), (s.2 : Int)) hwf hfuel
  obtain ⟨hsx, hsy⟩ := g.safeAt_inB hwf s.1 s.2 (g.zeroAt_safeAt s.1 s.2 hzs)
  have hoobs : g.is_out_of_bounds ((s.1 : Int), (s.2 : Int)) = false :=
    oob_false g _ (by show (0 : Int) ≤ (s.1 : Int); omega)
      (by show (s.1 : Int) < (g.width : Int); omega)
      (by show (0 : Int) ≤ (s.2 : Int); omega)
      (by show (s.2 : Int) < (g.height : Int); omega)
  have hsafeS : g.safeAt ((s.1 : Int), (s.2 : Int)).1.toNat ((s.1 : Int), (s.2 : Int)).2.toNat
      = true := by
    show g.safeAt (s.1 : Int).toNat (s.2 : Int).toNat = true
    rw [Int.toNat_natCast, Int.toNat_natCast]
    exact g.zeroAt_safeAt s.1 s.2 hzs
  have hrevS0 : (madv (g.width * g.height + 1) g ((s.1 : Int), (s.2 : Int))).revealedAt
      s.1 s.2 = true := by
    have h := hmain.1 hoobs hsafeS
    have h2 : (madv (g.width * g.height + 1) g ((s.1 : Int), (s.2 : Int))).revealedAt
        (s.1 : Int).toNat (s.2 : Int).toNat = true := h
    rw [Int.toNat_natCast, Int.toNat_natCast] at h2
    exact h2
  have hmain4 := hmain.2
  have key : ∀ q : Nat × Nat, ZeroRegion g s q →
      (g.make_adjacent_tiles_visible ((s.1 : Int), (s.2 : Int))).revealedAt q.1 q.2 = true ∧
      (∀ r : Nat × Nat, Adj q r → g.safeAt r.1 r.2 = true →
        (g.make_adjacent_tiles_visible ((s.1 : Int), (s.2 : Int))).revealedAt r.1 r.2 =
          true) := by
    intro q hq
    induction hq with
    | base =>
      constructor
      · exact hrevS0
      · intro r hadj hsr
        exact hmain4 s hzs hus hrevS0 r hadj hsr
    | step q0 r0 hq0 hz0 hadj0 hzr0 ih =>
      have hrev_r0 := ih.2 r0 hadj0 (g.zeroAt_safeAt r0.1 r0.2 hzr0)
      refine ⟨hrev_r0, ?_⟩
      intro r hadj hsr
      by_cases hrv : g.revealedAt r0.1 r0.2 = true
      · obtain ⟨hrx0, hry0⟩ := g.safeAt_inB hwf r0.1 r0.2 (g.zeroAt_safeAt _ _ hzr0)
        obtain ⟨hrx, hry⟩ := g.safeAt_inB hwf r.1 r.2 hsr
        have hmem := Adj_mem r0 r hadj
        have hr_g := hrzc r0.1 hrx0 r0.2 hry0 hzr0 hrv ((r.1 : Int), (r.2 : Int)) hmem
          (by show (0 : Int) ≤ (r.1 : Int); omega)
          (by show (0 : Int) ≤ (r.2 : Int); omega)
          (by show (r.1 : Int) < (g.width : Int); omega)
          (by show (r.2 : Int) < (g.height : Int); omega)
        have hr_g2 : g.revealedAt (r.1 : Int).toNat (r.2 : Int).toNat = true := hr_g
        rw [Int.toNat_natCast, Int.toNat_natCast] at hr_g2
        exact hev.revealedAt_mono hr_g2
      · simp only [Bool.not_eq_true] at hrv
        exact hmain4 r0 hzr0 hrv hrev_r0 r hadj hsr
  refine ⟨fun q hq => (key q hq).1, ?_, ?_, ?_⟩
  · intro q r hq hadj hrx hry
    have hzq : g.zeroAt q.1 q.2 = true := by
      cases hq with
      | base => exact hzs
      | step q0 r0 hq0 hz0 hadj0 hzr0 => exact hzr0
    obtain ⟨hqx, hqy⟩ := g.safeAt_inB hwf q.1 q.2 (g.zeroAt_safeAt _ _ hzq)
    rcases hk : g.getTile? q.1 q.2 with _ | tq
    · simp only [Game.zeroAt, hk] at hzq
      cases hzq
    · simp only [Game.zeroAt, hk, Bool.and_eq_true, Bool.not_eq_true', beq_iff_eq] at hzq
      have hmq : g.mineAt q.1 q.2 = false := by
        simp only [Game.mineAt, hk]
        exact hzq.1
      have hadjq : g.adjAt q.1 q.2 = 0 := by
        simp only [Game.adjAt, hk]
        exact hzq.2
      have hnm : g.neighborMineCount q.1 q.2 = 0 := by
        rw [← hac q.1 hqx q.2 hqy hmq]
        exact hadjq
      unfold Game.neighborMineCount at hnm
      have h0 := List.countP_eq_zero.1 hnm
      have hmem := Adj_mem q r hadj
      have hmi : ¬ g.mineAtI (r.1 : Int) (r.2 : Int) = true :=
        h0 ((r.1 : Int), (r.2 : Int)) hmem
      simp only [Bool.not_eq_true] at hmi
      rw [g.mineAtI_cast r.1 r.2] at hmi
      exact (key q hq).2 r hadj (g.safeAt_of_inB_not_mine hwf r.1 r.2 hrx hry hmi)
  · intro x y t ht hm
    obtain ⟨t', ht', hevt⟩ := hev.2.2.2.2.2.2.2.1 x y t ht
    rw [hevt.2.2.2.1 hm] at ht'
    exact ht'
  · intro x y t ht hr
    obtain ⟨t', ht', hevt⟩ := hev.2.2.2.2.2.2.2.1 x y t ht
    rw [hevt.2.2.1 hr] at ht'
    exact ht'

set_option synthInstance.maxSize 2048 in
instance (g : Game) : Decidable (RZC g) := by
  unfold RZC; infer_instance

set_option synthInstance.maxSize 2048 in
instance (g : Game) : Decidable (AC g) := by
  unfold AC; infer_instance

/-- A 4-by-1 board with its single mine at (3,0): tiles (0,0) and (1,0) form
the zero region of (0,0), (2,0) is its border, (3,0) is the mine. -/
def g41 : Game := ((Game.new 4 1 1 0).setMine (3, 0)).computeAdjacency

theorem C1_cascade_closure_witness :
    (g41.make_adjacent_tiles_visible ((0 : Int), (0 : Int))).revealedAt 1 0 = true ∧
    (g41.make_adjacent_tiles_visible ((0 : Int), (0 : Int))).revealedAt 2 0 = true := by
  have hreg1 : ZeroRegion g41 (0, 0) (1, 0) :=
    ZeroRegion.step (0, 0) (1, 0) ZeroRegion.base (by decide) (by decide) (by decide)
  have h := C1_cascade_closure g41
    (g41.make_adjacent_tiles_visible ((0 : Int), (0 : Int))) (0, 0)
    (by decide) (by decide) (by decide) (by decide) (by decide) rfl
  exact ⟨h.1 (1, 0) hreg1, h.2.1 (1, 0) (2, 0) hreg1 (by decide) (by decide) (by decide)⟩

/-! ### The cascade preconditions hold in every reachable state -/

theorem Adj_of_mem (q : Nat × Nat) (o : Int × Int)
    (hmem : o ∈ neighborOffsets ((q.1 : Int), (q.2 : Int)))
    (h1 : 0 ≤ o.1) (h2 : 0 ≤ o.2) : Adj q (o.1.toNat, o.2.toNat) := by
  simp only [neighborOffsets, List.mem_cons, List.mem_singleton, List.mem_nil_iff,
    or_false] at hmem
  rcases hmem with h | h | h | h | h | h | h | h <;>
    (subst h
     dsimp only at h1 h2 ⊢
     unfold Adj
     dsimp only
     refine ⟨fun heq => ?_, by omega, by omega⟩
     obtain ⟨e1, e2⟩ := Prod.ext_iff.1 heq
     dsimp only at e1 e2
     omega)

/-- Two games agreeing on dimensions and on the mine and adjacency view of
every tile. -/
def SameMA (g g' : Game) : Prop :=
  g'.width = g.width ∧ g'.height = g.height ∧
  (∀ x y : Nat, g'.mineAt x y = g.mineAt x y) ∧
  (∀ x y : Nat, g'.adjAt x y = g.adjAt x y)

/-- Two games additionally agreeing on the revealed and zero view. -/
def SameView (g g' : Game) : Prop :=
  SameMA g g' ∧
  (∀ x y : Nat, g'.revealedAt x y = g.revealedAt x y) ∧
  (∀ x y : Nat, g'.zeroAt x y = g.zeroAt x y)

theorem SameMA.mineAtI_eq {g g' : Game} (h : SameMA g g') (x y : Int) :
    g'.mineAtI x y = g.mineAtI x y := by
  unfold Game.mineAtI
  by_cases hneg : (decide (x < 0) || decide (y < 0)) = true
  · rw [if_pos hneg, if_pos hneg]
  · rw [if_neg hneg, if_neg hneg]
    show g'.mineAt x.toNat y.toNat = g.mineAt x.toNat y.toNat
    exact h.2.2.1 x.toNat y.toNat

theorem SameMA.nmc_eq {g g' : Game} (h : SameMA g g') (x y : Nat) :
    g'.neighborMineCount x y = g.neighborMineCount x y :=
  Game.neighborMineCount_congr g g' (fun a b => h.mineAtI_eq a b) x y

theorem SameMA.AC_transfer {g g' : Game} (hma : SameMA g g') (hac : AC g) : AC g' := by
  intro x hx y hy hm
  rw [hma.1] at hx
  rw [hma.2.1] at hy
  rw [hma.2.2.1 x y] at hm
  rw [hma.2.2.2 x y, hma.nmc_eq x y]
  exact hac x hx y hy hm

theorem SameView.RZC_transfer {g g' : Game} (hv : SameView g g') (hrzc : RZC g) : RZC g' := by
  intro x hx y hy hz hr o hmem h1 h2 h3 h4
  rw [hv.1.1] at hx h3
  rw [hv.1.2.1] at hy h4
  rw [hv.2.2 x y] at hz
  rw [hv.2.1 x y] at hr
  rw [hv.2.1 o.1.toNat o.2.toNat]
  exact hrzc x hx y hy hz hr o hmem h1 h2 h3 h4

/-- The obvious `SameView` when both games have definitionally equal tiles
and dimensions (timestamp, counter, and state updates). -/
theorem SameView.ofParts {g g' : Game}
    (h1 : g'.width = g.width) (h2 : g'.height = g.height)
    (h3 : ∀ x y : Nat, g'.getTile? x y = g.getTile? x y) : SameView g g' := by
  have hm : ∀ x y : Nat, g'.mineAt x y = g.mineAt x y := by
    intro x y
    unfold Game.mineAt
    rw [h3]
  have ha : ∀ x y : Nat, g'.adjAt x y = g.adjAt x y := by
    intro x y
    unfold Game.adjAt
    rw [h3]
  have hr : ∀ x y : Nat, g'.revealedAt x y = g.revealedAt x y := by
    intro x y
    unfold Game.revealedAt
    rw [h3]
  have hz : ∀ x y : Nat, g'.zeroAt x y = g.zeroAt x y := by
    intro x y
    unfold Game.zeroAt
    rw [h3]
  exact ⟨⟨h1, h2, hm, ha⟩, hr, hz⟩

theorem Evolves.sameMA {g g' : Game} (he : Evolves g g') : SameMA g g' := by
  refine ⟨he.1, he.2.1, ?_, ?_⟩
  · intro x y
    unfold Game.mineAt
    rcases hg : g.getTile? x y with _ | t
    · rw [he.2.2.2.2.2.2.2.2 x y hg]
    · obtain ⟨t', ht', hev⟩ := he.2.2.2.2.2.2.2.1 x y t hg
      rw [ht']
      show t'.is_mine = t.is_mine
      exact hev.1
  · intro x y
    unfold Game.adjAt
    rcases hg : g.getTile? x y with _ | t
    · rw [he.2.2.2.2.2.2.2.2 x y hg]
    · obtain ⟨t', ht', hev⟩ := he.2.2.2.2.2.2.2.1 x y t hg
      rw [ht']
      show t'.adjacent_mines = t.adjacent_mines
      exact hev.2.1

theorem RZC_new (w h m now : Nat) : RZC (Game.new w h m now) := by
  intro x _ y _ _ hv
  rw [Game.revealedAt_new] at hv
  cases hv

theorem AC_new (w h m now : Nat) : AC (Game.new w h m now) := by
  intro x _ y _ _
  have hadj : (Game.new w h m now).adjAt x y = 0 := by
    rcases Game.getTile?_new w h m now x y with hnone | hsome
    · simp [Game.adjAt, hnone]
    · simp [Game.adjAt, hsome, Tile.new]
  have hnmc : (Game.new w h m now).neighborMineCount x y = 0 := by
    unfold Game.neighborMineCount
    rw [List.countP_eq_zero]
    intro o _
    unfold Game.mineAtI
    by_cases hneg : (decide (o.1 < 0) || decide (o.2 < 0)) = true
    · rw [if_pos hneg]
      simp
    · rw [if_neg hneg]
      rcases Game.getTile?_new w h m now o.1.toNat o.2.toNat with hnone | hsome
      · rw [hnone]
        simp
      · rw [hsome]
        simp [Tile.new]
  rw [hadj, hnmc]

/-- On an adjacency-consistent board, no neighbour of a zero tile is a mine. -/
theorem zero_neighbor_safe (g : Game) (hwf : g.WF) (hac : AC g) (q r : Nat × Nat)
    (hq : g.zeroAt q.1 q.2 = true) (hadj : Adj q r)
    (hrx : r.1 < g.width) (hry : r.2 < g.height) : g.safeAt r.1 r.2 = true := by
  obtain ⟨hqx, hqy⟩ := g.safeAt_inB hwf q.1 q.2 (g.zeroAt_safeAt _ _ hq)
  rcases hk : g.getTile? q.1 q.2 with _ | tq
  · simp only [Game.zeroAt, hk] at hq
    cases hq
  · simp only [Game.zeroAt, hk, Bool.and_eq_true, Bool.not_eq_true', beq_iff_eq] at hq
    have hmq : g.mineAt q.1 q.2 = false := by
      simp only [Game.mineAt, hk]
      exact hq.1
    have hadjq : g.adjAt q.1 q.2 = 0 := by
      simp only [Game.adjAt, hk]
      exact hq.2
    have hnm : g.neighborMineCount q.1 q.2 = 0 := by
      rw [← hac q.1 hqx q.2 hqy hmq]
      exact hadjq
    unfold Game.neighborMineCount at hnm
    have h0 := List.countP_eq_zero.1 hnm
    have hmi : ¬ g.mineAtI (r.1 : Int) (r.2 : Int) = true :=
      h0 ((r.1 : Int), (r.2 : Int)) (Adj_mem q r hadj)
    simp only [Bool.not_eq_true] at hmi
    rw [g.mineAtI_cast r.1 r.2] at hmi
    exact g.safeAt_of_inB_not_mine hwf r.1 r.2 hrx hry hmi

/-- On a well-formed, adjacency-consistent, revealed-zero-closed board the
cascade preserves revealed-zero-closedness. -/
theorem madv_RZC (fuel : Nat) (g : Game) (p : Int × Int) (hwf : g.WF)
    (hfu : g.usc + 1 ≤ fuel) (hrzc : RZC g) (hac : AC g) :
    RZC (madv fuel g p) := by
  intro x hx y hy hz hv o hmem h1 h2 h3 h4
  have hev := madv_evolves fuel g p
  rw [hev.1] at hx h3
  rw [hev.2.1] at hy h4
  rw [hev.zeroAt_eq] at hz
  by_cases hv0 : g.revealedAt x y = true
  · exact hev.revealedAt_mono (hrzc x hx y hy hz hv0 o hmem h1 h2 h3 h4)
  · simp only [Bool.not_eq_true] at hv0
    have hadj := Adj_of_mem (x, y) o hmem h1 h2
    have hsafe := zero_neighbor_safe g hwf hac (x, y) (o.1.toNat, o.2.toNat) hz hadj
      (by omega) (by omega)
    exact (madv_main fuel g p hwf hfu).2 (x, y) hz hv0 hv (o.1.toNat, o.2.toNat) hadj hsafe

/-- Replacing a tile by one with the same mine flag and adjacency count
preserves the mine and adjacency view, and the zero view. -/
theorem setTile_MA (g : Game) (p : Nat × Nat) (tile t1 : Tile)
    (hget : g.getTile? p.1 p.2 = some tile)
    (hm : t1.is_mine = tile.is_mine) (ha : t1.adjacent_mines = tile.adjacent_mines) :
    (∀ x y : Nat, (g.setTile p.1 p.2 t1).mineAt x y = g.mineAt x y) ∧
    (∀ x y : Nat, (g.setTile p.1 p.2 t1).adjAt x y = g.adjAt x y) ∧
    (∀ x y : Nat, (g.setTile p.1 p.2 t1).zeroAt x y = g.zeroAt x y) := by
  refine ⟨?_, ?_, ?_⟩ <;> intro x y <;> by_cases hxy : p.1 = x ∧ p.2 = y
  · obtain ⟨hpx, hpy⟩ := hxy
    subst hpx
    subst hpy
    unfold Game.mineAt
    rw [g.getTile?_setTile_self t1 hget, hget]
    show t1.is_mine = tile.is_mine
    exact hm
  · unfold Game.mineAt
    rw [g.getTile?_setTile_ne t1 (by tauto)]
  · obtain ⟨hpx, hpy⟩ := hxy
    subst hpx
    subst hpy
    unfold Game.adjAt
    rw [g.getTile?_setTile_self t1 hget, hget]
    show t1.adjacent_mines = tile.adjacent_mines
    exact ha
  · unfold Game.adjAt
    rw [g.getTile?_setTile_ne t1 (by tauto)]
  · obtain ⟨hpx, hpy⟩ := hxy
    subst hpx
    subst hpy
    unfold Game.zeroAt
    rw [g.getTile?_setTile_self t1 hget, hget]
    show (!t1.is_mine && t1.adjacent_mines == 0) = (!tile.is_mine && tile.adjacent_mines == 0)
    rw [hm, ha]
  · unfold Game.zeroAt
    rw [g.getTile?_setTile_ne t1 (by tauto)]

/-- Replacing a tile by one with the same revealed flag preserves the
revealed view. -/
theorem setTile_rev_eq (g : Game) (p : Nat × Nat) (tile t1 : Tile)
    (hget : g.getTile? p.1 p.2 = some tile) (hr : t1.is_revealed = tile.is_revealed) :
    ∀ x y : Nat, (g.setTile p.1 p.2 t1).revealedAt x y = g.revealedAt x y := by
  intro x y
  by_cases hxy : p.1 = x ∧ p.2 = y
  · obtain ⟨hpx, hpy⟩ := hxy
    subst hpx
    subst hpy
    unfold Game.revealedAt
    rw [g.getTile?_setTile_self t1 hget, hget]
    show t1.is_revealed = tile.is_revealed
    exact hr
  · unfold Game.revealedAt
    rw [g.getTile?_setTile_ne t1 (by tauto)]

/-- Revealing one tile only grows the revealed view. -/
theorem setTile_rev_mono (g : Game) (p : Nat × Nat) (tile t1 : Tile)
    (hget : g.getTile? p.1 p.2 = some tile) (hr : t1.is_revealed = true) :
    ∀ x y : Nat, g.revealedAt x y = true →
      (g.setTile p.1 p.2 t1).revealedAt x y = true := by
  intro x y hxy
  by_cases hc : p.1 = x ∧ p.2 = y
  · obtain ⟨hpx, hpy⟩ := hc
    subst hpx
    subst hpy
    unfold Game.revealedAt
    rw [g.getTile?_setTile_self t1 hget]
    exact hr
  · unfold Game.revealedAt at hxy ⊢
    rw [g.getTile?_setTile_ne t1 (by tauto)]
    exact hxy

theorem SameView.sv_trans {a b c : Game} (h1 : SameView a b) (h2 : SameView b c) :
    SameView a c := by
  obtain ⟨⟨w1, h1', m1, a1⟩, r1, z1⟩ := h1
  obtain ⟨⟨w2, h2', m2, a2⟩, r2, z2⟩ := h2
  exact ⟨⟨w2.trans w1, h2'.trans h1', fun x y => (m2 x y).trans (m1 x y),
    fun x y => (a2 x y).trans (a1 x y)⟩, fun x y => (r2 x y).trans (r1 x y),
    fun x y => (z2 x y).trans (z1 x y)⟩

/-- The win check does not change the board view. -/
theorem winCheck_view (g0 : Game) :
    SameView g0 (if g0.unmined_tiles = g0.number_of_mines then
      { g0 with state := GameState.Won } else g0) := by
  refine SameView.ofParts ?_ ?_ ?_
  · split <;> rfl
  · split <;> rfl
  · intro x y
    split <;> rfl

theorem flag_RZC_AC (g g' : Game) (hwf : g.WF) (hrzc : RZC g) (hac : AC g)
    (p : Nat × Nat) (now : Nat) (happ : g.flag p now = some g') : RZC g' ∧ AC g' := by
  by_cases hst : g.state = GameState.Playing
  · have hne : ¬ g.state ≠ GameState.Playing := by simp [hst]
    unfold Game.flag at happ
    rw [if_neg hne] at happ
    simp only [Game.getTile?_stamp_last] at happ
    rcases hget : g.getTile? p.1 p.2 with _ | tile
    · simp only [hget] at happ
      cases happ
    · simp only [hget] at happ
      split at happ
      · injection happ with happ
        subst happ
        have hMA := setTile_MA g p tile { tile with is_flagged := true } hget rfl rfl
        have hrev := setTile_rev_eq g p tile { tile with is_flagged := true } hget rfl
        have hview : SameView g
            ({ ({ g with last_move_time := now } : Game).setTile p.1 p.2
              { tile with is_flagged := true } with
              placed_flag_count := g.placed_flag_count + 1 } : Game) :=
          ⟨⟨rfl, rfl, fun x y => hMA.1 x y, fun x y => hMA.2.1 x y⟩,
            fun x y => hrev x y, fun x y => hMA.2.2 x y⟩
        exact ⟨hview.RZC_transfer hrzc, hview.1.AC_transfer hac⟩
      · injection happ with happ
        subst happ
        have hview : SameView g ({ g with last_move_time := now } : Game) :=
          SameView.ofParts rfl rfl (fun x y => rfl)
        exact ⟨hview.RZC_transfer hrzc, hview.1.AC_transfer hac⟩
  · have hno : g.flag p now = some g := by simp [Game.flag, hst]
    rw [hno] at happ
    injection happ with happ
    subst happ
    exact ⟨hrzc, hac⟩

theorem unflag_RZC_AC (g g' : Game) (hwf : g.WF) (hrzc : RZC g) (hac : AC g)
    (p : Nat × Nat) (now : Nat) (happ : g.unflag p now = some g') : RZC g' ∧ AC g' := by
  by_cases hst : g.state = GameState.Playing
  · have hne : ¬ g.state ≠ GameState.Playing := by simp [hst]
    unfold Game.unflag at happ
    rw [if_neg hne] at happ
    simp only [Game.getTile?_stamp_last] at happ
    rcases hget : g.getTile? p.1 p.2 with _ | tile
    · simp only [hget] at happ
      cases happ
    · simp only [hget] at happ
      split at happ
      · injection happ with happ
        subst happ
        have hMA := setTile_MA g p tile { tile with is_flagged := false } hget rfl rfl
        have hrev := setTile_rev_eq g p tile { tile with is_flagged := false } hget rfl
        have hview : SameView g
            ({ ({ g with last_move_time := now } : Game).setTile p.1 p.2
              { tile with is_flagged := false } with
              placed_flag_count := g.placed_flag_count - 1 } : Game) :=
          ⟨⟨rfl, rfl, fun x y => hMA.1 x y, fun x y => hMA.2.1 x y⟩,
            fun x y => hrev x y, fun x y => hMA.2.2 x y⟩
        exact ⟨hview.RZC_transfer hrzc, hview.1.AC_transfer hac⟩
      · injection happ with happ
        subst happ
        have hview : SameView g ({ g with last_move_time := now } : Game) :=
          SameView.ofParts rfl rfl (fun x y => rfl)
        exact ⟨hview.RZC_transfer hrzc, hview.1.AC_transfer hac⟩
  · have hno : g.unflag p now = some g := by simp [Game.unflag, hst]
    rw [hno] at happ
    injection happ with happ
    subst happ
    exact ⟨hrzc, hac⟩

theorem dig_RZC_AC (w h m : Nat) (g g' : Game) (inv : GameInv w h m g)
    (hrzc : RZC g) (hac : AC g) (p : Nat × Nat) (cs : List (Nat × Nat)) (now : Nat)
    (happ : g.dig p cs now = some g') : RZC g' ∧ AC g' := by
  obtain ⟨hW, hH, hM, hwf, hc, hwin, hns⟩ := inv
  rcases hst : g.state with _ | _ | _ | _
  · have hd : g.dig p cs now = some g := by unfold Game.dig; rw [hst]
    rw [hd] at happ
    injection happ with happ
    subst happ
    exact ⟨hrzc, hac⟩
  · -- Playing
    have hd : g.dig p cs now = g.single_dig p now := by unfold Game.dig; rw [hst]
    rw [hd] at happ
    unfold Game.single_dig at happ
    simp only [Game.getTile?_stamp_last] at happ
    rcases hget : g.getTile? p.1 p.2 with _ | tile
    · simp only [hget] at happ
      cases happ
    · simp only [hget] at happ
      by_cases hfl : tile.is_flagged = true
      · rw [if_pos hfl] at happ
        injection happ with happ
        subst happ
        have hview : SameView g ({ g with last_move_time := now } : Game) :=
          SameView.ofParts rfl rfl (fun x y => rfl)
        exact ⟨hview.RZC_transfer hrzc, hview.1.AC_transfer hac⟩
      · rw [if_neg hfl] at happ
        by_cases hmine : tile.is_mine = true
        · rw [if_pos hmine] at happ
          injection happ with happ
          subst happ
          have hMA := setTile_MA g p tile { tile with is_revealed := true } hget rfl rfl
          have hsma : SameMA g ({ ({ g with last_move_time := now } : Game).setTile p.1 p.2
              { tile with is_revealed := true } with state := GameState.Lost } : Game) :=
            ⟨rfl, rfl, fun x y => hMA.1 x y, fun x y => hMA.2.1 x y⟩
          refine ⟨?_, hsma.AC_transfer hac⟩
          intro x hx y hy hz hv o hmem h1 h2 h3 h4
          have hz' : g.zeroAt x y = true := by
            rw [← hMA.2.2 x y]
            exact hz
          by_cases hxy : p.1 = x ∧ p.2 = y
          · obtain ⟨hpx, hpy⟩ := hxy
            subst hpx
            subst hpy
            simp only [Game.zeroAt, hget, Bool.and_eq_true, Bool.not_eq_true',
              beq_iff_eq] at hz'
            obtain ⟨hzm, _⟩ := hz'
            rw [hmine] at hzm
            cases hzm
          · have hv' : g.revealedAt x y = true := by
              have heq : (g.setTile p.1 p.2 { tile with is_revealed := true }).revealedAt
                  x y = g.revealedAt x y := by
                unfold Game.revealedAt
                rw [g.getTile?_setTile_ne { tile with is_revealed := true } (by tauto)]
              rw [← heq]
              exact hv
            have hrev_g := hrzc x hx y hy hz' hv' o hmem h1 h2 h3 h4
            exact setTile_rev_mono g p tile { tile with is_revealed := true } hget rfl
              o.1.toNat o.2.toNat hrev_g
        · rw [if_neg hmine] at happ
          injection happ with happ
          subst happ
          have hview : SameView g ({ g with last_move_time := now } : Game) :=
            SameView.ofParts rfl rfl (fun x y => rfl)
          have hrzc_t := hview.RZC_transfer hrzc
          have hac_t := hview.1.AC_transfer hac
          have hfu : ({ g with last_move_time := now } : Game).usc + 1 ≤
              ({ g with last_move_time := now } : Game).width *
              ({ g with last_move_time := now } : Game).height + 1 := by
            have := Game.usc_le_total ({ g with last_move_time := now } : Game) hwf
            omega
          have hrzc1 := madv_RZC
            (({ g with last_move_time := now } : Game).width *
              ({ g with last_move_time := now } : Game).height + 1)
            ({ g with last_move_time := now } : Game) ((p.1 : Int), (p.2 : Int))
            hwf hfu hrzc_t hac_t
          have hac1 := (madv_evolves
            (({ g with last_move_time := now } : Game).width *
              ({ g with last_move_time := now } : Game).height + 1)
            ({ g with last_move_time := now } : Game)
            ((p.1 : Int), (p.2 : Int))).sameMA.AC_transfer hac_t
          have hvw := winCheck_view
            (({ g with last_move_time := now } : Game).make_adjacent_tiles_visible
              ((p.1 : Int), (p.2 : Int)))
          exact ⟨hvw.RZC_transfer hrzc1, hvw.1.AC_transfer hac1⟩
  · have hd : g.dig p cs now = some g := by unfold Game.dig; rw [hst]
    rw [hd] at happ
    injection happ with happ
    subst happ
    exact ⟨hrzc, hac⟩
  · -- NotStarted
    have hd : g.dig p cs now = g.start_dig p cs now := by unfold Game.dig; rw [hst]
    rw [hd] at happ
    simp only [Game.start_dig] at happ
    rcases hgen : ({ g with time_started := now, last_move_time := now } : Game).generate_mines
      p cs with _ | gm
    · rw [hgen] at happ
      cases happ
    · rw [hgen] at happ
      simp only [Option.map_some'] at happ
      injection happ with happ
      subst happ
      obtain ⟨_, _, _, _, _, _, _, _, hwfgm⟩ := Game.generate_mines_fields _ _ _ _ hgen
      have hrevgm : ∀ x y : Nat, gm.revealedAt x y = false := by
        unfold Game.generate_mines at hgen
        rcases hpm : placeMines ({ g with time_started := now, last_move_time := now } : Game)
          cs ({ g with time_started := now, last_move_time := now } : Game).number_of_mines
          p with _ | gp
        · rw [hpm] at hgen
          cases hgen
        · rw [hpm] at hgen
          simp only [Option.map_some'] at hgen
          injection hgen with hgen
          subst hgen
          obtain ⟨_, _, _, _, _, _, _, _, hwfgp⟩ := placeMines_fields _ _ _ _ _ hpm
          intro x y
          rw [gp.revealedAt_computeAdjacency (hwfgp hwf),
            placeMines_revealedAt _ _ _ _ _ hpm x y]
          exact hns hst x y
      have hrzc_gm : RZC gm := by
        intro x _ y _ _ hv
        rw [hrevgm] at hv
        cases hv
      have hac_gm : AC gm := by
        intro x hx y hy hm'
        obtain ⟨t, ht⟩ := gm.getTile?_some_of_inB hwfgm hx hy
        simp only [Game.mineAt, ht] at hm'
        have hadj := Game.generate_mines_adj
          ({ g with time_started := now, last_move_time := now } : Game) p cs gm hwf hgen
          x y t ht hm'
        simp only [Game.adjAt, ht]
        exact hadj
      have hfu : gm.usc + 1 ≤ gm.width * gm.height + 1 := by
        have := Game.usc_le_total gm hwfgm
        omega
      have hrzc2 := madv_RZC (gm.width * gm.height + 1) gm ((p.1 : Int), (p.2 : Int))
        hwfgm hfu hrzc_gm hac_gm
      have hac2 := (madv_evolves (gm.width * gm.height + 1) gm
        ((p.1 : Int), (p.2 : Int))).sameMA.AC_transfer hac_gm
      have hv3 : SameView (gm.make_adjacent_tiles_visible ((p.1 : Int), (p.2 : Int)))
          ({ gm.make_adjacent_tiles_visible ((p.1 : Int), (p.2 : Int)) with
            state := GameState.Playing } : Game) :=
        SameView.ofParts rfl rfl (fun x y => rfl)
      have hv4 := winCheck_view
        ({ gm.make_adjacent_tiles_visible ((p.1 : Int), (p.2 : Int)) with
          state := GameState.Playing } : Game)
      have hvc := hv3.sv_trans hv4
      exact ⟨hvc.RZC_transfer hrzc2, hvc.1.AC_transfer hac2⟩

/-- Every reachable game is revealed-zero-closed and adjacency-consistent:
the preconditions of the cascade-closure theorem hold in every state the
engine produces. -/
theorem reachable_RZC_AC (w h m : Nat) (g : Game) (hr : Reachable w h m g) :
    RZC g ∧ AC g := by
  induction hr with
  | init now hm0 hm => exact ⟨RZC_new w h m now, AC_new w h m now⟩
  | step mv hrg hok happ ih =>
    have inv := reachable_inv w h m _ hrg
    rcases mv with ⟨p, cs, now⟩ | ⟨p, now⟩ | ⟨p, now⟩
    · exact dig_RZC_AC w h m _ _ inv ih.1 ih.2 p cs now happ
    · exact flag_RZC_AC _ _ inv.2.2.2.1 ih.1 ih.2 p now happ
    · exact unflag_RZC_AC _ _ inv.2.2.2.1 ih.1 ih.2 p now happ

end Mine
